import Mathlib

/-!
# Owl firmware (xiao-esp32s3-sense): capture, encode, fragment, send

Shallow embedding of `clients/xiao-esp32s3-sense/firmware/src/main.cpp`: the
packet fragmentation block of `loop()` (lines 207-242), `loop()` itself
(lines 153-248), the connection callbacks (lines 51-73) and `setup()`
(lines 75-151).

Conventions of the embedding:

* a byte is a `Nat`; a byte buffer is a `List Nat`; a pointer into a buffer is
  a `Nat` offset from its start;
* `size_t` is 32 bits wide on the target, `uint8_t` 8 bits: a value stored in
  one of them is reduced `% 4294967296`, resp. `% 256`, wherever the
  operation can leave the range;
* a `memcpy` that would read or write outside its buffers has no defined
  behaviour in C and is `none` here, and so is a division by zero;
* the `while` loop is run on a fuel argument, `none` when the fuel runs out;
* what the firmware does to the outside world (a notification on the
  transmit characteristic, a `delay`, a capture read, an encoder call, a line
  on the serial console) is appended to an effect trace;
* what the outside world answers (the bytes captured, the encoder's result)
  is read from a `World`: the `k`-th call of an external function gets the
  `k`-th answer, whatever it is.
-/

namespace Owl

/-! ## Constants and data -/

/-- The constant `HeaderSize` (main.cpp line 32). -/
def HeaderSize : Nat := 2

/-- The constant `MaxSendSize` (main.cpp line 33). -/
def MaxSendSize : Nat := 182

/-- A line written to the serial console (`Serial.println`, `Serial.printf`). -/
inductive Message where
  | connected
  | disconnected
  | recordingFailed
  | encoderProcessFailed
  | unableToCreateEncoder
  | i2sInitFailed
  | mtuSize (n : Nat)
  | frameIn (n : Nat)
  | frameOut (n : Nat)
  | setupCompleted
  deriving DecidableEq, Repr

/-- The struct `esp_audio_enc_in_frame_t` of esp_audio_enc_def.h: `buffer` is
the memory the pointer field refers to, `len` the declared input length. -/
structure esp_audio_enc_in_frame_t where
  buffer : List Nat
  len : Nat
  deriving DecidableEq, Repr

/-- An observable effect of the firmware: `send v` stands for
`s_tx->setValue(s_output_buffer, n); s_tx->notify();` with `v` the first `n`
bytes of the output buffer, `delay ms` for `delay(ms)`, `i2s_read size` for the
capture read of at most `size` bytes, `esp_aac_enc_process in_frame` for the
encoder call on `in_frame`, `println msg` for a line on the serial console and
`startAdvertising` for `BLEDevice::startAdvertising()`. -/
inductive Effect where
  | send (value : List Nat)
  | delay (ms : Nat)
  | i2s_read (size : Nat)
  | esp_aac_enc_process (in_frame : esp_audio_enc_in_frame_t)
  | println (msg : Message)
  | startAdvertising
  deriving DecidableEq, Repr

/-- The struct `esp_audio_enc_out_frame_t` of esp_audio_enc_def.h: `buffer` is
the memory the pointer field refers to, `len` its declared size and
`encoded_bytes` the number of bytes the encoder reported. -/
structure esp_audio_enc_out_frame_t where
  buffer : List Nat
  len : Nat
  encoded_bytes : Nat
  pts : Nat
  deriving DecidableEq, Repr

/-- The globals read or written by the fragmentation block (main.cpp lines 36-38). -/
structure Globals where
  s_output_buffer : List Nat
  s_interframe_seqno : Nat
  s_intraframe_seqno : Nat
  deriving DecidableEq, Repr

/-- The variables of the packet loop (main.cpp lines 217-238): the output
buffer and the intra-frame counter (globals), the locals `bytes_remaining`
and `buffer` (the read pointer, as an offset into the encoder's output
buffer), and the effects so far. -/
structure SendState where
  s_output_buffer : List Nat
  s_intraframe_seqno : Nat
  bytes_remaining : Nat
  buffer : Nat
  trace : List Effect
  deriving DecidableEq, Repr

/-! ## Operations -/

/-- The call `memcpy(dst + dstOff, src + srcOff, n)`: `none` when the `n` bytes
do not lie inside both buffers. -/
def memcpy (dst : List Nat) (dstOff : Nat) (src : List Nat) (srcOff n : Nat) :
    Option (List Nat) :=
  if dstOff + n ≤ dst.length ∧ srcOff + n ≤ src.length then
    some (dst.take dstOff ++ (src.drop srcOff).take n ++ dst.drop (dstOff + n))
  else none

/-- The value of `num_packets` (main.cpp line 210) for `encoded_bytes` and
`max_chunk_size`. -/
def numPackets (encoded_bytes max_chunk_size : Nat) : Nat :=
  encoded_bytes / max_chunk_size + (if encoded_bytes % max_chunk_size ≠ 0 then 1 else 0)

/-- The byte stored by `s_output_buffer[1] = (num_packets << 4) | (s_intraframe_seqno & 0xf)`
(main.cpp line 222): the shift is done in `size_t`, the store keeps 8 bits. -/
def headerByte1 (num_packets s_intraframe_seqno : Nat) : Nat :=
  (((num_packets <<< 4) % 4294967296) ||| (s_intraframe_seqno &&& 0xf)) % 256

/-- The loop `while (bytes_remaining > 0) { ... }` of main.cpp lines 219-238. -/
def sendLoop (max_chunk_size num_packets : Nat) (out_buffer : List Nat) :
    Nat → SendState → Option SendState
  | 0, st => if st.bytes_remaining > 0 then none else some st
  | fuel + 1, st =>
    if st.bytes_remaining > 0 then
      -- Header: intra-frame sequence number
      let out1 := st.s_output_buffer.set 1 (headerByte1 num_packets st.s_intraframe_seqno)
      -- Copy into output buffer
      let chunk_size := min max_chunk_size st.bytes_remaining
      let packet_size := chunk_size + HeaderSize
      match memcpy out1 HeaderSize out_buffer st.buffer chunk_size with
      | none => none
      | some out2 =>
        -- Send, then next bytes
        sendLoop max_chunk_size num_packets out_buffer fuel
          { s_output_buffer := out2
            s_intraframe_seqno := (st.s_intraframe_seqno + 1) % 256
            bytes_remaining := st.bytes_remaining - chunk_size
            buffer := st.buffer + chunk_size
            trace := st.trace ++ [Effect.send (out2.take packet_size), Effect.delay 4] }
    else some st

/-- The fragmentation block of `loop()` (main.cpp lines 207-242) for one
encoder result `out_frame`, with the constant `MaxSendSize` as the parameter
`maxSendSize`: the globals afterwards and the effects, in order. -/
def fragmentBlock (maxSendSize fuel : Nat) (g : Globals)
    (out_frame : esp_audio_enc_out_frame_t) : Option (Globals × List Effect) :=
  -- Compute number of packets to send out this frame
  let max_chunk_size := maxSendSize - HeaderSize
  if max_chunk_size = 0 then none
  else
    let num_packets := numPackets out_frame.encoded_bytes max_chunk_size
    -- Header: inter-frame sequence number
    let out0 := g.s_output_buffer.set 0 (g.s_interframe_seqno &&& 0xf)
    -- Stream out the packets
    match sendLoop max_chunk_size num_packets out_frame.buffer fuel
        { s_output_buffer := out0
          s_intraframe_seqno := 0
          bytes_remaining := out_frame.encoded_bytes
          buffer := 0
          trace := [] } with
    | none => none
    | some st =>
      -- Frame complete
      some ({ s_output_buffer := st.s_output_buffer
              s_interframe_seqno := (g.s_interframe_seqno + 1) % 256
              s_intraframe_seqno := st.s_intraframe_seqno }, st.trace)

/-! ## Reading the trace -/

/-- The packets handed to the transport, in emission order. -/
def sentPackets : List Effect → List (List Nat)
  | [] => []
  | Effect.send v :: es => v :: sentPackets es
  | _ :: es => sentPackets es

/-- The payload of a packet: the bytes after the header. -/
def payload (packet : List Nat) : List Nat := packet.drop HeaderSize

/-- The encoded frame: the first `encoded_bytes` bytes of the encoder's output buffer. -/
def encodedFrame (out_frame : esp_audio_enc_out_frame_t) : List Nat :=
  out_frame.buffer.take out_frame.encoded_bytes

/-- The bytes of `xs` at positions `[a, b)`. -/
def slice (xs : List Nat) (a b : Nat) : List Nat := (xs.drop a).take (b - a)

/-- The high nibble of a byte. -/
def highNibble (b : Nat) : Nat := b / 16

/-- The low nibble of a byte. -/
def lowNibble (b : Nat) : Nat := b % 16

/-- An output buffer of `n` zero bytes, as a static array is at start-up. -/
def zeroBuffer (n : Nat) : List Nat := List.replicate n 0

/-- An encoder result of `L` encoded bytes, byte `i` being `i % 256`. -/
def rampFrame (L : Nat) : esp_audio_enc_out_frame_t :=
  { buffer := (List.range L).map (fun i => i % 256), len := L, encoded_bytes := L, pts := 0 }

/-- The globals at start-up, for an output buffer of `n` bytes. -/
def initGlobals (n : Nat) : Globals :=
  { s_output_buffer := zeroBuffer n, s_interframe_seqno := 0, s_intraframe_seqno := 0 }

/-! ## The device, the outside world and `loop()` -/

/-- The value `ESP_AUDIO_ERR_OK` of `esp_audio_err_t` (esp_audio_def.h line 77). -/
def ESP_AUDIO_ERR_OK : Int := 0

/-- The globals of main.cpp (lines 35-49): those of `Globals`, the connection
flag, the encoder handle (`none` for `nullptr`), the frame sizes reported by
the encoder (non-negative) and the three audio buffers. -/
structure Device extends Globals where
  s_is_connected : Bool
  s_encoder_handle : Option Nat
  s_frame_in_bytes : Nat
  s_frame_out_bytes : Nat
  s_recording_buffer : List Nat
  s_input_frame : List Nat
  s_compressed_frame : List Nat
  deriving DecidableEq, Repr

/-- What one call of `esp_i2s::i2s_read` leaves behind: the contents of the
recording buffer and the value of `bytes_recorded`. -/
structure I2sReadResult where
  buffer : List Nat
  bytes_recorded : Nat
  deriving DecidableEq, Repr

/-- What one call of `esp_aac_enc_process` leaves behind: its return value and
the struct `out_frame` (its buffer being the compressed-frame buffer). -/
structure EncoderResult where
  status : Int
  out_frame : esp_audio_enc_out_frame_t
  deriving DecidableEq, Repr

/-- The outside world of `loop()`: the answer of the `k`-th capture read and of
the `k`-th encoder call, and how many of each were made so far. -/
structure World where
  i2s_read : Nat → I2sReadResult
  esp_aac_enc_process : Nat → EncoderResult
  reads : Nat
  encodes : Nat

/-- The call `memset(dst + dstOff, value, n)`: `none` when the `n` bytes do not
lie inside the buffer. -/
def memset (dst : List Nat) (dstOff value n : Nat) : Option (List Nat) :=
  if dstOff + n ≤ dst.length then
    some (dst.take dstOff ++ List.replicate n (value % 256) ++ dst.drop (dstOff + n))
  else none

/-- The variables of the encode loop (main.cpp lines 183-247): the globals,
the outside world, the local `recording` (the read pointer, as an offset into
the recording buffer) and the effects so far. -/
structure EncodeState where
  dev : Device
  world : World
  recording : Nat
  trace : List Effect

/-- The body of the loop `while (recording < recording_end) { ... }` of
main.cpp lines 184-246. The flag is `true` when the body executes `return`. -/
def encodeBody (maxSendSize sendFuel recording_end : Nat) (st : EncodeState) :
    Option (Bool × EncodeState) :=
  -- Don't read past end of input buffer and pad frame with zeros if need be
  let bytes_remaining := recording_end - st.recording
  let chunk_bytes := min st.dev.s_frame_in_bytes bytes_remaining
  match memcpy st.dev.s_input_frame 0 st.dev.s_recording_buffer st.recording chunk_bytes with
  | none => none
  | some in1 =>
    match (if chunk_bytes < st.dev.s_frame_in_bytes then
        memset in1 chunk_bytes 0 (st.dev.s_frame_in_bytes - chunk_bytes) else some in1) with
    | none => none
    | some in2 =>
      let res := st.world.esp_aac_enc_process st.world.encodes
      let world : World := { st.world with encodes := st.world.encodes + 1 }
      let d1 : Device :=
        { st.dev with s_input_frame := in2, s_compressed_frame := res.out_frame.buffer }
      let t1 := st.trace ++
        [Effect.esp_aac_enc_process { buffer := in2, len := st.dev.s_frame_in_bytes }]
      if res.status ≠ ESP_AUDIO_ERR_OK then
        some (true,
          { dev := d1, world := world, recording := st.recording + chunk_bytes
            trace := t1 ++ [Effect.println Message.encoderProcessFailed] })
      else
        match fragmentBlock maxSendSize sendFuel d1.toGlobals res.out_frame with
        | none => none
        | some (g, t) =>
          some (false,
            { dev := { d1 with toGlobals := g }, world := world
              recording := st.recording + chunk_bytes, trace := t1 ++ t })

/-- The loop `while (recording < recording_end) { ... }` of main.cpp lines
183-247; a `return` in the body ends it (nothing follows the loop in `loop()`). -/
def encodeLoop (maxSendSize sendFuel recording_end : Nat) :
    Nat → EncodeState → Option EncodeState
  | 0, st => if st.recording < recording_end then none else some st
  | fuel + 1, st =>
    if st.recording < recording_end then
      match encodeBody maxSendSize sendFuel recording_end st with
      | none => none
      | some (true, st1) => some st1
      | some (false, st1) => encodeLoop maxSendSize sendFuel recording_end fuel st1
    else some st

/-- The function `loop()` (main.cpp lines 153-248), with the constant
`MaxSendSize` as the parameter `maxSendSize`: the globals and the world
afterwards, and the effects, in order. -/
def loop (maxSendSize fuel : Nat) (w : World) (d : Device) :
    Option (Device × World × List Effect) :=
  if d.s_is_connected = false then
    -- Wait for a connection
    some (d, w, [Effect.delay 50])
  else
    let r := w.i2s_read w.reads
    let w1 : World := { w with reads := w.reads + 1 }
    let d1 : Device := { d with s_recording_buffer := r.buffer }
    let t1 := [Effect.i2s_read d.s_frame_in_bytes]
    if r.bytes_recorded = 0 then
      some (d1, w1, t1 ++ [Effect.println Message.recordingFailed])
    else
      -- Encode process
      match encodeLoop maxSendSize fuel r.bytes_recorded fuel
          { dev := d1, world := w1, recording := 0, trace := t1 } with
      | none => none
      | some st => some (st.dev, st.world, st.trace)

/-- The callback `server_handler::onConnect` (main.cpp lines 53-57). -/
def onConnect (d : Device) : Device × List Effect :=
  ({ d with s_is_connected := true }, [Effect.println Message.connected])

/-- The callback `server_handler::onDisconnect` (main.cpp lines 59-64). -/
def onDisconnect (d : Device) : Device × List Effect :=
  ({ d with s_is_connected := false },
    [Effect.println Message.disconnected, Effect.startAdvertising])

/-- The callback `message_handler::onWrite` (main.cpp lines 69-72): currently unused. -/
def onWrite (d : Device) : Device × List Effect := (d, [])

/-- What happens to the device after `setup()`: a call of `loop()` or one of
the callbacks of the wireless stack. -/
inductive Op where
  | loop
  | onConnect
  | onDisconnect
  | onWrite
  deriving DecidableEq, Repr

/-- One operation on the device. -/
def step (maxSendSize fuel : Nat) (w : World) (d : Device) :
    Op → Option (Device × World × List Effect)
  | Op.loop => loop maxSendSize fuel w d
  | Op.onConnect => some ((onConnect d).1, w, (onConnect d).2)
  | Op.onDisconnect => some ((onDisconnect d).1, w, (onDisconnect d).2)
  | Op.onWrite => some ((onWrite d).1, w, (onWrite d).2)

/-- A run of the device: the operations of `ops`, one after the other. -/
def run (maxSendSize fuel : Nat) : World → Device → List Op →
    Option (Device × World × List Effect)
  | w, d, [] => some (d, w, [])
  | w, d, op :: ops =>
    match step maxSendSize fuel w d op with
    | none => none
    | some (d1, w1, t1) =>
      match run maxSendSize fuel w1 d1 ops with
      | none => none
      | some (d2, w2, t2) => some (d2, w2, t1 ++ t2)

/-- The globals as their initialisers leave them (main.cpp lines 34-49), for
an output buffer of `maxSendSize` bytes: not connected, counters at zero, no
encoder, no audio buffer. -/
def initDevice (maxSendSize : Nat) : Device :=
  { s_output_buffer := zeroBuffer maxSendSize
    s_interframe_seqno := 0
    s_intraframe_seqno := 0
    s_is_connected := false
    s_encoder_handle := none
    s_frame_in_bytes := 0
    s_frame_out_bytes := 0
    s_recording_buffer := []
    s_input_frame := []
    s_compressed_frame := [] }

/-- What the external calls of `setup()` answer: the return value of
`esp_aac_enc_open` and the handle it stores, the sizes given by
`esp_aac_enc_get_frame_size`, the result of `I2S.begin` and the value of
`BLEDevice::getMTU()`. -/
structure SetupWorld where
  esp_aac_enc_open : Int
  enc_hd : Option Nat
  in_size : Nat
  out_size : Nat
  i2s_begin : Bool
  mtu : Nat
  deriving DecidableEq, Repr

/-- The function `setup_aac_encoder()` (main.cpp lines 88-113); `ps_calloc`
gives a zero-filled buffer of the requested size. -/
def setup_aac_encoder (sw : SetupWorld) (d : Device) : Device × List Effect :=
  -- Create encoder
  if sw.esp_aac_enc_open ≠ 0 then
    ({ d with s_encoder_handle := sw.enc_hd }, [Effect.println Message.unableToCreateEncoder])
  else
    -- Get size of input and output frames, allocate audio buffers
    ({ d with
        s_encoder_handle := sw.enc_hd
        s_frame_in_bytes := sw.in_size
        s_frame_out_bytes := sw.out_size
        s_recording_buffer := List.replicate sw.in_size 0
        s_input_frame := List.replicate sw.in_size 0
        s_compressed_frame := List.replicate sw.out_size 0 },
      [Effect.println (Message.frameIn sw.in_size), Effect.println (Message.frameOut sw.out_size)])

/-- The function `setup_microphone()` (main.cpp lines 75-86): `none` when
`I2S.begin` fails, the function then printing its message for ever. -/
def setup_microphone (sw : SetupWorld) : Option (List Effect) :=
  if sw.i2s_begin then some [] else none

/-- The function `setup()` (main.cpp lines 115-151). -/
def setup (sw : SetupWorld) (d : Device) : Option (Device × List Effect) :=
  let t0 := [Effect.startAdvertising, Effect.println (Message.mtuSize sw.mtu)]
  let r := setup_aac_encoder sw d
  match setup_microphone sw with
  | none => none
  | some t2 => some (r.1, t0 ++ r.2 ++ t2 ++ [Effect.println Message.setupCompleted])

/-! ## The packets of a frame, in closed form -/

/-- The packet the loop emits at its `j`-th iteration, when it is entered with
`r` bytes remaining, the read pointer at `off` and the intra-frame counter at `k`. -/
def loopPacket (c n : Nat) (mem : List Nat) (h0 r off k j : Nat) : List Nat :=
  h0 :: headerByte1 n ((k + j) % 256) :: (mem.drop (off + j * c)).take (min c (r - j * c))

/-- The effects of the loop. -/
def loopTrace (c n : Nat) (mem : List Nat) (h0 r off k : Nat) : List Effect :=
  (List.range (numPackets r c)).flatMap
    (fun j => [Effect.send (loopPacket c n mem h0 r off k j), Effect.delay 4])

/-- The packet of index `j` of a frame of `L` bytes at the start of `mem`, sent
with the frame counter at `s`, for payloads of at most `c` bytes and `n`
packets in all. -/
def framePacket (c n s : Nat) (mem : List Nat) (L j : Nat) : List Nat :=
  (s % 16) :: (16 * (n % 16) + j % 16) :: (mem.drop (j * c)).take (min c (L - j * c))

/-! ## The effects of `loop()`, in closed form -/

/-- The input frame of the `i`-th encoder call of the encode loop, when the loop
is entered with the read pointer at `off` and `r` bytes to go, for an input
frame size `F`: the next `min F (r - i * F)` recorded bytes, then zeros up to
`F` bytes. -/
def chunkInput (recording : List Nat) (off r F i : Nat) : List Nat :=
  (recording.drop (off + i * F)).take (min F (r - i * F))
    ++ List.replicate (F - min F (r - i * F)) 0

/-- The effects of the fragmentation block on the encoder result `out_frame`
with the frame counter at `s`. -/
def frameTrace (maxSendSize s : Nat) (out_frame : esp_audio_enc_out_frame_t) : List Effect :=
  loopTrace (maxSendSize - HeaderSize)
    (numPackets out_frame.encoded_bytes (maxSendSize - HeaderSize)) out_frame.buffer
    (s &&& 0xf) out_frame.encoded_bytes 0 0

/-- The effects of the `i`-th pass of the encode loop when its encoder call
succeeds (the loop being entered with `e0` encoder calls made before and the
frame counter at `s0`): the encoder call, then the packets of its result. -/
def chunkTrace (maxSendSize : Nat) (enc : Nat → EncoderResult) (recording : List Nat)
    (off r F e0 s0 i : Nat) : List Effect :=
  Effect.esp_aac_enc_process { buffer := chunkInput recording off r F i, len := F }
    :: frameTrace maxSendSize ((s0 + i) % 256) (enc (e0 + i)).out_frame

/-- The effects of the first `j` passes of the encode loop, all successful. -/
def chunksTrace (maxSendSize : Nat) (enc : Nat → EncoderResult) (recording : List Nat)
    (off r F e0 s0 j : Nat) : List Effect :=
  (List.range j).flatMap (chunkTrace maxSendSize enc recording off r F e0 s0)

/-- The number of encoder calls in a trace. -/
def encoderCalls : List Effect → Nat
  | [] => 0
  | Effect.esp_aac_enc_process _ :: es => encoderCalls es + 1
  | _ :: es => encoderCalls es

/-- The number of packets sent in a trace. -/
def sendCount (t : List Effect) : Nat := (sentPackets t).length

/-- The number of waits in a trace. -/
def delayCount : List Effect → Nat
  | [] => 0
  | Effect.delay _ :: es => delayCount es + 1
  | _ :: es => delayCount es

/-- The globals on which `loop()` can run without leaving its buffers: the
output buffer has `maxSendSize` bytes, more than a header, the input frame has
`s_frame_in_bytes` bytes, at least one, and the frame counter is a byte. -/
def DeviceOk (maxSendSize : Nat) (d : Device) : Prop :=
  HeaderSize < maxSendSize
    ∧ d.s_output_buffer.length = maxSendSize
    ∧ d.s_input_frame.length = d.s_frame_in_bytes
    ∧ 0 < d.s_frame_in_bytes
    ∧ d.s_interframe_seqno < 256

/-- An outside world that keeps to the interfaces: a capture read reports no
more bytes than its buffer holds, a successful encoder call no more bytes than
its output buffer holds, and neither more than `fuel`. -/
def WorldOk (fuel : Nat) (w : World) : Prop :=
  (∀ k, (w.i2s_read k).bytes_recorded ≤ (w.i2s_read k).buffer.length
      ∧ (w.i2s_read k).bytes_recorded ≤ fuel)
    ∧ ∀ k, (w.esp_aac_enc_process k).status = ESP_AUDIO_ERR_OK →
        (w.esp_aac_enc_process k).out_frame.encoded_bytes
            ≤ (w.esp_aac_enc_process k).out_frame.buffer.length
          ∧ (w.esp_aac_enc_process k).out_frame.encoded_bytes ≤ fuel

/-- The frame numbering of a trace that starts with the frame counter at `s`:
every packet sent comes after an encoder call, and the packet of the frame of
the `(k + 1)`-th encoder call of the trace has `(s + k) % 16` as its byte 0. -/
def SeqOk (s : Nat) (t : List Effect) : Prop :=
  ∀ pre p post, t = pre ++ Effect.send p :: post →
    1 ≤ encoderCalls pre ∧ p[0]? = some ((s + (encoderCalls pre - 1)) % 16)

/-- The pacing of a trace: every packet sent is followed at once by a wait of 4 ms. -/
def Paced (t : List Effect) : Prop :=
  ∀ pre p post, t = pre ++ Effect.send p :: post → ∃ post1, post = Effect.delay 4 :: post1

/-- A device after a successful `setup()`, for an encoder with input frames of
8 bytes and output frames of at most 40 bytes: connected, frame counter at
`seq`. -/
def demoDevice (seq : Nat) : Device :=
  { s_output_buffer := zeroBuffer MaxSendSize
    s_interframe_seqno := seq
    s_intraframe_seqno := 0
    s_is_connected := true
    s_encoder_handle := some 1
    s_frame_in_bytes := 8
    s_frame_out_bytes := 40
    s_recording_buffer := List.replicate 8 0
    s_input_frame := List.replicate 8 0
    s_compressed_frame := List.replicate 40 0 }

/-- A world in which every capture read gives `B` bytes (of a buffer of 8) and
every encoder call answers `status` with an encoded frame of `L` bytes. -/
def demoWorld (B : Nat) (status : Int) (L : Nat) : World :=
  { i2s_read := fun _ => { buffer := List.replicate 8 7, bytes_recorded := B }
    esp_aac_enc_process := fun _ => { status := status, out_frame := rampFrame L }
    reads := 0
    encodes := 0 }

/-! ## The receiver's reading of the wire format -/

/-- The frame id a receiver reads in a packet: the low nibble of byte 0. -/
def frameId (p : List Nat) : Nat := lowNibble (p.getD 0 0)

/-- The packet count a receiver reads in a packet: the high nibble of byte 1. -/
def packetCount (p : List Nat) : Nat := highNibble (p.getD 1 0)

/-- The packet index a receiver reads in a packet: the low nibble of byte 1. -/
def packetIndex (p : List Nat) : Nat := lowNibble (p.getD 1 0)

/-- The payload of the first packet of `packets` with frame id `id` and index `i`. -/
def payloadOf (packets : List (List Nat)) (id i : Nat) : Option (List Nat) :=
  (packets.find? (fun p => decide (frameId p = id ∧ packetIndex p = i))).map payload

/-- The payloads of the packets of frame `id` for the indices of the list, in
that order, one after the other; `none` when an index has no packet. -/
def gather (packets : List (List Nat)) (id : Nat) : List Nat → Option (List Nat)
  | [] => some []
  | i :: rest =>
    match payloadOf packets id i, gather packets id rest with
    | some x, some xs => some (x ++ xs)
    | _, _ => none

/-- The reassembly a receiver does on the packets of a frame (spec, section 6):
frame id and packet count are read in the first packet, and the payloads for
the indices `0 .. count - 1` of that frame id are concatenated. -/
def reassemble (packets : List (List Nat)) : Option (List Nat) :=
  match packets with
  | [] => none
  | p :: _ => gather packets (frameId p) (List.range (packetCount p))

/-- Answers of the external calls of `setup()` with which it succeeds: the
encoder opens and asks for input frames of 8 bytes and output frames of 40. -/
def demoSetup : SetupWorld :=
  { esp_aac_enc_open := 0, enc_hd := some 1, in_size := 8, out_size := 40
    i2s_begin := true, mtu := 185 }

/-- The state in which `loop()` enters its encode loop on `demoDevice seq`
after a capture read of `demoWorld B status L`. -/
def demoEncodeState (seq B : Nat) (status : Int) (L : Nat) : EncodeState :=
  { dev := { demoDevice seq with s_recording_buffer := List.replicate 8 7 }
    world := { demoWorld B status L with reads := 1 }
    recording := 0
    trace := [Effect.i2s_read 8] }

/-- The input frames handed to the encoder in a trace, in call order. -/
def encoderInputs : List Effect → List esp_audio_enc_in_frame_t
  | [] => []
  | Effect.esp_aac_enc_process f :: es => f :: encoderInputs es
  | _ :: es => encoderInputs es

/-- The device of `demoDevice` with input frames of `F` bytes instead of 8, so
that a capture of 8 bytes is encoded in several chunks. -/
def demoDeviceWith (seq F : Nat) : Device :=
  { demoDevice seq with
    s_frame_in_bytes := F
    s_input_frame := List.replicate F 0 }

/-- Answers of the external calls of `setup()` with which the encoder does not
open (`esp_aac_enc_open` returns `ESP_AUDIO_ERR_FAIL` and stores no handle)
while the microphone starts. -/
def failedOpenSetup : SetupWorld :=
  { esp_aac_enc_open := -1, enc_hd := none, in_size := 8, out_size := 40
    i2s_begin := true, mtu := 185 }

/-- A world in which every capture read gives 5 bytes (of a buffer of 8) and
every encoder call succeeds, the second one (call 1) with an empty result and
the others with an encoded frame of 6 bytes. -/
def gapWorld : World :=
  { i2s_read := fun _ => { buffer := List.replicate 8 7, bytes_recorded := 5 }
    esp_aac_enc_process := fun k =>
      { status := 0, out_frame := if k = 1 then rampFrame 0 else rampFrame 6 }
    reads := 0
    encodes := 0 }

/-! ## Auxiliary lemmas -/

theorem land_0xf (s : Nat) : s &&& 0xf = s % 16 :=
  Nat.and_pow_two_sub_one_eq_mod s 4

theorem headerByte1_eq (n k : Nat) : headerByte1 n k = 16 * (n % 16) + k % 16 := by
  unfold headerByte1
  rw [land_0xf, Nat.shiftLeft_eq]
  have h1 : n * 2 ^ 4 % 4294967296 = 2 ^ 4 * (n % 268435456) := by omega
  have h2 : k % 16 < 2 ^ 4 := by omega
  rw [h1, ← Nat.mul_add_lt_is_or h2]
  omega

theorem numPackets_zero (c : Nat) : numPackets 0 c = 0 := by
  simp [numPackets]

theorem numPackets_le {r c : Nat} (hr : 0 < r) (hrc : r ≤ c) : numPackets r c = 1 := by
  unfold numPackets
  rcases Nat.lt_or_eq_of_le hrc with h | h
  · rw [Nat.div_eq_of_lt h, Nat.mod_eq_of_lt h]
    simp; omega
  · subst h
    simp [Nat.div_self hr]

theorem numPackets_gt {r c : Nat} (hc : 0 < c) (hrc : c < r) :
    numPackets r c = numPackets (r - c) c + 1 := by
  unfold numPackets
  rw [Nat.div_eq_sub_div hc (Nat.le_of_lt hrc), Nat.mod_eq_sub_mod (Nat.le_of_lt hrc)]
  omega

theorem sentPackets_append (t u : List Effect) :
    sentPackets (t ++ u) = sentPackets t ++ sentPackets u := by
  induction t with
  | nil => rfl
  | cons e t ih =>
    cases e <;> simp [sentPackets, ih]


theorem memcpy_header (h0 b : Nat) (rest mem : List Nat) (off m : Nat)
    (hm : m ≤ rest.length) (hoff : off + m ≤ mem.length) :
    memcpy (h0 :: b :: rest) HeaderSize mem off m
      = some (h0 :: b :: ((mem.drop off).take m ++ rest.drop m)) := by
  unfold memcpy HeaderSize
  have h : 2 + m ≤ (h0 :: b :: rest).length ∧ off + m ≤ mem.length := by
    simp only [List.length_cons]; omega
  rw [if_pos h]
  have e : 2 + m = m + 2 := by omega
  simp [e]

theorem take_packet (h0 b : Nat) (rest mem : List Nat) (off m : Nat)
    (hoff : off + m ≤ mem.length) :
    (h0 :: b :: ((mem.drop off).take m ++ rest.drop m)).take (m + HeaderSize)
      = h0 :: b :: (mem.drop off).take m := by
  have hl : ((mem.drop off).take m).length = m := by
    simp only [List.length_take, List.length_drop]; omega
  unfold HeaderSize
  simp only [List.take_succ_cons]
  rw [List.take_append_eq_append_take, hl]
  simp

theorem loopTrace_zero (c n : Nat) (mem : List Nat) (h0 off k : Nat) :
    loopTrace c n mem h0 0 off k = [] := by
  simp [loopTrace, numPackets_zero]

theorem sendLoop_spec (c n : Nat) (mem : List Nat) (hc : 0 < c) :
    ∀ (fuel r off k h0 h1 : Nat) (rest : List Nat) (t : List Effect),
      r ≤ fuel → off + r ≤ mem.length → c ≤ rest.length → k < 256 →
      ∃ h1' rest', rest'.length = rest.length ∧
        sendLoop c n mem fuel
            { s_output_buffer := h0 :: h1 :: rest, s_intraframe_seqno := k,
              bytes_remaining := r, buffer := off, trace := t }
          = some { s_output_buffer := h0 :: h1' :: rest'
                   s_intraframe_seqno := (k + numPackets r c) % 256
                   bytes_remaining := 0
                   buffer := off + r
                   trace := t ++ loopTrace c n mem h0 r off k } := by
  intro fuel
  induction fuel with
  | zero =>
    intro r off k h0 h1 rest t hr _ _ hk
    have hr0 : r = 0 := by omega
    subst hr0
    refine ⟨h1, rest, rfl, ?_⟩
    simp [sendLoop, loopTrace_zero, numPackets_zero, Nat.mod_eq_of_lt hk]
  | succ fuel ih =>
    intro r off k h0 h1 rest t hr hoff hrest hk
    rcases Nat.eq_zero_or_pos r with hr0 | hpos
    · subst hr0
      refine ⟨h1, rest, rfl, ?_⟩
      simp [sendLoop, loopTrace_zero, numPackets_zero, Nat.mod_eq_of_lt hk]
    · have hm1 : min c r ≤ rest.length := by omega
      have hm2 : off + min c r ≤ mem.length := by omega
      have hl : ((mem.drop off).take (min c r) ++ rest.drop (min c r)).length = rest.length := by
        simp only [List.length_append, List.length_take, List.length_drop]; omega
      obtain ⟨h1', rest', hlen, hrun⟩ :=
        ih (r - min c r) (off + min c r) ((k + 1) % 256) h0 (headerByte1 n k)
          ((mem.drop off).take (min c r) ++ rest.drop (min c r))
          (t ++ [Effect.send (h0 :: headerByte1 n k :: (mem.drop off).take (min c r)),
                 Effect.delay 4])
          (by omega) (by omega) (by rw [hl]; exact hrest) (by omega)
      refine ⟨h1', rest', hlen.trans hl, ?_⟩
      rw [sendLoop, if_pos hpos]
      simp only [List.set_cons_succ, List.set_cons_zero]
      rw [memcpy_header h0 _ rest mem off _ hm1 hm2]
      simp only [take_packet h0 _ rest mem off _ hm2]
      rw [hrun]
      have hoff' : off + min c r + (r - min c r) = off + r := by omega
      rcases Nat.lt_or_ge c r with hlt | hge
      · -- a full chunk, more to come
        have hmin : min c r = c := by omega
        have hnp := numPackets_gt hc hlt
        have hk' : ((k + 1) % 256 + numPackets (r - c) c) % 256 = (k + numPackets r c) % 256 := by
          omega
        have htr : loopTrace c n mem h0 r off k
            = [Effect.send (h0 :: headerByte1 n k :: (mem.drop off).take c), Effect.delay 4]
              ++ loopTrace c n mem h0 (r - c) (off + c) ((k + 1) % 256) := by
          unfold loopTrace
          rw [hnp, List.range_succ_eq_map, List.flatMap_cons, List.flatMap_map]
          congr 1
          · simp [loopPacket, Nat.mod_eq_of_lt hk]
            omega
          · apply congrArg
            funext j
            simp only [loopPacket, Function.comp]
            have e1 : (k + (j + 1)) % 256 = ((k + 1) % 256 + j) % 256 := by omega
            have e2 : off + (j + 1) * c = off + c + j * c := by
              rw [Nat.succ_mul]; omega
            have e3 : r - (j + 1) * c = r - c - j * c := by
              rw [Nat.succ_mul]; omega
            simp only [Nat.succ_eq_add_one, e1, e2, e3]
        simp only [hmin] at hoff' ⊢
        rw [hk', hoff', htr]
        simp
      · -- the last chunk
        have hmin : min c r = r := by omega
        have hnp := numPackets_le hpos hge
        have htr : loopTrace c n mem h0 r off k
            = [Effect.send (h0 :: headerByte1 n k :: (mem.drop off).take r), Effect.delay 4] := by
          unfold loopTrace
          rw [hnp, show List.range 1 = [0] from rfl]
          simp [loopPacket, Nat.mod_eq_of_lt hk, hmin]
        simp only [hmin] at hoff' ⊢
        rw [htr]
        simp [loopTrace_zero, numPackets_zero, hnp]

theorem sentPackets_loopTrace (c n : Nat) (mem : List Nat) (h0 r off k : Nat) :
    sentPackets (loopTrace c n mem h0 r off k)
      = (List.range (numPackets r c)).map (loopPacket c n mem h0 r off k) := by
  unfold loopTrace
  induction List.range (numPackets r c) with
  | nil => rfl
  | cons j js ih =>
    rw [List.flatMap_cons, sentPackets_append, ih]
    rfl

theorem loopPacket_eq_framePacket (c n s : Nat) (mem : List Nat) (L j : Nat) :
    loopPacket c n mem (s &&& 0xf) L 0 0 j = framePacket c n s mem L j := by
  unfold loopPacket framePacket
  rw [land_0xf, headerByte1_eq]
  have e : (0 + j) % 256 % 16 = j % 16 := by omega
  rw [e, Nat.zero_add]

/-- What the fragmentation block does on well-formed input: it returns, the
packets it sends are `framePacket 0, ..., framePacket (n - 1)`, each followed
by a delay, and the globals are updated as stated. -/
theorem fragmentBlock_spec (maxSendSize fuel : Nat) (g : Globals)
    (out_frame : esp_audio_enc_out_frame_t)
    (hM : HeaderSize < maxSendSize)
    (hbuf : g.s_output_buffer.length = maxSendSize)
    (hlen : out_frame.encoded_bytes ≤ out_frame.buffer.length)
    (hfuel : out_frame.encoded_bytes ≤ fuel) :
    ∃ g' trace, fragmentBlock maxSendSize fuel g out_frame = some (g', trace)
      ∧ trace = loopTrace (maxSendSize - HeaderSize)
          (numPackets out_frame.encoded_bytes (maxSendSize - HeaderSize)) out_frame.buffer
          (g.s_interframe_seqno &&& 0xf) out_frame.encoded_bytes 0 0
      ∧ sentPackets trace
          = (List.range (numPackets out_frame.encoded_bytes (maxSendSize - HeaderSize))).map
              (framePacket (maxSendSize - HeaderSize)
                (numPackets out_frame.encoded_bytes (maxSendSize - HeaderSize))
                g.s_interframe_seqno out_frame.buffer out_frame.encoded_bytes)
      ∧ g'.s_output_buffer.length = maxSendSize
      ∧ g'.s_interframe_seqno = (g.s_interframe_seqno + 1) % 256
      ∧ g'.s_intraframe_seqno
          = numPackets out_frame.encoded_bytes (maxSendSize - HeaderSize) % 256 := by
  unfold HeaderSize at hM
  obtain ⟨b0, b1, rest, hg⟩ : ∃ b0 b1 rest, g.s_output_buffer = b0 :: b1 :: rest := by
    match h : g.s_output_buffer with
    | [] => rw [h] at hbuf; simp at hbuf; omega
    | [_] => rw [h] at hbuf; simp at hbuf; omega
    | b0 :: b1 :: rest => exact ⟨b0, b1, rest, rfl⟩
  have hrest : rest.length + 2 = maxSendSize := by
    rw [hg] at hbuf; simpa using hbuf
  have hc : 0 < maxSendSize - HeaderSize := by unfold HeaderSize; omega
  obtain ⟨h1', rest', hlen', hrun⟩ :=
    sendLoop_spec (maxSendSize - HeaderSize)
      (numPackets out_frame.encoded_bytes (maxSendSize - HeaderSize)) out_frame.buffer hc
      fuel out_frame.encoded_bytes 0 0 (g.s_interframe_seqno &&& 0xf) b1 rest []
      hfuel (by omega) (by unfold HeaderSize; omega) (by omega)
  refine ⟨{ s_output_buffer := (g.s_interframe_seqno &&& 0xf) :: h1' :: rest'
            s_interframe_seqno := (g.s_interframe_seqno + 1) % 256
            s_intraframe_seqno :=
              (0 + numPackets out_frame.encoded_bytes (maxSendSize - HeaderSize)) % 256 },
    _, ?_, rfl, ?_, ?_, ?_, ?_⟩
  · unfold fragmentBlock
    simp only [hg, List.set_cons_zero]
    rw [if_neg (by omega), hrun]
    simp only [List.nil_append, Nat.zero_add]
  · rw [sentPackets_loopTrace]
    apply List.map_congr_left
    intro j _
    exact loopPacket_eq_framePacket _ _ _ _ _ _
  · simp only [List.length_cons]; omega
  · rfl
  · simp

theorem lt_numPackets_iff {c : Nat} (hc : 0 < c) (L j : Nat) :
    j < numPackets L c ↔ j * c < L := by
  have hdm : c * (L / c) + L % c = L := Nat.div_add_mod L c
  have hr : L % c < c := Nat.mod_lt L hc
  unfold numPackets
  constructor
  · intro h
    by_cases hj : j < L / c
    · have h1 : (j + 1) * c ≤ L / c * c := Nat.mul_le_mul_right c hj
      rw [Nat.succ_mul, Nat.mul_comm (L / c) c] at h1
      omega
    · have hjq : j = L / c := by
        split at h <;> omega
      have hne : L % c ≠ 0 := by
        intro h0
        rw [if_neg (by simpa using h0)] at h
        omega
      rw [hjq, Nat.mul_comm (L / c) c]
      omega
  · intro h
    by_cases hj : j ≤ L / c
    · rcases Nat.lt_or_eq_of_le hj with h1 | h1
      · omega
      · have hne : L % c ≠ 0 := by
          intro h0
          rw [h1, Nat.mul_comm (L / c) c] at h
          omega
        rw [if_pos hne]
        omega
    · have h1 : (L / c + 1) * c ≤ j * c := Nat.mul_le_mul_right c (by omega)
      rw [Nat.succ_mul, Nat.mul_comm (L / c) c] at h1
      omega

theorem numPackets_eq_ceil {c : Nat} (hc : 0 < c) (L : Nat) :
    numPackets L c = ⌈(L : ℚ) / (c : ℚ)⌉₊ := by
  have hcq : (0 : ℚ) < (c : ℚ) := by exact_mod_cast hc
  apply le_antisymm
  · by_contra hlt
    have hlt2 : ⌈(L : ℚ) / (c : ℚ)⌉₊ < numPackets L c := not_le.mp hlt
    have h1 : ⌈(L : ℚ) / (c : ℚ)⌉₊ * c < L := (lt_numPackets_iff hc L _).mp hlt2
    have h2 : (L : ℚ) / (c : ℚ) ≤ (⌈(L : ℚ) / (c : ℚ)⌉₊ : ℚ) := Nat.le_ceil _
    have h3 : (L : ℚ) ≤ (⌈(L : ℚ) / (c : ℚ)⌉₊ : ℚ) * (c : ℚ) := (div_le_iff₀ hcq).mp h2
    have h4 : L ≤ ⌈(L : ℚ) / (c : ℚ)⌉₊ * c := by exact_mod_cast h3
    omega
  · rw [Nat.ceil_le, div_le_iff₀ hcq]
    have h1 : ¬ (numPackets L c * c < L) := by
      rw [← lt_numPackets_iff hc]
      omega
    have h2 : L ≤ numPackets L c * c := not_lt.mp h1
    exact_mod_cast h2

theorem flatten_chunks (c : Nat) (mem : List Nat) (hc : 0 < c) :
    ∀ (r off : Nat),
      ((List.range (numPackets r c)).map
          (fun j => (mem.drop (off + j * c)).take (min c (r - j * c)))).flatten
        = (mem.drop off).take r := by
  intro r
  induction r using Nat.strong_induction_on with
  | _ r ih =>
    intro off
    rcases Nat.eq_zero_or_pos r with hr0 | hpos
    · subst hr0
      simp [numPackets_zero]
    · rcases Nat.lt_or_ge c r with hlt | hge
      · rw [numPackets_gt hc hlt, List.range_succ_eq_map, List.map_cons, List.map_map,
          List.flatten_cons]
        have hfun : ((fun j => (mem.drop (off + j * c)).take (min c (r - j * c))) ∘ Nat.succ)
            = (fun j => (mem.drop (off + c + j * c)).take (min c (r - c - j * c))) := by
          funext j
          have e2 : off + (j + 1) * c = off + c + j * c := by
            rw [Nat.succ_mul]; omega
          have e3 : r - (j + 1) * c = r - c - j * c := by
            rw [Nat.succ_mul]; omega
          simp only [Function.comp, Nat.succ_eq_add_one, e2, e3]
        rw [hfun, ih (r - c) (by omega) (off + c)]
        have hmin : min c (r - 0 * c) = c := by
          rw [Nat.zero_mul]; omega
        have e : r = c + (r - c) := by omega
        rw [hmin, Nat.zero_mul, Nat.add_zero]
        conv_rhs => rw [e, List.take_add, List.drop_drop]
      · rw [numPackets_le hpos hge, show List.range 1 = [0] from rfl]
        have hmin : min c r = r := by omega
        simp [hmin]

theorem payload_framePacket (c n s : Nat) (mem : List Nat) (L j : Nat) :
    payload (framePacket c n s mem L j) = (mem.drop (j * c)).take (min c (L - j * c)) := by
  simp [payload, framePacket, HeaderSize]

theorem slice_encodedFrame (c : Nat) (mem : List Nat) (L j : Nat) :
    slice (mem.take L) (j * c) (min ((j + 1) * c) L)
      = (mem.drop (j * c)).take (min c (L - j * c)) := by
  unfold slice
  rw [List.drop_take, List.take_take]
  have e : min (min ((j + 1) * c) L - j * c) (L - j * c) = min c (L - j * c) := by
    rw [Nat.succ_mul]; omega
  rw [e]

theorem length_chunk {c : Nat} (mem : List Nat) (L j : Nat) (hlen : L ≤ mem.length) :
    ((mem.drop (j * c)).take (min c (L - j * c))).length = min c (L - j * c) := by
  simp only [List.length_take, List.length_drop]
  omega

theorem length_framePacket {c : Nat} (n s : Nat) (mem : List Nat) (L j : Nat)
    (hlen : L ≤ mem.length) :
    (framePacket c n s mem L j).length = min c (L - j * c) + HeaderSize := by
  unfold framePacket HeaderSize
  simp only [List.length_cons, length_chunk mem L j hlen]

theorem framePacket_byte0 (c n s : Nat) (mem : List Nat) (L j : Nat) :
    (framePacket c n s mem L j)[0]? = some (s % 16) := rfl

theorem framePacket_byte1 (c n s : Nat) (mem : List Nat) (L j : Nat) :
    (framePacket c n s mem L j)[1]? = some (16 * (n % 16) + j % 16) := by
  simp [framePacket]

theorem getElem?_map_range {α : Type} (f : Nat → α) {n i : Nat} (h : i < n) :
    ((List.range n).map f)[i]? = some (f i) := by
  rw [List.getElem?_map, List.getElem?_range h]; rfl

/-! ## The fragmentation block: packets and payloads -/

/-- C1. Fragmentation round trip: for every maximum packet size above the
header size, every encoder result and every value of the globals, the
fragmentation block returns, and the payloads of the packets it sends,
concatenated in emission order, are exactly the bytes of the encoded frame. -/
theorem fragment_payloads_roundtrip (maxSendSize fuel : Nat) (g : Globals)
    (out_frame : esp_audio_enc_out_frame_t)
    (hM : HeaderSize < maxSendSize)
    (hbuf : g.s_output_buffer.length = maxSendSize)
    (hlen : out_frame.encoded_bytes ≤ out_frame.buffer.length)
    (hfuel : out_frame.encoded_bytes ≤ fuel) :
    ∃ g' trace, fragmentBlock maxSendSize fuel g out_frame = some (g', trace)
      ∧ ((sentPackets trace).map payload).flatten = encodedFrame out_frame := by
  obtain ⟨g', trace, hrun, -, hps, -, -, -⟩ :=
    fragmentBlock_spec maxSendSize fuel g out_frame hM hbuf hlen hfuel
  refine ⟨g', trace, hrun, ?_⟩
  have hc : 0 < maxSendSize - HeaderSize := by omega
  have h := flatten_chunks (maxSendSize - HeaderSize) out_frame.buffer hc
    out_frame.encoded_bytes 0
  simp only [Nat.zero_add, List.drop_zero] at h
  have hf : payload ∘ framePacket (maxSendSize - HeaderSize)
        (numPackets out_frame.encoded_bytes (maxSendSize - HeaderSize))
        g.s_interframe_seqno out_frame.buffer out_frame.encoded_bytes
      = fun j => (out_frame.buffer.drop (j * (maxSendSize - HeaderSize))).take
          (min (maxSendSize - HeaderSize)
            (out_frame.encoded_bytes - j * (maxSendSize - HeaderSize))) := by
    funext j
    exact payload_framePacket _ _ _ _ _ _
  rw [hps, List.map_map, hf, h]
  rfl

/-- An instance at the configured sizes, for a 200-byte frame. -/
theorem fragment_payloads_roundtrip_witness :
    (HeaderSize < MaxSendSize
      ∧ (initGlobals MaxSendSize).s_output_buffer.length = MaxSendSize
      ∧ (rampFrame 200).encoded_bytes ≤ (rampFrame 200).buffer.length
      ∧ (rampFrame 200).encoded_bytes ≤ 200)
    ∧ ∃ g' trace,
        fragmentBlock MaxSendSize 200 (initGlobals MaxSendSize) (rampFrame 200) = some (g', trace)
        ∧ ((sentPackets trace).map payload).flatten = encodedFrame (rampFrame 200) :=
  ⟨⟨by decide, by simp [initGlobals, zeroBuffer], by simp [rampFrame], by simp [rampFrame]⟩,
    fragment_payloads_roundtrip MaxSendSize 200 (initGlobals MaxSendSize) (rampFrame 200)
      (by decide) (by simp [initGlobals, zeroBuffer]) (by simp [rampFrame])
      (by simp [rampFrame])⟩

/-- C2. Packet count formula: the number of packets the send loop emits for a
frame of `L` bytes is the ceiling of `L / (maxSendSize - HeaderSize)`, which
is the value `num_packets` computed before the loop; for `L = 0` no packet is
emitted. -/
theorem packet_count_formula (maxSendSize fuel : Nat) (g : Globals)
    (out_frame : esp_audio_enc_out_frame_t)
    (hM : HeaderSize < maxSendSize)
    (hbuf : g.s_output_buffer.length = maxSendSize)
    (hlen : out_frame.encoded_bytes ≤ out_frame.buffer.length)
    (hfuel : out_frame.encoded_bytes ≤ fuel) :
    ∃ g' trace, fragmentBlock maxSendSize fuel g out_frame = some (g', trace)
      ∧ (sentPackets trace).length
          = ⌈(out_frame.encoded_bytes : ℚ) / ((maxSendSize - HeaderSize : Nat) : ℚ)⌉₊
      ∧ (sentPackets trace).length
          = numPackets out_frame.encoded_bytes (maxSendSize - HeaderSize)
      ∧ (out_frame.encoded_bytes = 0 → (sentPackets trace).length = 0) := by
  obtain ⟨g', trace, hrun, -, hps, -, -, -⟩ :=
    fragmentBlock_spec maxSendSize fuel g out_frame hM hbuf hlen hfuel
  have hc : 0 < maxSendSize - HeaderSize := by omega
  have hn : (sentPackets trace).length
      = numPackets out_frame.encoded_bytes (maxSendSize - HeaderSize) := by
    rw [hps, List.length_map, List.length_range]
  refine ⟨g', trace, hrun, ?_, hn, ?_⟩
  · rw [hn]
    exact numPackets_eq_ceil hc _
  · intro h0
    rw [hn, h0, numPackets_zero]

/-- An instance at the configured sizes, for a 200-byte frame. -/
theorem packet_count_formula_witness :
    (HeaderSize < MaxSendSize
      ∧ (initGlobals MaxSendSize).s_output_buffer.length = MaxSendSize
      ∧ (rampFrame 200).encoded_bytes ≤ (rampFrame 200).buffer.length
      ∧ (rampFrame 200).encoded_bytes ≤ 200)
    ∧ ∃ g' trace,
        fragmentBlock MaxSendSize 200 (initGlobals MaxSendSize) (rampFrame 200) = some (g', trace)
        ∧ (sentPackets trace).length
            = ⌈((rampFrame 200).encoded_bytes : ℚ) / ((MaxSendSize - HeaderSize : Nat) : ℚ)⌉₊
        ∧ (sentPackets trace).length
            = numPackets (rampFrame 200).encoded_bytes (MaxSendSize - HeaderSize)
        ∧ ((rampFrame 200).encoded_bytes = 0 → (sentPackets trace).length = 0) :=
  ⟨⟨by decide, by simp [initGlobals, zeroBuffer], by simp [rampFrame], by simp [rampFrame]⟩,
    packet_count_formula MaxSendSize 200 (initGlobals MaxSendSize) (rampFrame 200)
      (by decide) (by simp [initGlobals, zeroBuffer]) (by simp [rampFrame])
      (by simp [rampFrame])⟩

/-- C3. Payload slice: the payload of the `i`-th emitted packet is the frame
bytes at positions `[i * chunk, min ((i + 1) * chunk) L)`, with
`chunk = maxSendSize - HeaderSize` and `L` the length of the frame. -/
theorem payload_is_frame_slice (maxSendSize fuel : Nat) (g : Globals)
    (out_frame : esp_audio_enc_out_frame_t)
    (hM : HeaderSize < maxSendSize)
    (hbuf : g.s_output_buffer.length = maxSendSize)
    (hlen : out_frame.encoded_bytes ≤ out_frame.buffer.length)
    (hfuel : out_frame.encoded_bytes ≤ fuel) :
    ∃ g' trace, fragmentBlock maxSendSize fuel g out_frame = some (g', trace)
      ∧ ∀ i, i < (sentPackets trace).length →
          ((sentPackets trace)[i]?).map payload
            = some (slice (encodedFrame out_frame) (i * (maxSendSize - HeaderSize))
                (min ((i + 1) * (maxSendSize - HeaderSize)) out_frame.encoded_bytes)) := by
  obtain ⟨g', trace, hrun, -, hps, -, -, -⟩ :=
    fragmentBlock_spec maxSendSize fuel g out_frame hM hbuf hlen hfuel
  refine ⟨g', trace, hrun, ?_⟩
  rw [hps]
  intro i hi
  rw [List.length_map, List.length_range] at hi
  rw [List.getElem?_map, List.getElem?_range hi]
  simp only [Option.map_some', payload_framePacket]
  unfold encodedFrame
  rw [slice_encodedFrame]

/-- An instance at the configured sizes, for a 200-byte frame. -/
theorem payload_is_frame_slice_witness :
    (HeaderSize < MaxSendSize
      ∧ (initGlobals MaxSendSize).s_output_buffer.length = MaxSendSize
      ∧ (rampFrame 200).encoded_bytes ≤ (rampFrame 200).buffer.length
      ∧ (rampFrame 200).encoded_bytes ≤ 200)
    ∧ ∃ g' trace,
        fragmentBlock MaxSendSize 200 (initGlobals MaxSendSize) (rampFrame 200) = some (g', trace)
        ∧ ∀ i, i < (sentPackets trace).length →
            ((sentPackets trace)[i]?).map payload
              = some (slice (encodedFrame (rampFrame 200)) (i * (MaxSendSize - HeaderSize))
                  (min ((i + 1) * (MaxSendSize - HeaderSize)) (rampFrame 200).encoded_bytes)) :=
  ⟨⟨by decide, by simp [initGlobals, zeroBuffer], by simp [rampFrame], by simp [rampFrame]⟩,
    payload_is_frame_slice MaxSendSize 200 (initGlobals MaxSendSize) (rampFrame 200)
      (by decide) (by simp [initGlobals, zeroBuffer]) (by simp [rampFrame])
      (by simp [rampFrame])⟩

/-- C4. Packet size bound: the fragmentation block returns (no copy leaves the
output buffer), the `i`-th packet handed to the transport has length
`chunk_size + HeaderSize` with `chunk_size` the minimum of
`maxSendSize - HeaderSize` and the bytes then remaining, this length is at
most `maxSendSize`, and the output buffer still has `maxSendSize` bytes. -/
theorem packet_size_bound (maxSendSize fuel : Nat) (g : Globals)
    (out_frame : esp_audio_enc_out_frame_t)
    (hM : HeaderSize < maxSendSize)
    (hbuf : g.s_output_buffer.length = maxSendSize)
    (hlen : out_frame.encoded_bytes ≤ out_frame.buffer.length)
    (hfuel : out_frame.encoded_bytes ≤ fuel) :
    ∃ g' trace, fragmentBlock maxSendSize fuel g out_frame = some (g', trace)
      ∧ g'.s_output_buffer.length = maxSendSize
      ∧ (∀ p ∈ sentPackets trace, p.length ≤ maxSendSize)
      ∧ ∀ i, i < (sentPackets trace).length →
          ∃ p, (sentPackets trace)[i]? = some p
            ∧ p.length = min (maxSendSize - HeaderSize)
                (out_frame.encoded_bytes - i * (maxSendSize - HeaderSize)) + HeaderSize
            ∧ HeaderSize + (payload p).length ≤ g'.s_output_buffer.length := by
  obtain ⟨g', trace, hrun, -, hps, hbuf', -, -⟩ :=
    fragmentBlock_spec maxSendSize fuel g out_frame hM hbuf hlen hfuel
  refine ⟨g', trace, hrun, hbuf', ?_, ?_⟩
  · intro p hp
    rw [hps, List.mem_map] at hp
    obtain ⟨j, -, rfl⟩ := hp
    rw [length_framePacket _ _ _ _ _ hlen]
    omega
  · rw [hps]
    intro i hi
    rw [List.length_map, List.length_range] at hi
    refine ⟨_, by rw [List.getElem?_map, List.getElem?_range hi]; rfl, ?_, ?_⟩
    · exact length_framePacket _ _ _ _ _ hlen
    · rw [payload_framePacket, length_chunk _ _ _ hlen, hbuf']
      omega

/-- An instance at the configured sizes, for a 200-byte frame. -/
theorem packet_size_bound_witness :
    (HeaderSize < MaxSendSize
      ∧ (initGlobals MaxSendSize).s_output_buffer.length = MaxSendSize
      ∧ (rampFrame 200).encoded_bytes ≤ (rampFrame 200).buffer.length
      ∧ (rampFrame 200).encoded_bytes ≤ 200)
    ∧ ∃ g' trace,
        fragmentBlock MaxSendSize 200 (initGlobals MaxSendSize) (rampFrame 200) = some (g', trace)
        ∧ g'.s_output_buffer.length = MaxSendSize
        ∧ (∀ p ∈ sentPackets trace, p.length ≤ MaxSendSize)
        ∧ ∀ i, i < (sentPackets trace).length →
            ∃ p, (sentPackets trace)[i]? = some p
              ∧ p.length = min (MaxSendSize - HeaderSize)
                  ((rampFrame 200).encoded_bytes - i * (MaxSendSize - HeaderSize)) + HeaderSize
              ∧ HeaderSize + (payload p).length ≤ g'.s_output_buffer.length :=
  ⟨⟨by decide, by simp [initGlobals, zeroBuffer], by simp [rampFrame], by simp [rampFrame]⟩,
    packet_size_bound MaxSendSize 200 (initGlobals MaxSendSize) (rampFrame 200)
      (by decide) (by simp [initGlobals, zeroBuffer]) (by simp [rampFrame])
      (by simp [rampFrame])⟩

/-! ## The fragmentation block: the header -/

/-- C5. Header byte 0: every packet emitted for a frame has as byte 0 the value
`s_interframe_seqno & 0xF` taken when the frame is fragmented, so the same
byte in all packets of the frame; its high nibble is zero and its low nibble
is the frame sequence counter modulo 16. -/
theorem header_byte0 (maxSendSize fuel : Nat) (g : Globals)
    (out_frame : esp_audio_enc_out_frame_t)
    (hM : HeaderSize < maxSendSize)
    (hbuf : g.s_output_buffer.length = maxSendSize)
    (hlen : out_frame.encoded_bytes ≤ out_frame.buffer.length)
    (hfuel : out_frame.encoded_bytes ≤ fuel) :
    ∃ g' trace, fragmentBlock maxSendSize fuel g out_frame = some (g', trace)
      ∧ (∀ p ∈ sentPackets trace, p[0]? = some (g.s_interframe_seqno &&& 0xf))
      ∧ highNibble (g.s_interframe_seqno &&& 0xf) = 0
      ∧ lowNibble (g.s_interframe_seqno &&& 0xf) = g.s_interframe_seqno % 16 := by
  obtain ⟨g', trace, hrun, -, hps, -, -, -⟩ :=
    fragmentBlock_spec maxSendSize fuel g out_frame hM hbuf hlen hfuel
  refine ⟨g', trace, hrun, ?_, ?_, ?_⟩
  · intro p hp
    rw [hps, List.mem_map] at hp
    obtain ⟨j, -, rfl⟩ := hp
    rw [land_0xf]
    exact framePacket_byte0 _ _ _ _ _ _
  · rw [land_0xf]; unfold highNibble; omega
  · rw [land_0xf]; unfold lowNibble; omega

/-- An instance at the configured sizes, for a 200-byte frame. -/
theorem header_byte0_witness :
    (HeaderSize < MaxSendSize
      ∧ (initGlobals MaxSendSize).s_output_buffer.length = MaxSendSize
      ∧ (rampFrame 200).encoded_bytes ≤ (rampFrame 200).buffer.length
      ∧ (rampFrame 200).encoded_bytes ≤ 200)
    ∧ ∃ g' trace,
        fragmentBlock MaxSendSize 200 (initGlobals MaxSendSize) (rampFrame 200) = some (g', trace)
        ∧ (∀ p ∈ sentPackets trace,
            p[0]? = some ((initGlobals MaxSendSize).s_interframe_seqno &&& 0xf))
        ∧ highNibble ((initGlobals MaxSendSize).s_interframe_seqno &&& 0xf) = 0
        ∧ lowNibble ((initGlobals MaxSendSize).s_interframe_seqno &&& 0xf)
            = (initGlobals MaxSendSize).s_interframe_seqno % 16 :=
  ⟨⟨by decide, by simp [initGlobals, zeroBuffer], by simp [rampFrame], by simp [rampFrame]⟩,
    header_byte0 MaxSendSize 200 (initGlobals MaxSendSize) (rampFrame 200)
      (by decide) (by simp [initGlobals, zeroBuffer]) (by simp [rampFrame])
      (by simp [rampFrame])⟩

/-- C6, as the code has it. Header index nibble: the low nibble of header
byte 1 of the `i`-th emitted packet is `i` modulo 16, hence `i` itself for the
first 16 packets of a frame (0 for the first, one more for each next packet),
and it is smaller than the number of packets. -/
theorem header_index_nibble (maxSendSize fuel : Nat) (g : Globals)
    (out_frame : esp_audio_enc_out_frame_t)
    (hM : HeaderSize < maxSendSize)
    (hbuf : g.s_output_buffer.length = maxSendSize)
    (hlen : out_frame.encoded_bytes ≤ out_frame.buffer.length)
    (hfuel : out_frame.encoded_bytes ≤ fuel) :
    ∃ g' trace, fragmentBlock maxSendSize fuel g out_frame = some (g', trace)
      ∧ ∀ i, i < (sentPackets trace).length →
          ∃ p b1, (sentPackets trace)[i]? = some p ∧ p[1]? = some b1
            ∧ lowNibble b1 = i % 16
            ∧ (i < 16 → lowNibble b1 = i)
            ∧ lowNibble b1 < (sentPackets trace).length := by
  obtain ⟨g', trace, hrun, -, hps, -, -, -⟩ :=
    fragmentBlock_spec maxSendSize fuel g out_frame hM hbuf hlen hfuel
  refine ⟨g', trace, hrun, ?_⟩
  rw [hps]
  intro i hi
  have hi' := hi
  rw [List.length_map, List.length_range] at hi'
  refine ⟨_, _, getElem?_map_range _ hi', framePacket_byte1 _ _ _ _ _ _, ?_, ?_, ?_⟩
  · unfold lowNibble; omega
  · intro h16; unfold lowNibble; omega
  · rw [List.length_map, List.length_range]; unfold lowNibble; omega

/-- An instance at the configured sizes, for a 200-byte frame. -/
theorem header_index_nibble_witness :
    (HeaderSize < MaxSendSize
      ∧ (initGlobals MaxSendSize).s_output_buffer.length = MaxSendSize
      ∧ (rampFrame 200).encoded_bytes ≤ (rampFrame 200).buffer.length
      ∧ (rampFrame 200).encoded_bytes ≤ 200)
    ∧ ∃ g' trace,
        fragmentBlock MaxSendSize 200 (initGlobals MaxSendSize) (rampFrame 200) = some (g', trace)
        ∧ ∀ i, i < (sentPackets trace).length →
            ∃ p b1, (sentPackets trace)[i]? = some p ∧ p[1]? = some b1
              ∧ lowNibble b1 = i % 16
              ∧ (i < 16 → lowNibble b1 = i)
              ∧ lowNibble b1 < (sentPackets trace).length :=
  ⟨⟨by decide, by simp [initGlobals, zeroBuffer], by simp [rampFrame], by simp [rampFrame]⟩,
    header_index_nibble MaxSendSize 200 (initGlobals MaxSendSize) (rampFrame 200)
      (by decide) (by simp [initGlobals, zeroBuffer]) (by simp [rampFrame])
      (by simp [rampFrame])⟩

/-- The index nibble is not the index beyond 15: at the configured sizes a frame of 2881 bytes is sent
in 17 packets, and the packet of index 16 carries the low nibble 0 in header
byte 1, not its index. -/
theorem index_nibble_wraps_after_16_packets :
    ∃ g' trace p b1,
      fragmentBlock MaxSendSize 2881 (initGlobals MaxSendSize) (rampFrame 2881) = some (g', trace)
      ∧ (sentPackets trace).length = 17
      ∧ (sentPackets trace)[16]? = some p ∧ p[1]? = some b1
      ∧ lowNibble b1 = 0 ∧ lowNibble b1 ≠ 16 := by
  obtain ⟨g', trace, hrun, -, hps, -, -, -⟩ :=
    fragmentBlock_spec MaxSendSize 2881 (initGlobals MaxSendSize) (rampFrame 2881)
      (by decide) (by simp [initGlobals, zeroBuffer]) (by simp [rampFrame])
      (by simp [rampFrame])
  have hn : numPackets (rampFrame 2881).encoded_bytes (MaxSendSize - HeaderSize) = 17 := by
    decide
  rw [hn] at hps
  have hget : (sentPackets trace)[16]?
      = some (framePacket (MaxSendSize - HeaderSize) 17
          (initGlobals MaxSendSize).s_interframe_seqno (rampFrame 2881).buffer
          (rampFrame 2881).encoded_bytes 16) := by
    rw [hps, List.getElem?_map, List.getElem?_range (by decide)]; rfl
  refine ⟨g', trace, _, _, hrun, ?_, hget, framePacket_byte1 _ _ _ _ _ _, ?_, ?_⟩
  · rw [hps, List.length_map, List.length_range]
  · decide
  · decide

/-- C7, as the code has it. Header count nibble: all packets emitted for a
frame carry the same high nibble in header byte 1, and that nibble is the
number of packets of the frame modulo 16, hence the number of packets itself
for a frame of at most 15 packets. -/
theorem header_count_nibble (maxSendSize fuel : Nat) (g : Globals)
    (out_frame : esp_audio_enc_out_frame_t)
    (hM : HeaderSize < maxSendSize)
    (hbuf : g.s_output_buffer.length = maxSendSize)
    (hlen : out_frame.encoded_bytes ≤ out_frame.buffer.length)
    (hfuel : out_frame.encoded_bytes ≤ fuel) :
    ∃ g' trace, fragmentBlock maxSendSize fuel g out_frame = some (g', trace)
      ∧ ∀ p ∈ sentPackets trace,
          ∃ b1, p[1]? = some b1
            ∧ highNibble b1 = (sentPackets trace).length % 16
            ∧ ((sentPackets trace).length ≤ 15 → highNibble b1 = (sentPackets trace).length) := by
  obtain ⟨g', trace, hrun, -, hps, -, -, -⟩ :=
    fragmentBlock_spec maxSendSize fuel g out_frame hM hbuf hlen hfuel
  refine ⟨g', trace, hrun, ?_⟩
  have hn : (sentPackets trace).length
      = numPackets out_frame.encoded_bytes (maxSendSize - HeaderSize) := by
    rw [hps, List.length_map, List.length_range]
  intro p hp
  rw [hps, List.mem_map] at hp
  obtain ⟨j, -, rfl⟩ := hp
  refine ⟨_, framePacket_byte1 _ _ _ _ _ _, ?_, ?_⟩
  · rw [hn]; unfold highNibble; omega
  · rw [hn]; intro h15; unfold highNibble; omega

/-- An instance at the configured sizes, for a 200-byte frame. -/
theorem header_count_nibble_witness :
    (HeaderSize < MaxSendSize
      ∧ (initGlobals MaxSendSize).s_output_buffer.length = MaxSendSize
      ∧ (rampFrame 200).encoded_bytes ≤ (rampFrame 200).buffer.length
      ∧ (rampFrame 200).encoded_bytes ≤ 200)
    ∧ ∃ g' trace,
        fragmentBlock MaxSendSize 200 (initGlobals MaxSendSize) (rampFrame 200) = some (g', trace)
        ∧ ∀ p ∈ sentPackets trace,
            ∃ b1, p[1]? = some b1
              ∧ highNibble b1 = (sentPackets trace).length % 16
              ∧ ((sentPackets trace).length ≤ 15
                  → highNibble b1 = (sentPackets trace).length) :=
  ⟨⟨by decide, by simp [initGlobals, zeroBuffer], by simp [rampFrame], by simp [rampFrame]⟩,
    header_count_nibble MaxSendSize 200 (initGlobals MaxSendSize) (rampFrame 200)
      (by decide) (by simp [initGlobals, zeroBuffer]) (by simp [rampFrame])
      (by simp [rampFrame])⟩

/-- The count nibble is not the count beyond 15: at the configured sizes a frame of 2880 bytes is sent
in 16 packets, and its first packet carries the high nibble 0 in header
byte 1, not the number of packets. -/
theorem count_nibble_wraps_at_16_packets :
    ∃ g' trace p b1,
      fragmentBlock MaxSendSize 2880 (initGlobals MaxSendSize) (rampFrame 2880) = some (g', trace)
      ∧ (sentPackets trace).length = 16
      ∧ (sentPackets trace)[0]? = some p ∧ p[1]? = some b1
      ∧ highNibble b1 = 0 ∧ highNibble b1 ≠ (sentPackets trace).length := by
  obtain ⟨g', trace, hrun, -, hps, -, -, -⟩ :=
    fragmentBlock_spec MaxSendSize 2880 (initGlobals MaxSendSize) (rampFrame 2880)
      (by decide) (by simp [initGlobals, zeroBuffer]) (by simp [rampFrame])
      (by simp [rampFrame])
  have hn : numPackets (rampFrame 2880).encoded_bytes (MaxSendSize - HeaderSize) = 16 := by
    decide
  rw [hn] at hps
  have hl : (sentPackets trace).length = 16 := by
    rw [hps, List.length_map, List.length_range]
  have hget : (sentPackets trace)[0]?
      = some (framePacket (MaxSendSize - HeaderSize) 16
          (initGlobals MaxSendSize).s_interframe_seqno (rampFrame 2880).buffer
          (rampFrame 2880).encoded_bytes 0) := by
    rw [hps]; exact getElem?_map_range _ (by decide)
  refine ⟨g', trace, _, _, hrun, hl, hget, framePacket_byte1 _ _ _ _ _ _, ?_, ?_⟩
  · decide
  · rw [hl]; decide

/-- C8, as the code has it. Worked scenario: with a maximum packet size of 16
and the 2-byte header (14 payload bytes a packet), a 30-byte encoded frame
fragmented with the frame sequence counter at 3 yields exactly 3 packets, with
headers `[0x03,0x30]`, `[0x03,0x31]`, `[0x03,0x32]` and payloads of 14, 14 and
2 bytes. -/
theorem scenario_30_bytes (fuel : Nat) (g : Globals) (out_frame : esp_audio_enc_out_frame_t)
    (hbuf : g.s_output_buffer.length = 16)
    (hseq : g.s_interframe_seqno = 3)
    (hL : out_frame.encoded_bytes = 30)
    (hlen : out_frame.encoded_bytes ≤ out_frame.buffer.length)
    (hfuel : out_frame.encoded_bytes ≤ fuel) :
    ∃ g' trace, fragmentBlock 16 fuel g out_frame = some (g', trace)
      ∧ (sentPackets trace).length = 3
      ∧ (sentPackets trace).map (List.take HeaderSize)
          = [[0x03, 0x30], [0x03, 0x31], [0x03, 0x32]]
      ∧ (sentPackets trace).map (fun p => (payload p).length) = [14, 14, 2] := by
  obtain ⟨g', trace, hrun, -, hps, -, -, -⟩ :=
    fragmentBlock_spec 16 fuel g out_frame (by decide) hbuf hlen hfuel
  have hn : numPackets 30 (16 - HeaderSize) = 3 := by decide
  rw [hL, hn, hseq] at hps
  have hr : List.range 3 = [0, 1, 2] := rfl
  rw [hL] at hlen
  have hp : ∀ j, (payload (framePacket (16 - HeaderSize) 3 3 out_frame.buffer 30 j)).length
      = min (16 - HeaderSize) (30 - j * (16 - HeaderSize)) := by
    intro j
    rw [payload_framePacket, length_chunk _ _ _ hlen]
  refine ⟨g', trace, hrun, ?_, ?_, ?_⟩
  · rw [hps, List.length_map, List.length_range]
  · rw [hps, hr]
    rfl
  · rw [hps, hr]
    simp only [List.map_cons, List.map_nil, hp]
    rfl

/-- An instance: the scenario on the frame of bytes 0, ..., 29. -/
theorem scenario_30_bytes_witness :
    ((({ initGlobals 16 with s_interframe_seqno := 3 } : Globals).s_output_buffer.length = 16
      ∧ ({ initGlobals 16 with s_interframe_seqno := 3 } : Globals).s_interframe_seqno = 3
      ∧ (rampFrame 30).encoded_bytes = 30
      ∧ (rampFrame 30).encoded_bytes ≤ (rampFrame 30).buffer.length
      ∧ (rampFrame 30).encoded_bytes ≤ 30))
    ∧ ∃ g' trace,
        fragmentBlock 16 30 { initGlobals 16 with s_interframe_seqno := 3 } (rampFrame 30)
          = some (g', trace)
        ∧ (sentPackets trace).length = 3
        ∧ (sentPackets trace).map (List.take HeaderSize)
            = [[0x03, 0x30], [0x03, 0x31], [0x03, 0x32]]
        ∧ (sentPackets trace).map (fun p => (payload p).length) = [14, 14, 2] :=
  ⟨⟨by decide, rfl, rfl, by decide, by decide⟩,
    scenario_30_bytes 30 { initGlobals 16 with s_interframe_seqno := 3 } (rampFrame 30)
      (by decide) rfl rfl (by decide) (by decide)⟩

/-- The headers of the scenario: the code sends the headers
`[0x03,0x30]`, `[0x03,0x31]`, `[0x03,0x32]` (the count nibble is 3, the number
of packets), not `[0x03,0x20]`, `[0x03,0x21]`, `[0x03,0x22]`. -/
theorem scenario_headers_carry_count_3 :
    (fragmentBlock 16 30 { initGlobals 16 with s_interframe_seqno := 3 } (rampFrame 30)).map
        (fun r => (sentPackets r.2).map (List.take HeaderSize))
      = some [[0x03, 0x30], [0x03, 0x31], [0x03, 0x32]]
    ∧ (fragmentBlock 16 30 { initGlobals 16 with s_interframe_seqno := 3 } (rampFrame 30)).map
        (fun r => (sentPackets r.2).map (List.take HeaderSize))
      ≠ some [[0x03, 0x20], [0x03, 0x21], [0x03, 0x22]] := by
  decide

/-! ## The fragmentation block: packet lengths -/

/-- C9. Only the last packet may be short: for a non-empty frame of `L` bytes,
every emitted packet but the last has exactly `chunk = maxSendSize - HeaderSize`
payload bytes (total length `maxSendSize`), and the payload of the last packet
has `L % chunk` bytes when that is non-zero and `chunk` bytes otherwise. -/
theorem only_last_packet_short (maxSendSize fuel : Nat) (g : Globals)
    (out_frame : esp_audio_enc_out_frame_t)
    (hM : HeaderSize < maxSendSize)
    (hbuf : g.s_output_buffer.length = maxSendSize)
    (hlen : out_frame.encoded_bytes ≤ out_frame.buffer.length)
    (hfuel : out_frame.encoded_bytes ≤ fuel)
    (hL : 0 < out_frame.encoded_bytes) :
    ∃ g' trace, fragmentBlock maxSendSize fuel g out_frame = some (g', trace)
      ∧ (∀ i, i + 1 < (sentPackets trace).length →
          ∃ p, (sentPackets trace)[i]? = some p
            ∧ (payload p).length = maxSendSize - HeaderSize
            ∧ p.length = maxSendSize)
      ∧ ∃ p, (sentPackets trace).getLast? = some p
          ∧ (payload p).length
              = if out_frame.encoded_bytes % (maxSendSize - HeaderSize) ≠ 0
                then out_frame.encoded_bytes % (maxSendSize - HeaderSize)
                else maxSendSize - HeaderSize := by
  obtain ⟨g', trace, hrun, -, hps, -, -, -⟩ :=
    fragmentBlock_spec maxSendSize fuel g out_frame hM hbuf hlen hfuel
  have hc : 0 < maxSendSize - HeaderSize := by omega
  refine ⟨g', trace, hrun, ?_, ?_⟩
  · rw [hps, List.length_map, List.length_range]
    intro i hi
    have h1 : (i + 1) * (maxSendSize - HeaderSize) < out_frame.encoded_bytes :=
      (lt_numPackets_iff hc _ _).mp hi
    rw [Nat.succ_mul] at h1
    refine ⟨_, getElem?_map_range _ (by omega), ?_, ?_⟩
    · rw [payload_framePacket, length_chunk _ _ _ hlen]
      omega
    · rw [length_framePacket _ _ _ _ _ hlen]
      omega
  · have hpos : 0 < numPackets out_frame.encoded_bytes (maxSendSize - HeaderSize) := by
      rw [lt_numPackets_iff hc]; omega
    rw [hps, List.getLast?_map, List.getLast?_range, if_neg (by omega)]
    refine ⟨_, rfl, ?_⟩
    rw [payload_framePacket, length_chunk _ _ _ hlen]
    have hdm := Nat.div_add_mod out_frame.encoded_bytes (maxSendSize - HeaderSize)
    have hr := Nat.mod_lt out_frame.encoded_bytes hc
    unfold numPackets
    by_cases h0 : out_frame.encoded_bytes % (maxSendSize - HeaderSize) = 0
    · have hq : 0 < out_frame.encoded_bytes / (maxSendSize - HeaderSize) := by
        rcases Nat.eq_zero_or_pos (out_frame.encoded_bytes / (maxSendSize - HeaderSize)) with h | h
        · rw [h, h0] at hdm; omega
        · exact h
      have e : (out_frame.encoded_bytes / (maxSendSize - HeaderSize) - 1)
            * (maxSendSize - HeaderSize) + (maxSendSize - HeaderSize)
          = (maxSendSize - HeaderSize)
            * (out_frame.encoded_bytes / (maxSendSize - HeaderSize)) := by
        rw [← Nat.succ_mul, Nat.succ_eq_add_one, Nat.sub_add_cancel hq, Nat.mul_comm]
      simp only [h0, ne_eq, not_true_eq_false, if_false, Nat.add_zero]
      omega
    · have e : (out_frame.encoded_bytes / (maxSendSize - HeaderSize))
            * (maxSendSize - HeaderSize)
          = (maxSendSize - HeaderSize)
            * (out_frame.encoded_bytes / (maxSendSize - HeaderSize)) := Nat.mul_comm _ _
      simp only [ne_eq, h0, not_false_eq_true, if_true, Nat.add_sub_cancel]
      omega

/-- An instance at the configured sizes, for a 200-byte frame. -/
theorem only_last_packet_short_witness :
    (HeaderSize < MaxSendSize
      ∧ (initGlobals MaxSendSize).s_output_buffer.length = MaxSendSize
      ∧ (rampFrame 200).encoded_bytes ≤ (rampFrame 200).buffer.length
      ∧ (rampFrame 200).encoded_bytes ≤ 200
      ∧ 0 < (rampFrame 200).encoded_bytes)
    ∧ ∃ g' trace,
        fragmentBlock MaxSendSize 200 (initGlobals MaxSendSize) (rampFrame 200) = some (g', trace)
        ∧ (∀ i, i + 1 < (sentPackets trace).length →
            ∃ p, (sentPackets trace)[i]? = some p
              ∧ (payload p).length = MaxSendSize - HeaderSize
              ∧ p.length = MaxSendSize)
        ∧ ∃ p, (sentPackets trace).getLast? = some p
            ∧ (payload p).length
                = if (rampFrame 200).encoded_bytes % (MaxSendSize - HeaderSize) ≠ 0
                  then (rampFrame 200).encoded_bytes % (MaxSendSize - HeaderSize)
                  else MaxSendSize - HeaderSize :=
  ⟨⟨by decide, by simp [initGlobals, zeroBuffer], by simp [rampFrame], by simp [rampFrame],
      by simp [rampFrame]⟩,
    only_last_packet_short MaxSendSize 200 (initGlobals MaxSendSize) (rampFrame 200)
      (by decide) (by simp [initGlobals, zeroBuffer]) (by simp [rampFrame])
      (by simp [rampFrame]) (by simp [rampFrame])⟩

/-- C10. No empty packet: a zero-length encoded frame produces no packet, and
every packet that is emitted for a frame carries at least one payload byte
(its length is at least `HeaderSize + 1`). -/
theorem no_empty_packet (maxSendSize fuel : Nat) (g : Globals)
    (out_frame : esp_audio_enc_out_frame_t)
    (hM : HeaderSize < maxSendSize)
    (hbuf : g.s_output_buffer.length = maxSendSize)
    (hlen : out_frame.encoded_bytes ≤ out_frame.buffer.length)
    (hfuel : out_frame.encoded_bytes ≤ fuel) :
    ∃ g' trace, fragmentBlock maxSendSize fuel g out_frame = some (g', trace)
      ∧ (out_frame.encoded_bytes = 0 → sentPackets trace = [])
      ∧ ∀ p ∈ sentPackets trace, 1 ≤ (payload p).length ∧ HeaderSize + 1 ≤ p.length := by
  obtain ⟨g', trace, hrun, -, hps, -, -, -⟩ :=
    fragmentBlock_spec maxSendSize fuel g out_frame hM hbuf hlen hfuel
  have hc : 0 < maxSendSize - HeaderSize := by omega
  refine ⟨g', trace, hrun, ?_, ?_⟩
  · intro h0
    rw [hps, h0, numPackets_zero]
    rfl
  · intro p hp
    rw [hps, List.mem_map] at hp
    obtain ⟨j, hj, rfl⟩ := hp
    have h1 : j * (maxSendSize - HeaderSize) < out_frame.encoded_bytes :=
      (lt_numPackets_iff hc _ _).mp (List.mem_range.mp hj)
    rw [payload_framePacket, length_chunk _ _ _ hlen, length_framePacket _ _ _ _ _ hlen]
    omega

/-- An instance at the configured sizes, for a 200-byte frame. -/
theorem no_empty_packet_witness :
    (HeaderSize < MaxSendSize
      ∧ (initGlobals MaxSendSize).s_output_buffer.length = MaxSendSize
      ∧ (rampFrame 200).encoded_bytes ≤ (rampFrame 200).buffer.length
      ∧ (rampFrame 200).encoded_bytes ≤ 200)
    ∧ ∃ g' trace,
        fragmentBlock MaxSendSize 200 (initGlobals MaxSendSize) (rampFrame 200) = some (g', trace)
        ∧ ((rampFrame 200).encoded_bytes = 0 → sentPackets trace = [])
        ∧ ∀ p ∈ sentPackets trace, 1 ≤ (payload p).length ∧ HeaderSize + 1 ≤ p.length :=
  ⟨⟨by decide, by simp [initGlobals, zeroBuffer], by simp [rampFrame], by simp [rampFrame]⟩,
    no_empty_packet MaxSendSize 200 (initGlobals MaxSendSize) (rampFrame 200)
      (by decide) (by simp [initGlobals, zeroBuffer]) (by simp [rampFrame])
      (by simp [rampFrame])⟩

/-! ## Auxiliary lemmas on `loop()` -/

theorem chunkInput_length (recording : List Nat) (off r F i : Nat)
    (h : off + r ≤ recording.length) : (chunkInput recording off r F i).length = F := by
  unfold chunkInput
  simp only [List.length_append, List.length_take, List.length_drop, List.length_replicate]
  omega

theorem chunkInput_succ (recording : List Nat) (off r F i : Nat) :
    chunkInput recording (off + F) (r - F) F i = chunkInput recording off r F (i + 1) := by
  unfold chunkInput
  have e1 : off + F + i * F = off + (i + 1) * F := by rw [Nat.succ_mul]; omega
  have e2 : r - F - i * F = r - (i + 1) * F := by rw [Nat.succ_mul]; omega
  rw [e1, e2]

theorem copy_chunk (inp recording : List Nat) (off m : Nat)
    (hm : m ≤ inp.length) (hoff : off + m ≤ recording.length) :
    memcpy inp 0 recording off m = some ((recording.drop off).take m ++ inp.drop m) := by
  unfold memcpy
  rw [if_pos ⟨by omega, hoff⟩]
  simp

theorem pad_chunk (inp recording : List Nat) (off r F : Nat)
    (hin : inp.length = F) (hoff : off + min F r ≤ recording.length) :
    (if min F r < F then
        memset ((recording.drop off).take (min F r) ++ inp.drop (min F r)) (min F r) 0
          (F - min F r)
      else some ((recording.drop off).take (min F r) ++ inp.drop (min F r)))
      = some (chunkInput recording off r F 0) := by
  have hl : ((recording.drop off).take (min F r)).length = min F r := by
    simp only [List.length_take, List.length_drop]; omega
  unfold chunkInput
  simp only [Nat.zero_mul, Nat.add_zero, Nat.sub_zero]
  by_cases hlt : min F r < F
  · rw [if_pos hlt]
    unfold memset
    have hlen : min F r + (F - min F r)
        ≤ ((recording.drop off).take (min F r) ++ inp.drop (min F r)).length := by
      simp only [List.length_append, hl, List.length_drop]; omega
    rw [if_pos hlen]
    have e : min F r + (F - min F r) = F := by omega
    rw [e, List.take_append_eq_append_take, hl, List.drop_append_eq_append_drop, hl]
    have hd : List.drop (F - min F r) (List.drop (min F r) inp) = [] := by
      rw [List.drop_drop]
      exact List.drop_of_length_le (by omega)
    have hd2 : List.drop F (List.take (min F r) (List.drop off recording)) = [] :=
      List.drop_of_length_le (by omega)
    simp [hd, hd2]
  · rw [if_neg hlt]
    have e : min F r = F := by omega
    have hd : List.drop F inp = [] := List.drop_of_length_le (by omega)
    simp [e, hd]

/-- A pass of the encode loop whose encoder call fails: the loop returns after
the encoder call and the diagnostic, the globals of `Globals` untouched. -/
theorem encodeBody_fail (maxSendSize sendFuel recording_end : Nat) (st : EncodeState)
    (hlt : st.recording < recording_end)
    (hrec : recording_end ≤ st.dev.s_recording_buffer.length)
    (hin : st.dev.s_input_frame.length = st.dev.s_frame_in_bytes)
    (hst : (st.world.esp_aac_enc_process st.world.encodes).status ≠ ESP_AUDIO_ERR_OK) :
    encodeBody maxSendSize sendFuel recording_end st
      = some (true,
          { dev := { st.dev with
                s_input_frame := chunkInput st.dev.s_recording_buffer st.recording
                  (recording_end - st.recording) st.dev.s_frame_in_bytes 0
                s_compressed_frame :=
                  (st.world.esp_aac_enc_process st.world.encodes).out_frame.buffer }
            world := { st.world with encodes := st.world.encodes + 1 }
            recording := st.recording
              + min st.dev.s_frame_in_bytes (recording_end - st.recording)
            trace := st.trace ++
              [Effect.esp_aac_enc_process
                  { buffer := chunkInput st.dev.s_recording_buffer st.recording
                      (recording_end - st.recording) st.dev.s_frame_in_bytes 0
                    len := st.dev.s_frame_in_bytes },
                Effect.println Message.encoderProcessFailed] }) := by
  unfold encodeBody
  simp only []
  rw [copy_chunk _ _ _ _ (by omega) (by omega)]
  simp only []
  rw [pad_chunk _ _ _ _ _ hin (by omega)]
  simp only []
  rw [if_pos hst, List.append_assoc]
  rfl

/-- A pass of the encode loop whose encoder call succeeds: the fragmentation
block runs on the encoder's result and the loop goes on. -/
theorem encodeBody_ok (maxSendSize sendFuel recording_end : Nat) (st : EncodeState)
    (hlt : st.recording < recording_end)
    (hrec : recording_end ≤ st.dev.s_recording_buffer.length)
    (hd : DeviceOk maxSendSize st.dev)
    (hst : (st.world.esp_aac_enc_process st.world.encodes).status = ESP_AUDIO_ERR_OK)
    (hlen : (st.world.esp_aac_enc_process st.world.encodes).out_frame.encoded_bytes
      ≤ (st.world.esp_aac_enc_process st.world.encodes).out_frame.buffer.length)
    (hfuel : (st.world.esp_aac_enc_process st.world.encodes).out_frame.encoded_bytes
      ≤ sendFuel) :
    ∃ g : Globals,
      g.s_output_buffer.length = maxSendSize
      ∧ g.s_interframe_seqno = (st.dev.s_interframe_seqno + 1) % 256
      ∧ g.s_intraframe_seqno
          = numPackets (st.world.esp_aac_enc_process st.world.encodes).out_frame.encoded_bytes
              (maxSendSize - HeaderSize) % 256
      ∧ encodeBody maxSendSize sendFuel recording_end st
        = some (false,
            { dev := { st.dev with
                  toGlobals := g
                  s_input_frame := chunkInput st.dev.s_recording_buffer st.recording
                    (recording_end - st.recording) st.dev.s_frame_in_bytes 0
                  s_compressed_frame :=
                    (st.world.esp_aac_enc_process st.world.encodes).out_frame.buffer }
              world := { st.world with encodes := st.world.encodes + 1 }
              recording := st.recording
                + min st.dev.s_frame_in_bytes (recording_end - st.recording)
              trace := st.trace ++
                (Effect.esp_aac_enc_process
                    { buffer := chunkInput st.dev.s_recording_buffer st.recording
                        (recording_end - st.recording) st.dev.s_frame_in_bytes 0
                      len := st.dev.s_frame_in_bytes }
                  :: frameTrace maxSendSize st.dev.s_interframe_seqno
                      (st.world.esp_aac_enc_process st.world.encodes).out_frame) }) := by
  obtain ⟨hM, hout, hin, -, -⟩ := hd
  obtain ⟨g, t, hrun, ht, -, hg1, hg2, hg3⟩ :=
    fragmentBlock_spec maxSendSize sendFuel st.dev.toGlobals
      (st.world.esp_aac_enc_process st.world.encodes).out_frame hM hout hlen hfuel
  refine ⟨g, hg1, hg2, hg3, ?_⟩
  unfold encodeBody
  simp only []
  rw [copy_chunk _ _ _ _ (by omega) (by omega)]
  simp only []
  rw [pad_chunk _ _ _ _ _ hin (by omega)]
  simp only []
  rw [if_neg (by simpa using hst), hrun]
  simp only [ht, frameTrace, List.append_assoc, List.singleton_append]

theorem chunksTrace_zero (maxSendSize : Nat) (enc : Nat → EncoderResult)
    (recording : List Nat) (off r F e0 s0 : Nat) :
    chunksTrace maxSendSize enc recording off r F e0 s0 0 = [] := rfl

theorem chunkTrace_succ (maxSendSize : Nat) (enc : Nat → EncoderResult)
    (recording : List Nat) (off r F e0 s0 i : Nat) :
    chunkTrace maxSendSize enc recording (off + F) (r - F) F (e0 + 1) ((s0 + 1) % 256) i
      = chunkTrace maxSendSize enc recording off r F e0 s0 (i + 1) := by
  unfold chunkTrace
  have e1 : ((s0 + 1) % 256 + i) % 256 = (s0 + (i + 1)) % 256 := by omega
  have e2 : e0 + 1 + i = e0 + (i + 1) := by omega
  rw [chunkInput_succ, e1, e2]

theorem chunksTrace_succ (maxSendSize : Nat) (enc : Nat → EncoderResult)
    (recording : List Nat) (off r F e0 s0 j : Nat) :
    chunksTrace maxSendSize enc recording off r F e0 s0 (j + 1)
      = chunkTrace maxSendSize enc recording off r F e0 s0 0
        ++ chunksTrace maxSendSize enc recording (off + F) (r - F) F
            (e0 + 1) ((s0 + 1) % 256) j := by
  unfold chunksTrace
  rw [List.range_succ_eq_map, List.flatMap_cons, List.flatMap_map]
  congr 1
  apply congrArg
  funext i
  exact (chunkTrace_succ maxSendSize enc recording off r F e0 s0 i).symm

theorem numPackets_pos {r c : Nat} (hc : 0 < c) (hr : 0 < r) : 0 < numPackets r c := by
  rw [lt_numPackets_iff hc]; omega

/-- What the encode loop does on well-formed input: it returns after `j`
successful passes, either at the end of the recording (`failed = false`) or on
the encoder call that fails (`failed = true`); the effects and the globals
are as stated. -/
theorem encodeLoop_spec (maxSendSize sendFuel recording_end : Nat) :
    ∀ (fuel : Nat) (st : EncodeState),
      st.recording ≤ recording_end →
      recording_end ≤ st.dev.s_recording_buffer.length →
      recording_end - st.recording ≤ fuel →
      DeviceOk maxSendSize st.dev →
      WorldOk sendFuel st.world →
      ∃ (j : Nat) (failed : Bool) (g : Globals) (inp cf : List Nat) (rec1 : Nat),
        encodeLoop maxSendSize sendFuel recording_end fuel st
          = some
              { dev := { st.dev with
                    toGlobals := g, s_input_frame := inp, s_compressed_frame := cf }
                world := { st.world with
                    encodes := st.world.encodes + j + (if failed then 1 else 0) }
                recording := rec1
                trace := st.trace
                  ++ chunksTrace maxSendSize st.world.esp_aac_enc_process
                      st.dev.s_recording_buffer st.recording
                      (recording_end - st.recording) st.dev.s_frame_in_bytes
                      st.world.encodes st.dev.s_interframe_seqno j
                  ++ (if failed then
                        [Effect.esp_aac_enc_process
                            { buffer := chunkInput st.dev.s_recording_buffer st.recording
                                (recording_end - st.recording) st.dev.s_frame_in_bytes j
                              len := st.dev.s_frame_in_bytes },
                          Effect.println Message.encoderProcessFailed]
                      else []) }
        ∧ j ≤ numPackets (recording_end - st.recording) st.dev.s_frame_in_bytes
        ∧ (∀ i, i < j →
            (st.world.esp_aac_enc_process (st.world.encodes + i)).status = ESP_AUDIO_ERR_OK)
        ∧ (failed = false →
            j = numPackets (recording_end - st.recording) st.dev.s_frame_in_bytes)
        ∧ (failed = true →
            j < numPackets (recording_end - st.recording) st.dev.s_frame_in_bytes
            ∧ (st.world.esp_aac_enc_process (st.world.encodes + j)).status ≠ ESP_AUDIO_ERR_OK)
        ∧ g.s_output_buffer.length = maxSendSize
        ∧ g.s_interframe_seqno = (st.dev.s_interframe_seqno + j) % 256
        ∧ inp.length = st.dev.s_frame_in_bytes
        ∧ (j = 0 → g = st.dev.toGlobals) := by
  intro fuel
  induction fuel with
  | zero =>
    intro st hle hrec hfuel hd hw
    obtain ⟨hM, hout, hin, hF, hs⟩ := hd
    have hnlt : ¬ st.recording < recording_end := by omega
    have hr0 : recording_end - st.recording = 0 := by omega
    refine ⟨0, false, st.dev.toGlobals, st.dev.s_input_frame, st.dev.s_compressed_frame,
      st.recording, ?_, Nat.zero_le _, ?_, ?_, ?_, hout, ?_, hin, fun _ => rfl⟩
    · rw [encodeLoop, if_neg hnlt]
      simp [chunksTrace_zero]
    · intro i hi; omega
    · intro _; rw [hr0, numPackets_zero]
    · intro h; cases h
    · rw [Nat.add_zero, Nat.mod_eq_of_lt hs]
  | succ fuel ih =>
    intro st hle hrec hfuel hd hw
    obtain ⟨hM, hout, hin, hF, hs⟩ := hd
    by_cases hlt : st.recording < recording_end
    · by_cases hst : (st.world.esp_aac_enc_process st.world.encodes).status = ESP_AUDIO_ERR_OK
      · -- the encoder call succeeds
        obtain ⟨hlen, hsf⟩ := hw.2 _ hst
        obtain ⟨g1, hg1, hg2, -, hbody⟩ :=
          encodeBody_ok maxSendSize sendFuel recording_end st hlt hrec
            ⟨hM, hout, hin, hF, hs⟩ hst hlen hsf
        have hcl := chunkInput_length st.dev.s_recording_buffer st.recording
          (recording_end - st.recording) st.dev.s_frame_in_bytes 0 (by omega)
        obtain ⟨j, failed, g, inp, cf, rec1, hrun, hj, hall, hok, hfail, hgl, hgs, hinp, -⟩ :=
          ih { dev := { st.dev with
                  toGlobals := g1
                  s_input_frame := chunkInput st.dev.s_recording_buffer st.recording
                    (recording_end - st.recording) st.dev.s_frame_in_bytes 0
                  s_compressed_frame :=
                    (st.world.esp_aac_enc_process st.world.encodes).out_frame.buffer }
               world := { st.world with encodes := st.world.encodes + 1 }
               recording := st.recording
                 + min st.dev.s_frame_in_bytes (recording_end - st.recording)
               trace := st.trace ++
                 (Effect.esp_aac_enc_process
                     { buffer := chunkInput st.dev.s_recording_buffer st.recording
                         (recording_end - st.recording) st.dev.s_frame_in_bytes 0
                       len := st.dev.s_frame_in_bytes }
                   :: frameTrace maxSendSize st.dev.s_interframe_seqno
                       (st.world.esp_aac_enc_process st.world.encodes).out_frame) }
            (by simp only []; omega) hrec (by simp only []; omega)
            ⟨hM, hg1, hcl, hF, by rw [hg2]; omega⟩ hw
        simp only [hg2] at hrun hj hall hok hfail hgs hinp
        have hc0 : chunkTrace maxSendSize st.world.esp_aac_enc_process
            st.dev.s_recording_buffer st.recording
            (recording_end - st.recording) st.dev.s_frame_in_bytes st.world.encodes
            st.dev.s_interframe_seqno 0
            = Effect.esp_aac_enc_process
                { buffer := chunkInput st.dev.s_recording_buffer st.recording
                    (recording_end - st.recording) st.dev.s_frame_in_bytes 0
                  len := st.dev.s_frame_in_bytes }
              :: frameTrace maxSendSize st.dev.s_interframe_seqno
                  (st.world.esp_aac_enc_process st.world.encodes).out_frame := by
          unfold chunkTrace
          rw [Nat.add_zero, Nat.add_zero, Nat.mod_eq_of_lt hs]
        have hstep := chunksTrace_succ maxSendSize st.world.esp_aac_enc_process
          st.dev.s_recording_buffer
          st.recording (recording_end - st.recording) st.dev.s_frame_in_bytes
          st.world.encodes st.dev.s_interframe_seqno j
        have hgs' : g.s_interframe_seqno = (st.dev.s_interframe_seqno + (j + 1)) % 256 := by
          rw [hgs]; omega
        have hall' : ∀ i, i < j + 1 →
            (st.world.esp_aac_enc_process (st.world.encodes + i)).status
              = ESP_AUDIO_ERR_OK := by
          intro i hi
          rcases Nat.eq_zero_or_pos i with h0 | hpos
          · rw [h0]; exact hst
          · have := hall (i - 1) (by omega)
            have e : st.world.encodes + 1 + (i - 1) = st.world.encodes + i := by omega
            rw [e] at this
            exact this
        rcases Nat.lt_or_ge st.dev.s_frame_in_bytes (recording_end - st.recording) with hFr | hFr
        · -- a full chunk, more to come
          have hmin : min st.dev.s_frame_in_bytes (recording_end - st.recording)
              = st.dev.s_frame_in_bytes := by omega
          have hrem : recording_end - (st.recording + st.dev.s_frame_in_bytes)
              = recording_end - st.recording - st.dev.s_frame_in_bytes := by omega
          have hnp := numPackets_gt hF hFr
          rw [hmin, hrem] at hrun hj hok hfail
          refine ⟨j + 1, failed, g, inp, cf, rec1, ?_, by omega, hall', ?_, ?_, hgl, hgs', hinp,
            fun h => absurd h (by omega)⟩
          · rw [encodeLoop, if_pos hlt, hbody]
            simp only []
            rw [hmin, hrun, hstep, hc0, chunkInput_succ]
            have e : st.world.encodes + 1 + j + (if failed = true then 1 else 0)
                = st.world.encodes + (j + 1) + (if failed = true then 1 else 0) := by omega
            simp only [e, List.append_assoc, List.cons_append]
          · intro hf; rw [hnp, hok hf]
          · intro hf
            obtain ⟨h1, h2⟩ := hfail hf
            refine ⟨by omega, ?_⟩
            have e : st.world.encodes + 1 + j = st.world.encodes + (j + 1) := by omega
            rw [e] at h2
            exact h2
        · -- the last chunk
          have hmin : min st.dev.s_frame_in_bytes (recording_end - st.recording)
              = recording_end - st.recording := by omega
          have hrem : recording_end - (st.recording + (recording_end - st.recording)) = 0 := by
            omega
          have hnp := numPackets_le (by omega : 0 < recording_end - st.recording) hFr
          rw [hmin, hrem, numPackets_zero] at hj hok hfail
          have hj0 : j = 0 := by omega
          subst hj0
          have hff : failed = false := by
            cases failed
            · rfl
            · exact absurd (hfail rfl).1 (by omega)
          subst hff
          refine ⟨1, false, g, inp, cf, rec1, ?_, by omega, hall', ?_, ?_, hgl, hgs', hinp,
            fun h => absurd h (by omega)⟩
          · rw [encodeLoop, if_pos hlt, hbody]
            simp only []
            rw [hrun, hstep, hc0]
            simp [chunksTrace_zero]
          · intro _; exact hnp.symm
          · intro h; cases h
      · -- the encoder call fails
        have hbody := encodeBody_fail maxSendSize sendFuel recording_end st hlt hrec hin hst
        have hpos : 0 < numPackets (recording_end - st.recording) st.dev.s_frame_in_bytes :=
          numPackets_pos hF (by omega)
        refine ⟨0, true, st.dev.toGlobals,
          chunkInput st.dev.s_recording_buffer st.recording
            (recording_end - st.recording) st.dev.s_frame_in_bytes 0,
          (st.world.esp_aac_enc_process st.world.encodes).out_frame.buffer,
          st.recording + min st.dev.s_frame_in_bytes (recording_end - st.recording),
          ?_, Nat.zero_le _, ?_, ?_, ?_, hout, ?_,
          chunkInput_length st.dev.s_recording_buffer st.recording
            (recording_end - st.recording) st.dev.s_frame_in_bytes 0 (by omega), fun _ => rfl⟩
        · rw [encodeLoop, if_pos hlt, hbody]
          simp [chunksTrace_zero]
        · intro i hi; omega
        · intro h; cases h
        · intro _; exact ⟨hpos, by simpa using hst⟩
        · rw [Nat.add_zero, Nat.mod_eq_of_lt hs]
    · have hr0 : recording_end - st.recording = 0 := by omega
      refine ⟨0, false, st.dev.toGlobals, st.dev.s_input_frame, st.dev.s_compressed_frame,
        st.recording, ?_, Nat.zero_le _, ?_, ?_, ?_, hout, ?_, hin, fun _ => rfl⟩
      · rw [encodeLoop, if_neg hlt]
        simp [chunksTrace_zero]
      · intro i hi; omega
      · intro _; rw [hr0, numPackets_zero]
      · intro h; cases h
      · rw [Nat.add_zero, Nat.mod_eq_of_lt hs]

/-! ## Auxiliary lemmas on traces -/

theorem encoderCalls_append (t u : List Effect) :
    encoderCalls (t ++ u) = encoderCalls t + encoderCalls u := by
  induction t with
  | nil => simp [encoderCalls]
  | cons e t ih =>
    cases e <;> simp [encoderCalls, ih]
    omega

theorem delayCount_append (t u : List Effect) :
    delayCount (t ++ u) = delayCount t + delayCount u := by
  induction t with
  | nil => simp [delayCount]
  | cons e t ih =>
    cases e <;> simp [delayCount, ih]
    omega

theorem sendCount_append (t u : List Effect) :
    sendCount (t ++ u) = sendCount t + sendCount u := by
  simp [sendCount, sentPackets_append]

theorem encoderCalls_eq_zero (t : List Effect)
    (h : ∀ e ∈ t, ∀ f, e ≠ Effect.esp_aac_enc_process f) : encoderCalls t = 0 := by
  induction t with
  | nil => rfl
  | cons e t ih =>
    have ht := ih (fun e1 he1 => h e1 (List.mem_cons_of_mem _ he1))
    cases e with
    | esp_aac_enc_process f => exact absurd rfl (h _ (List.mem_cons_self _ _) f)
    | send v => simpa [encoderCalls] using ht
    | delay ms => simpa [encoderCalls] using ht
    | i2s_read n => simpa [encoderCalls] using ht
    | println m => simpa [encoderCalls] using ht
    | startAdvertising => simpa [encoderCalls] using ht

theorem mem_of_eq_append_send {t pre post : List Effect} {p : List Nat}
    (h : t = pre ++ Effect.send p :: post) : Effect.send p ∈ t := by
  rw [h]; simp

theorem SeqOk_of_no_send (s : Nat) (t : List Effect) (h : ∀ p, Effect.send p ∉ t) :
    SeqOk s t := by
  intro pre p post ht
  exact absurd (mem_of_eq_append_send ht) (h p)

theorem Paced_of_no_send (t : List Effect) (h : ∀ p, Effect.send p ∉ t) : Paced t := by
  intro pre p post ht
  exact absurd (mem_of_eq_append_send ht) (h p)

theorem SeqOk_congr {s s1 : Nat} {t : List Effect} (hs : s % 16 = s1 % 16) (h : SeqOk s t) :
    SeqOk s1 t := by
  intro pre p post ht
  obtain ⟨h1, h2⟩ := h pre p post ht
  refine ⟨h1, ?_⟩
  rw [h2]
  congr 1
  omega

theorem SeqOk_append {s : Nat} {t u : List Effect} (ht : SeqOk s t)
    (hu : SeqOk (s + encoderCalls t) u) : SeqOk s (t ++ u) := by
  intro pre p post h
  rcases List.append_eq_append_iff.mp h with ⟨a, ha1, ha2⟩ | ⟨c, hc1, hc2⟩
  · -- the packet is sent in `u`
    obtain ⟨h1, h2⟩ := hu a p post ha2
    rw [ha1, encoderCalls_append]
    refine ⟨by omega, ?_⟩
    rw [h2]
    congr 1
    omega
  · cases c with
    | nil =>
      simp only [List.nil_append] at hc2
      obtain ⟨h1, h2⟩ := hu [] p post hc2.symm
      simp [encoderCalls] at h1
    | cons e c =>
      simp only [List.cons_append, List.cons.injEq] at hc2
      obtain ⟨he, -⟩ := hc2
      subst he
      exact ht pre p (c) hc1

theorem Paced_append {t u : List Effect} (ht : Paced t) (hu : Paced u) : Paced (t ++ u) := by
  intro pre p post h
  rcases List.append_eq_append_iff.mp h with ⟨a, ha1, ha2⟩ | ⟨c, hc1, hc2⟩
  · exact hu a p post ha2
  · cases c with
    | nil =>
      simp only [List.nil_append] at hc2
      exact hu [] p post hc2.symm
    | cons e c =>
      simp only [List.cons_append, List.cons.injEq] at hc2
      obtain ⟨he, hpost⟩ := hc2
      subst he
      obtain ⟨post1, hp1⟩ := ht pre p c hc1
      refine ⟨post1 ++ u, ?_⟩
      rw [hpost, hp1]
      rfl

theorem mem_loopTrace {c n : Nat} {mem : List Nat} {h0 r off k : Nat} {e : Effect}
    (h : e ∈ loopTrace c n mem h0 r off k) :
    e = Effect.delay 4 ∨ ∃ j, e = Effect.send (loopPacket c n mem h0 r off k j) := by
  unfold loopTrace at h
  rw [List.mem_flatMap] at h
  obtain ⟨j, -, hj⟩ := h
  simp only [List.mem_cons, List.mem_singleton, List.not_mem_nil, or_false] at hj
  rcases hj with hj | hj
  · exact Or.inr ⟨j, hj⟩
  · exact Or.inl hj

theorem Paced_pairs (f : Nat → List Nat) (l : List Nat) :
    Paced (l.flatMap (fun j => [Effect.send (f j), Effect.delay 4])) := by
  induction l with
  | nil => exact Paced_of_no_send _ (by simp)
  | cons j l ih =>
    rw [List.flatMap_cons]
    refine Paced_append ?_ ih
    intro pre p post h
    cases pre with
    | nil =>
      simp only [List.nil_append, List.cons.injEq] at h
      exact ⟨[], h.2.symm⟩
    | cons e pre =>
      simp only [List.cons_append, List.cons.injEq] at h
      obtain ⟨-, h2⟩ := h
      cases pre with
      | nil => simp at h2
      | cons e1 pre => simp at h2

theorem delayCount_pairs (f : Nat → List Nat) (l : List Nat) :
    delayCount (l.flatMap (fun j => [Effect.send (f j), Effect.delay 4])) = l.length := by
  induction l with
  | nil => rfl
  | cons j l ih =>
    rw [List.flatMap_cons, delayCount_append, ih]
    simp [delayCount]
    omega

theorem sendCount_pairs (f : Nat → List Nat) (l : List Nat) :
    sendCount (l.flatMap (fun j => [Effect.send (f j), Effect.delay 4])) = l.length := by
  induction l with
  | nil => rfl
  | cons j l ih =>
    rw [List.flatMap_cons, sendCount_append, ih]
    simp [sendCount, sentPackets]
    omega

theorem Paced_frameTrace (maxSendSize s : Nat) (out_frame : esp_audio_enc_out_frame_t) :
    Paced (frameTrace maxSendSize s out_frame) :=
  Paced_pairs _ _

theorem delayCount_frameTrace (maxSendSize s : Nat) (out_frame : esp_audio_enc_out_frame_t) :
    delayCount (frameTrace maxSendSize s out_frame)
      = numPackets out_frame.encoded_bytes (maxSendSize - HeaderSize) := by
  unfold frameTrace loopTrace
  rw [delayCount_pairs, List.length_range]

theorem sendCount_frameTrace (maxSendSize s : Nat) (out_frame : esp_audio_enc_out_frame_t) :
    sendCount (frameTrace maxSendSize s out_frame)
      = numPackets out_frame.encoded_bytes (maxSendSize - HeaderSize) := by
  unfold frameTrace loopTrace
  rw [sendCount_pairs, List.length_range]

theorem mem_frameTrace {maxSendSize s : Nat} {out_frame : esp_audio_enc_out_frame_t}
    {e : Effect} (h : e ∈ frameTrace maxSendSize s out_frame) :
    e = Effect.delay 4 ∨ ∃ p, e = Effect.send p ∧ p[0]? = some (s % 16) := by
  rcases mem_loopTrace h with h1 | ⟨j, hj⟩
  · exact Or.inl h1
  · refine Or.inr ⟨_, hj, ?_⟩
    rw [land_0xf]
    rfl

theorem encoderCalls_frameTrace (maxSendSize s : Nat) (out_frame : esp_audio_enc_out_frame_t) :
    encoderCalls (frameTrace maxSendSize s out_frame) = 0 := by
  apply encoderCalls_eq_zero
  intro e he f hf
  rcases mem_frameTrace he with h1 | ⟨p, hp, -⟩
  · rw [h1] at hf; cases hf
  · rw [hp] at hf; cases hf

theorem SeqOk_call_frame (maxSendSize s s1 : Nat) (f : esp_audio_enc_in_frame_t)
    (out_frame : esp_audio_enc_out_frame_t) (hs : s1 % 16 = s % 16) :
    SeqOk s (Effect.esp_aac_enc_process f :: frameTrace maxSendSize s1 out_frame) := by
  intro pre p post h
  cases pre with
  | nil => simp at h
  | cons e pre =>
    simp only [List.cons_append, List.cons.injEq] at h
    obtain ⟨he, h2⟩ := h
    subst he
    have hpre : encoderCalls pre = 0 := by
      apply encoderCalls_eq_zero
      intro e he f1 hf
      have hmem : e ∈ frameTrace maxSendSize s1 out_frame := by
        rw [h2]; exact List.mem_append_left _ he
      rcases mem_frameTrace hmem with h1 | ⟨p1, hp1, -⟩
      · rw [h1] at hf; cases hf
      · rw [hp1] at hf; cases hf
    have hmem : Effect.send p ∈ frameTrace maxSendSize s1 out_frame :=
      mem_of_eq_append_send h2
    rcases mem_frameTrace hmem with h1 | ⟨p1, hp1, hb⟩
    · cases h1
    · cases hp1
      simp only [encoderCalls, hpre]
      refine ⟨by omega, ?_⟩
      rw [hb, hs]
      rfl

theorem Paced_cons_of_not_send {e : Effect} {t : List Effect} (he : ∀ p, e ≠ Effect.send p)
    (ht : Paced t) : Paced (e :: t) := by
  have h1 : Paced [e] := by
    apply Paced_of_no_send
    intro p hp
    simp only [List.mem_singleton] at hp
    exact he p hp.symm
  exact Paced_append h1 ht

theorem chunksTrace_snoc (maxSendSize : Nat) (enc : Nat → EncoderResult)
    (recording : List Nat) (off r F e0 s0 j : Nat) :
    chunksTrace maxSendSize enc recording off r F e0 s0 (j + 1)
      = chunksTrace maxSendSize enc recording off r F e0 s0 j
        ++ chunkTrace maxSendSize enc recording off r F e0 s0 j := by
  unfold chunksTrace
  rw [List.range_succ, List.flatMap_append]
  simp

theorem encoderCalls_chunkTrace (maxSendSize : Nat) (enc : Nat → EncoderResult)
    (recording : List Nat) (off r F e0 s0 i : Nat) :
    encoderCalls (chunkTrace maxSendSize enc recording off r F e0 s0 i) = 1 := by
  unfold chunkTrace
  simp [encoderCalls, encoderCalls_frameTrace]

theorem encoderCalls_chunksTrace (maxSendSize : Nat) (enc : Nat → EncoderResult)
    (recording : List Nat) (off r F e0 s0 j : Nat) :
    encoderCalls (chunksTrace maxSendSize enc recording off r F e0 s0 j) = j := by
  induction j with
  | zero => rfl
  | succ j ih => rw [chunksTrace_snoc, encoderCalls_append, ih, encoderCalls_chunkTrace]

theorem SeqOk_chunksTrace (maxSendSize : Nat) (enc : Nat → EncoderResult)
    (recording : List Nat) (off r F e0 s0 j : Nat) :
    SeqOk s0 (chunksTrace maxSendSize enc recording off r F e0 s0 j) := by
  induction j with
  | zero => exact SeqOk_of_no_send _ _ (by simp [chunksTrace_zero])
  | succ j ih =>
    rw [chunksTrace_snoc]
    refine SeqOk_append ih ?_
    rw [encoderCalls_chunksTrace]
    exact SeqOk_call_frame _ _ _ _ _ (by omega)

theorem Paced_chunksTrace (maxSendSize : Nat) (enc : Nat → EncoderResult)
    (recording : List Nat) (off r F e0 s0 j : Nat) :
    Paced (chunksTrace maxSendSize enc recording off r F e0 s0 j) := by
  induction j with
  | zero => exact Paced_of_no_send _ (by simp [chunksTrace_zero])
  | succ j ih =>
    rw [chunksTrace_snoc]
    refine Paced_append ih ?_
    exact Paced_cons_of_not_send (by intro p hp; cases hp) (Paced_frameTrace _ _ _)

theorem counts_chunksTrace (maxSendSize : Nat) (enc : Nat → EncoderResult)
    (recording : List Nat) (off r F e0 s0 j : Nat) :
    delayCount (chunksTrace maxSendSize enc recording off r F e0 s0 j)
      = sendCount (chunksTrace maxSendSize enc recording off r F e0 s0 j) := by
  induction j with
  | zero => rfl
  | succ j ih =>
    rw [chunksTrace_snoc, delayCount_append, sendCount_append, ih]
    unfold chunkTrace
    simp only [delayCount, sendCount, sentPackets]
    have h1 := delayCount_frameTrace maxSendSize ((s0 + j) % 256) (enc (e0 + j)).out_frame
    have h2 := sendCount_frameTrace maxSendSize ((s0 + j) % 256) (enc (e0 + j)).out_frame
    unfold sendCount at h2
    rw [h1, h2]

theorem mem_chunksTrace {maxSendSize : Nat} {enc : Nat → EncoderResult}
    {recording : List Nat} {off r F e0 s0 j : Nat} {e : Effect}
    (h : e ∈ chunksTrace maxSendSize enc recording off r F e0 s0 j) :
    e = Effect.delay 4 ∨ (∃ p, e = Effect.send p)
      ∨ ∃ i, i < j ∧ e = Effect.esp_aac_enc_process
          { buffer := chunkInput recording off r F i, len := F } := by
  unfold chunksTrace at h
  rw [List.mem_flatMap] at h
  obtain ⟨i, hi, he⟩ := h
  unfold chunkTrace at he
  rcases List.mem_cons.mp he with h1 | h1
  · exact Or.inr (Or.inr ⟨i, List.mem_range.mp hi, h1⟩)
  · rcases mem_frameTrace h1 with h2 | ⟨p, hp, -⟩
    · exact Or.inl h2
    · exact Or.inr (Or.inl ⟨p, hp⟩)

/-- A call of `loop()` on a disconnected device only waits 50 ms. -/
theorem loop_disconnected (maxSendSize fuel : Nat) (w : World) (d : Device)
    (hc : d.s_is_connected = false) :
    loop maxSendSize fuel w d = some (d, w, [Effect.delay 50]) := by
  unfold loop
  rw [if_pos hc]

/-- A call of `loop()` whose capture read gives no byte returns after the diagnostic. -/
theorem loop_capture_failed (maxSendSize fuel : Nat) (w : World) (d : Device)
    (hc : d.s_is_connected = true) (hB : (w.i2s_read w.reads).bytes_recorded = 0) :
    loop maxSendSize fuel w d
      = some ({ d with s_recording_buffer := (w.i2s_read w.reads).buffer },
          { w with reads := w.reads + 1 },
          [Effect.i2s_read d.s_frame_in_bytes, Effect.println Message.recordingFailed]) := by
  unfold loop
  rw [if_neg (by simp [hc])]
  simp only []
  rw [if_pos hB]
  rfl

/-- What a call of `loop()` does on a connected device when the capture read
gives at least one byte: the capture read, then `j` successful passes of the
encode loop, then either the end of the recording or a failed encoder call. -/
theorem loop_spec (maxSendSize fuel : Nat) (w : World) (d : Device)
    (hc : d.s_is_connected = true) (hd : DeviceOk maxSendSize d) (hw : WorldOk fuel w)
    (hB : 0 < (w.i2s_read w.reads).bytes_recorded) :
    ∃ (j : Nat) (failed : Bool) (g : Globals) (inp cf : List Nat),
      loop maxSendSize fuel w d
        = some ({ d with
              toGlobals := g
              s_recording_buffer := (w.i2s_read w.reads).buffer
              s_input_frame := inp
              s_compressed_frame := cf },
            { w with
              reads := w.reads + 1
              encodes := w.encodes + j + (if failed then 1 else 0) },
            Effect.i2s_read d.s_frame_in_bytes
              :: (chunksTrace maxSendSize w.esp_aac_enc_process (w.i2s_read w.reads).buffer 0
                    (w.i2s_read w.reads).bytes_recorded d.s_frame_in_bytes w.encodes
                    d.s_interframe_seqno j
                  ++ (if failed then
                        [Effect.esp_aac_enc_process
                            { buffer := chunkInput (w.i2s_read w.reads).buffer 0
                                (w.i2s_read w.reads).bytes_recorded d.s_frame_in_bytes j
                              len := d.s_frame_in_bytes },
                          Effect.println Message.encoderProcessFailed]
                      else [])))
      ∧ j ≤ numPackets (w.i2s_read w.reads).bytes_recorded d.s_frame_in_bytes
      ∧ (∀ i, i < j → (w.esp_aac_enc_process (w.encodes + i)).status = ESP_AUDIO_ERR_OK)
      ∧ (failed = false → j = numPackets (w.i2s_read w.reads).bytes_recorded d.s_frame_in_bytes)
      ∧ (failed = true →
          j < numPackets (w.i2s_read w.reads).bytes_recorded d.s_frame_in_bytes
          ∧ (w.esp_aac_enc_process (w.encodes + j)).status ≠ ESP_AUDIO_ERR_OK)
      ∧ g.s_output_buffer.length = maxSendSize
      ∧ g.s_interframe_seqno = (d.s_interframe_seqno + j) % 256
      ∧ inp.length = d.s_frame_in_bytes
      ∧ (j = 0 → g = d.toGlobals) := by
  obtain ⟨hcap, henc⟩ := hw
  obtain ⟨hcl, hcf⟩ := hcap w.reads
  obtain ⟨j, failed, g, inp, cf, rec1, hrun, hj, hall, hok, hfail, hgl, hgs, hinp, hg0⟩ :=
    encodeLoop_spec maxSendSize fuel (w.i2s_read w.reads).bytes_recorded fuel
      { dev := { d with s_recording_buffer := (w.i2s_read w.reads).buffer }
        world := { w with reads := w.reads + 1 }
        recording := 0
        trace := [Effect.i2s_read d.s_frame_in_bytes] }
      (Nat.zero_le _) hcl (by simp only []; omega) hd ⟨hcap, henc⟩
  simp only [Nat.sub_zero] at hrun hj hall hok hfail hgs hinp hg0
  refine ⟨j, failed, g, inp, cf, ?_, hj, hall, hok, hfail, hgl, hgs, hinp, hg0⟩
  unfold loop
  rw [if_neg (by simp [hc])]
  simp only []
  rw [if_neg (by omega), hrun]
  rfl

/-- A call of `loop()` when no encoder call fails: it returns, the device stays
well formed, the world only counts its calls, and the frames are numbered
from the frame counter on, which advances by one for each encoder call. -/
theorem loop_seq (maxSendSize fuel : Nat) (w : World) (d : Device)
    (hd : DeviceOk maxSendSize d) (hw : WorldOk fuel w)
    (hok : ∀ k, (w.esp_aac_enc_process k).status = ESP_AUDIO_ERR_OK) :
    ∃ d1 w1 t, loop maxSendSize fuel w d = some (d1, w1, t)
      ∧ DeviceOk maxSendSize d1
      ∧ d1.s_is_connected = d.s_is_connected
      ∧ w1.i2s_read = w.i2s_read
      ∧ w1.esp_aac_enc_process = w.esp_aac_enc_process
      ∧ SeqOk d.s_interframe_seqno t
      ∧ d1.s_interframe_seqno = (d.s_interframe_seqno + encoderCalls t) % 256 := by
  obtain ⟨hM, hout, hin, hF, hs⟩ := hd
  by_cases hc : d.s_is_connected = true
  · rcases Nat.eq_zero_or_pos (w.i2s_read w.reads).bytes_recorded with hB | hB
    · refine ⟨_, _, _, loop_capture_failed maxSendSize fuel w d hc hB,
        ⟨hM, hout, hin, hF, hs⟩, rfl, rfl, rfl, ?_, ?_⟩
      · exact SeqOk_of_no_send _ _ (by simp)
      · simp only [encoderCalls]
        rw [Nat.add_zero, Nat.mod_eq_of_lt hs]
    · obtain ⟨j, failed, g, inp, cf, hrun, -, -, -, hfail, hgl, hgs, hinp, -⟩ :=
        loop_spec maxSendSize fuel w d hc ⟨hM, hout, hin, hF, hs⟩ hw hB
      have hff : failed = false := by
        cases failed
        · rfl
        · exact absurd (hok _) (hfail rfl).2
      subst hff
      have hcalls : encoderCalls (Effect.i2s_read d.s_frame_in_bytes
          :: (chunksTrace maxSendSize w.esp_aac_enc_process (w.i2s_read w.reads).buffer 0
                (w.i2s_read w.reads).bytes_recorded d.s_frame_in_bytes w.encodes
                d.s_interframe_seqno j ++ [])) = j := by
        rw [List.append_nil]
        simp only [encoderCalls]
        exact encoderCalls_chunksTrace _ _ _ _ _ _ _ _ _
      refine ⟨_, _, _, hrun, ⟨hM, hgl, hinp, hF, ?_⟩, rfl, rfl, rfl, ?_, ?_⟩
      · show g.s_interframe_seqno < 256
        rw [hgs]; omega
      · simp only [Bool.false_eq_true, if_false, List.append_nil]
        have h1 : SeqOk d.s_interframe_seqno [Effect.i2s_read d.s_frame_in_bytes] :=
          SeqOk_of_no_send _ _ (by simp)
        exact SeqOk_append h1 (SeqOk_congr (by simp [encoderCalls])
          (SeqOk_chunksTrace _ _ _ _ _ _ _ _ _))
      · show g.s_interframe_seqno = _
        simp only [Bool.false_eq_true, if_false] at hcalls ⊢
        rw [hcalls, hgs]
  · have hc1 : d.s_is_connected = false := by simpa using hc
    refine ⟨_, _, _, loop_disconnected maxSendSize fuel w d hc1,
      ⟨hM, hout, hin, hF, hs⟩, rfl, rfl, rfl, ?_, ?_⟩
    · exact SeqOk_of_no_send _ _ (by simp)
    · simp only [encoderCalls]
      rw [Nat.add_zero, Nat.mod_eq_of_lt hs]

/-- An operation on the device when no encoder call fails. -/
theorem step_seq (maxSendSize fuel : Nat) (w : World) (d : Device) (op : Op)
    (hd : DeviceOk maxSendSize d) (hw : WorldOk fuel w)
    (hok : ∀ k, (w.esp_aac_enc_process k).status = ESP_AUDIO_ERR_OK) :
    ∃ d1 w1 t, step maxSendSize fuel w d op = some (d1, w1, t)
      ∧ DeviceOk maxSendSize d1
      ∧ w1.i2s_read = w.i2s_read
      ∧ w1.esp_aac_enc_process = w.esp_aac_enc_process
      ∧ SeqOk d.s_interframe_seqno t
      ∧ d1.s_interframe_seqno = (d.s_interframe_seqno + encoderCalls t) % 256 := by
  have hs : d.s_interframe_seqno < 256 := hd.2.2.2.2
  cases op with
  | loop =>
    obtain ⟨d1, w1, t, h1, h2, -, h4, h5, h6, h7⟩ := loop_seq maxSendSize fuel w d hd hw hok
    exact ⟨d1, w1, t, h1, h2, h4, h5, h6, h7⟩
  | onConnect =>
    refine ⟨_, _, _, rfl, hd, rfl, rfl, SeqOk_of_no_send _ _ (by simp [onConnect]), ?_⟩
    simp only [onConnect, encoderCalls]
    rw [Nat.add_zero, Nat.mod_eq_of_lt hs]
  | onDisconnect =>
    refine ⟨_, _, _, rfl, hd, rfl, rfl, SeqOk_of_no_send _ _ (by simp [onDisconnect]), ?_⟩
    simp only [onDisconnect, encoderCalls]
    rw [Nat.add_zero, Nat.mod_eq_of_lt hs]
  | onWrite =>
    refine ⟨_, _, _, rfl, hd, rfl, rfl, SeqOk_of_no_send _ _ (by simp [onWrite]), ?_⟩
    simp only [onWrite, encoderCalls]
    rw [Nat.add_zero, Nat.mod_eq_of_lt hs]

/-- A run of the device when no encoder call fails: the frames are numbered
from the frame counter on, across calls of `loop()` and callbacks alike. -/
theorem run_seq (maxSendSize fuel : Nat) (ops : List Op) :
    ∀ (w : World) (d : Device), DeviceOk maxSendSize d → WorldOk fuel w →
      (∀ k, (w.esp_aac_enc_process k).status = ESP_AUDIO_ERR_OK) →
      ∃ d1 w1 t, run maxSendSize fuel w d ops = some (d1, w1, t)
        ∧ SeqOk d.s_interframe_seqno t
        ∧ d1.s_interframe_seqno = (d.s_interframe_seqno + encoderCalls t) % 256 := by
  induction ops with
  | nil =>
    intro w d hd _ _
    refine ⟨d, w, [], rfl, SeqOk_of_no_send _ _ (by simp), ?_⟩
    simp only [encoderCalls]
    rw [Nat.add_zero, Nat.mod_eq_of_lt hd.2.2.2.2]
  | cons op ops ih =>
    intro w d hd hw hok
    obtain ⟨d1, w1, t1, hstep, hd1, hwi, hwe, hseq1, hs1⟩ :=
      step_seq maxSendSize fuel w d op hd hw hok
    have hw1 : WorldOk fuel w1 := by
      unfold WorldOk
      rw [hwi, hwe]
      exact hw
    have hok1 : ∀ k, (w1.esp_aac_enc_process k).status = ESP_AUDIO_ERR_OK := by
      rw [hwe]; exact hok
    obtain ⟨d2, w2, t2, hrun, hseq2, hs2⟩ := ih w1 d1 hd1 hw1 hok1
    refine ⟨d2, w2, t1 ++ t2, ?_, ?_, ?_⟩
    · rw [run, hstep]
      simp only []
      rw [hrun]
    · exact SeqOk_append hseq1 (SeqOk_congr (by rw [hs1]; omega) hseq2)
    · rw [hs2, hs1, encoderCalls_append]
      omega

theorem demoDevice_ok (seq : Nat) (h : seq < 256) : DeviceOk MaxSendSize (demoDevice seq) :=
  ⟨by decide, by simp [demoDevice, zeroBuffer], by simp [demoDevice],
    by simp [demoDevice], h⟩

theorem demoWorld_ok (B : Nat) (status : Int) (L fuel : Nat) (hB : B ≤ 8) (hBf : B ≤ fuel)
    (hL : L ≤ fuel) : WorldOk fuel (demoWorld B status L) :=
  ⟨fun _ => ⟨by simpa [demoWorld] using hB, hBf⟩,
    fun _ _ => ⟨by simp [demoWorld, rampFrame], hL⟩⟩

/-! ## The frame counter -/

/-- C11. Sequence monotonicity: over any number of consecutive calls of
`loop()` in which every encoder call succeeds with a non-empty result, starting
with the frame counter at `s`, every packet sent belongs to the frame of an
encoder call, the packets of the frame of the `(k + 1)`-th encoder call carry
`(s + k) % 16` in the low nibble of byte 0, and the counter ends at `s` plus
the number of encoder calls, modulo 256 (so also across the wrap from 255 to 0). -/
theorem sequence_monotonic (maxSendSize fuel n : Nat) (w : World) (d : Device)
    (hd : DeviceOk maxSendSize d) (hw : WorldOk fuel w)
    (hok : ∀ k, (w.esp_aac_enc_process k).status = ESP_AUDIO_ERR_OK
      ∧ 0 < (w.esp_aac_enc_process k).out_frame.encoded_bytes) :
    ∃ d1 w1 t, run maxSendSize fuel w d (List.replicate n Op.loop) = some (d1, w1, t)
      ∧ (∀ pre p post, t = pre ++ Effect.send p :: post →
          1 ≤ encoderCalls pre
          ∧ ∃ b, p[0]? = some b
            ∧ lowNibble b = (d.s_interframe_seqno + (encoderCalls pre - 1)) % 16)
      ∧ d1.s_interframe_seqno = (d.s_interframe_seqno + encoderCalls t) % 256 := by
  obtain ⟨d1, w1, t, hrun, hseq, hs⟩ :=
    run_seq maxSendSize fuel (List.replicate n Op.loop) w d hd hw (fun k => (hok k).1)
  refine ⟨d1, w1, t, hrun, ?_, hs⟩
  intro pre p post ht
  obtain ⟨h1, h2⟩ := hseq pre p post ht
  refine ⟨h1, _, h2, ?_⟩
  unfold lowNibble
  omega

/-- An instance: three calls of `loop()` with the frame counter at 255. -/
theorem sequence_monotonic_witness :
    (DeviceOk MaxSendSize (demoDevice 255) ∧ WorldOk 8 (demoWorld 5 0 6)
      ∧ ∀ k, ((demoWorld 5 0 6).esp_aac_enc_process k).status = ESP_AUDIO_ERR_OK
        ∧ 0 < ((demoWorld 5 0 6).esp_aac_enc_process k).out_frame.encoded_bytes)
    ∧ ∃ d1 w1 t,
        run MaxSendSize 8 (demoWorld 5 0 6) (demoDevice 255) (List.replicate 3 Op.loop)
          = some (d1, w1, t)
        ∧ (∀ pre p post, t = pre ++ Effect.send p :: post →
            1 ≤ encoderCalls pre
            ∧ ∃ b, p[0]? = some b
              ∧ lowNibble b
                  = ((demoDevice 255).s_interframe_seqno + (encoderCalls pre - 1)) % 16)
        ∧ d1.s_interframe_seqno
            = ((demoDevice 255).s_interframe_seqno + encoderCalls t) % 256 :=
  ⟨⟨demoDevice_ok 255 (by decide), demoWorld_ok 5 0 6 8 (by decide) (by decide) (by decide),
      fun _ => ⟨rfl, (by decide : 0 < 6)⟩⟩,
    sequence_monotonic MaxSendSize 8 3 (demoWorld 5 0 6) (demoDevice 255)
      (demoDevice_ok 255 (by decide)) (demoWorld_ok 5 0 6 8 (by decide) (by decide) (by decide))
      (fun _ => ⟨rfl, (by decide : 0 < 6)⟩)⟩

theorem frameTrace_empty (maxSendSize s : Nat) (out_frame : esp_audio_enc_out_frame_t)
    (h : out_frame.encoded_bytes = 0) : frameTrace maxSendSize s out_frame = [] := by
  unfold frameTrace loopTrace
  rw [h, numPackets_zero]
  rfl

/-- C12, as the code has it. Empty encoder output: in any pass of the encode
loop in which the encoder reports success with `encoded_bytes == 0`, the
driver adds the encoder call to the effects and nothing else, so sends no
packet, advances the frame sequence number by one, modulo 256, and goes on
with the loop; in particular a call of `loop()` whose capture is one chunk
and whose encoder call succeeds with no byte has the capture read and the
encoder call as its only effects and leaves the counter one higher. -/
theorem empty_result_advances_counter (maxSendSize fuel recording_end : Nat)
    (st : EncodeState) (w : World) (d : Device)
    (hlt : st.recording < recording_end)
    (hrec : recording_end ≤ st.dev.s_recording_buffer.length)
    (hds : DeviceOk maxSendSize st.dev)
    (hsts : (st.world.esp_aac_enc_process st.world.encodes).status = ESP_AUDIO_ERR_OK)
    (hLs : (st.world.esp_aac_enc_process st.world.encodes).out_frame.encoded_bytes = 0)
    (hc : d.s_is_connected = true) (hd : DeviceOk maxSendSize d) (hw : WorldOk fuel w)
    (hB : 0 < (w.i2s_read w.reads).bytes_recorded)
    (hBF : (w.i2s_read w.reads).bytes_recorded ≤ d.s_frame_in_bytes)
    (hst : (w.esp_aac_enc_process w.encodes).status = ESP_AUDIO_ERR_OK)
    (hL : (w.esp_aac_enc_process w.encodes).out_frame.encoded_bytes = 0) :
    (∃ st1 in_frame,
        encodeBody maxSendSize fuel recording_end st = some (false, st1)
        ∧ st1.trace = st.trace ++ [Effect.esp_aac_enc_process in_frame]
        ∧ sentPackets st1.trace = sentPackets st.trace
        ∧ st1.dev.s_interframe_seqno = (st.dev.s_interframe_seqno + 1) % 256)
      ∧ ∃ d1 w1 in_frame,
        loop maxSendSize fuel w d
          = some (d1, w1,
              [Effect.i2s_read d.s_frame_in_bytes, Effect.esp_aac_enc_process in_frame])
        ∧ sentPackets
            [Effect.i2s_read d.s_frame_in_bytes, Effect.esp_aac_enc_process in_frame] = []
        ∧ d1.s_interframe_seqno = (d.s_interframe_seqno + 1) % 256 := by
  constructor
  · obtain ⟨g, -, hg2, -, hbody⟩ :=
      encodeBody_ok maxSendSize fuel recording_end st hlt hrec hds hsts
        (by rw [hLs]; exact Nat.zero_le _) (by rw [hLs]; exact Nat.zero_le _)
    rw [frameTrace_empty _ _ _ hLs] at hbody
    refine ⟨_, _, hbody, rfl, ?_, hg2⟩
    simp only [sentPackets_append]
    simp [sentPackets]
  · obtain ⟨j, failed, g, inp, cf, hrun, -, -, hok, hfail, -, hgs, -, -⟩ :=
      loop_spec maxSendSize fuel w d hc hd hw hB
    have hnp := numPackets_le hB hBF
    rw [hnp] at hok hfail
    have hff : failed = false := by
      cases failed
      · rfl
      · obtain ⟨h1, h2⟩ := hfail rfl
        have hj0 : j = 0 := by omega
        rw [hj0, Nat.add_zero] at h2
        exact absurd hst h2
    subst hff
    have hj := hok rfl
    subst hj
    refine ⟨{ d with
          toGlobals := g
          s_recording_buffer := (w.i2s_read w.reads).buffer
          s_input_frame := inp
          s_compressed_frame := cf },
      { w with reads := w.reads + 1, encodes := w.encodes + 1 },
      { buffer := chunkInput (w.i2s_read w.reads).buffer 0
          (w.i2s_read w.reads).bytes_recorded d.s_frame_in_bytes 0
        len := d.s_frame_in_bytes }, ?_, rfl, hgs⟩
    rw [hrun]
    simp only [Bool.false_eq_true, if_false, List.append_nil]
    rw [chunksTrace_snoc, chunksTrace_zero, List.nil_append]
    unfold chunkTrace
    simp only [Nat.add_zero]
    rw [frameTrace_empty _ _ _ hL]

/-- An instance: a capture of 5 bytes, an encoder that succeeds with no byte. -/
theorem empty_result_advances_counter_witness :
    ((demoEncodeState 7 5 0 0).recording < 5
      ∧ 5 ≤ (demoEncodeState 7 5 0 0).dev.s_recording_buffer.length
      ∧ DeviceOk MaxSendSize (demoEncodeState 7 5 0 0).dev
      ∧ ((demoEncodeState 7 5 0 0).world.esp_aac_enc_process
            (demoEncodeState 7 5 0 0).world.encodes).status = ESP_AUDIO_ERR_OK
      ∧ ((demoEncodeState 7 5 0 0).world.esp_aac_enc_process
            (demoEncodeState 7 5 0 0).world.encodes).out_frame.encoded_bytes = 0
      ∧ (demoDevice 7).s_is_connected = true
      ∧ DeviceOk MaxSendSize (demoDevice 7) ∧ WorldOk 8 (demoWorld 5 0 0)
      ∧ 0 < ((demoWorld 5 0 0).i2s_read (demoWorld 5 0 0).reads).bytes_recorded
      ∧ ((demoWorld 5 0 0).i2s_read (demoWorld 5 0 0).reads).bytes_recorded
          ≤ (demoDevice 7).s_frame_in_bytes
      ∧ ((demoWorld 5 0 0).esp_aac_enc_process (demoWorld 5 0 0).encodes).status
          = ESP_AUDIO_ERR_OK
      ∧ ((demoWorld 5 0 0).esp_aac_enc_process (demoWorld 5 0 0).encodes).out_frame.encoded_bytes
          = 0)
    ∧ ((∃ st1 in_frame,
          encodeBody MaxSendSize 8 5 (demoEncodeState 7 5 0 0) = some (false, st1)
          ∧ st1.trace = (demoEncodeState 7 5 0 0).trace ++ [Effect.esp_aac_enc_process in_frame]
          ∧ sentPackets st1.trace = sentPackets (demoEncodeState 7 5 0 0).trace
          ∧ st1.dev.s_interframe_seqno
              = ((demoEncodeState 7 5 0 0).dev.s_interframe_seqno + 1) % 256)
      ∧ ∃ d1 w1 in_frame,
          loop MaxSendSize 8 (demoWorld 5 0 0) (demoDevice 7)
            = some (d1, w1,
                [Effect.i2s_read (demoDevice 7).s_frame_in_bytes,
                  Effect.esp_aac_enc_process in_frame])
          ∧ sentPackets
              [Effect.i2s_read (demoDevice 7).s_frame_in_bytes,
                Effect.esp_aac_enc_process in_frame] = []
          ∧ d1.s_interframe_seqno = ((demoDevice 7).s_interframe_seqno + 1) % 256) :=
  ⟨⟨(by decide : 0 < 5), (by decide : 5 ≤ 8), demoDevice_ok 7 (by decide), rfl, rfl,
      rfl, demoDevice_ok 7 (by decide),
      demoWorld_ok 5 0 0 8 (by decide) (by decide) (by decide),
      (by decide : 0 < 5), (by decide : 5 ≤ 8), rfl, rfl⟩,
    empty_result_advances_counter MaxSendSize 8 5 (demoEncodeState 7 5 0 0)
      (demoWorld 5 0 0) (demoDevice 7)
      (by decide : 0 < 5) (by decide : 5 ≤ 8) (demoDevice_ok 7 (by decide)) rfl rfl
      rfl (demoDevice_ok 7 (by decide)) (demoWorld_ok 5 0 0 8 (by decide) (by decide) (by decide))
      (by decide : 0 < 5) (by decide : 5 ≤ 8) rfl rfl⟩

/-- An empty encoder result consumes a sequence number: with the frame counter
at 7, a call of `loop()` whose encoder call succeeds with no byte sends no
packet and leaves the counter at 8. -/
theorem empty_result_consumes_number :
    (loop MaxSendSize 8 (demoWorld 5 0 0) (demoDevice 7)).map
        (fun r => (sentPackets r.2.2, r.1.s_interframe_seqno))
      = some ([], 8)
    ∧ (demoDevice 7).s_interframe_seqno = 7 := by
  constructor
  · rfl
  · rfl

/-! ## Failures and the connection gate -/

theorem loop_connected_head (maxSendSize fuel : Nat) (w : World) (d : Device)
    (hc : d.s_is_connected = true) (hd : DeviceOk maxSendSize d) (hw : WorldOk fuel w) :
    ∃ d1 w1 rest,
      loop maxSendSize fuel w d = some (d1, w1, Effect.i2s_read d.s_frame_in_bytes :: rest)
      ∧ w1.reads = w.reads + 1 := by
  rcases Nat.eq_zero_or_pos (w.i2s_read w.reads).bytes_recorded with hB | hB
  · exact ⟨_, _, _, loop_capture_failed maxSendSize fuel w d hc hB, rfl⟩
  · obtain ⟨j, failed, g, inp, cf, hrun, -⟩ := loop_spec maxSendSize fuel w d hc hd hw hB
    exact ⟨_, _, _, hrun, rfl⟩

/-- C13. Capture failure: when the device is connected and the capture read
returns 0 bytes, `loop()` returns after the capture read and the diagnostic:
no encoder call, no packet, the globals of the packetizer (both sequence
counters among them) unchanged; the device stays connected, and the next call
of `loop()` starts with a capture read again. -/
theorem capture_failure_skips_iteration (maxSendSize fuel : Nat) (w : World) (d : Device)
    (hc : d.s_is_connected = true) (hd : DeviceOk maxSendSize d) (hw : WorldOk fuel w)
    (hB : (w.i2s_read w.reads).bytes_recorded = 0) :
    ∃ d1 w1,
      loop maxSendSize fuel w d
        = some (d1, w1,
            [Effect.i2s_read d.s_frame_in_bytes, Effect.println Message.recordingFailed])
      ∧ d1.toGlobals = d.toGlobals
      ∧ d1.s_interframe_seqno = d.s_interframe_seqno
      ∧ d1.s_is_connected = true
      ∧ w1.encodes = w.encodes
      ∧ w1.reads = w.reads + 1
      ∧ ∃ d2 w2 rest,
          loop maxSendSize fuel w1 d1
            = some (d2, w2, Effect.i2s_read d.s_frame_in_bytes :: rest)
          ∧ w2.reads = w.reads + 2 := by
  have hrun := loop_capture_failed maxSendSize fuel w d hc hB
  refine ⟨_, _, hrun, rfl, rfl, hc, rfl, rfl, ?_⟩
  obtain ⟨d2, w2, rest, h2, hr2⟩ :=
    loop_connected_head maxSendSize fuel { w with reads := w.reads + 1 }
      { d with s_recording_buffer := (w.i2s_read w.reads).buffer } hc hd hw
  exact ⟨d2, w2, rest, h2, hr2⟩

/-- An instance: a world whose capture reads give no byte. -/
theorem capture_failure_skips_iteration_witness :
    ((demoDevice 7).s_is_connected = true
      ∧ DeviceOk MaxSendSize (demoDevice 7) ∧ WorldOk 8 (demoWorld 0 0 6)
      ∧ ((demoWorld 0 0 6).i2s_read (demoWorld 0 0 6).reads).bytes_recorded = 0)
    ∧ ∃ d1 w1,
        loop MaxSendSize 8 (demoWorld 0 0 6) (demoDevice 7)
          = some (d1, w1,
              [Effect.i2s_read (demoDevice 7).s_frame_in_bytes,
                Effect.println Message.recordingFailed])
        ∧ d1.toGlobals = (demoDevice 7).toGlobals
        ∧ d1.s_interframe_seqno = (demoDevice 7).s_interframe_seqno
        ∧ d1.s_is_connected = true
        ∧ w1.encodes = (demoWorld 0 0 6).encodes
        ∧ w1.reads = (demoWorld 0 0 6).reads + 1
        ∧ ∃ d2 w2 rest,
            loop MaxSendSize 8 w1 d1
              = some (d2, w2, Effect.i2s_read (demoDevice 7).s_frame_in_bytes :: rest)
            ∧ w2.reads = (demoWorld 0 0 6).reads + 2 :=
  ⟨⟨rfl, demoDevice_ok 7 (by decide),
      demoWorld_ok 0 0 6 8 (by decide) (by decide) (by decide), rfl⟩,
    capture_failure_skips_iteration MaxSendSize 8 (demoWorld 0 0 6) (demoDevice 7) rfl
      (demoDevice_ok 7 (by decide)) (demoWorld_ok 0 0 6 8 (by decide) (by decide) (by decide))
      rfl⟩

theorem onDisconnect_of_disconnected (d : Device) (hc : d.s_is_connected = false) :
    (onDisconnect d).1 = d := by
  unfold onDisconnect
  simp only []
  rw [← hc]

/-- A run without `onConnect` from a disconnected device leaves the device and
the world as they are; it only waits, prints `Disconnected` and restarts
advertising. -/
theorem run_disconnected (maxSendSize fuel : Nat) (w : World) (d : Device)
    (hc : d.s_is_connected = false) (ops : List Op) (hops : Op.onConnect ∉ ops) :
    ∃ t, run maxSendSize fuel w d ops = some (d, w, t)
      ∧ ∀ e ∈ t, e = Effect.delay 50 ∨ e = Effect.println Message.disconnected
          ∨ e = Effect.startAdvertising := by
  induction ops with
  | nil => exact ⟨[], rfl, by simp⟩
  | cons op ops ih =>
    obtain ⟨t, hrun, ht⟩ := ih (fun h => hops (List.mem_cons_of_mem _ h))
    have hstep : ∃ t1, step maxSendSize fuel w d op = some (d, w, t1)
        ∧ ∀ e ∈ t1, e = Effect.delay 50 ∨ e = Effect.println Message.disconnected
            ∨ e = Effect.startAdvertising := by
      cases op with
      | loop => exact ⟨_, loop_disconnected maxSendSize fuel w d hc, by simp⟩
      | onConnect => exact absurd (List.mem_cons_self _ _) hops
      | onDisconnect =>
        refine ⟨(onDisconnect d).2, ?_, by simp [onDisconnect]⟩
        show some ((onDisconnect d).1, w, (onDisconnect d).2) = _
        rw [onDisconnect_of_disconnected d hc]
      | onWrite => exact ⟨[], rfl, by simp⟩
    obtain ⟨t1, hs1, ht1⟩ := hstep
    refine ⟨t1 ++ t, ?_, ?_⟩
    · rw [run, hs1]
      simp only []
      rw [hrun]
    · intro e he
      rcases List.mem_append.mp he with h | h
      · exact ht1 e h
      · exact ht e h

/-- C14. Connection gate: on a device that is not connected, a call of
`loop()` only waits 50 ms and returns, the globals (the sequence counters
among them) and the world untouched; and over any run that contains no
`onConnect`, the device stays as it is and no capture read, no encoder call
and no packet send happens. -/
theorem connection_gate (maxSendSize fuel : Nat) (w : World) (d : Device) (ops : List Op)
    (hc : d.s_is_connected = false) (hops : Op.onConnect ∉ ops) :
    loop maxSendSize fuel w d = some (d, w, [Effect.delay 50])
      ∧ ∃ t, run maxSendSize fuel w d ops = some (d, w, t)
        ∧ (∀ size, Effect.i2s_read size ∉ t)
        ∧ (∀ in_frame, Effect.esp_aac_enc_process in_frame ∉ t)
        ∧ (∀ p, Effect.send p ∉ t) := by
  refine ⟨loop_disconnected maxSendSize fuel w d hc, ?_⟩
  obtain ⟨t, hrun, ht⟩ := run_disconnected maxSendSize fuel w d hc ops hops
  refine ⟨t, hrun, ?_, ?_, ?_⟩
  · intro size h
    rcases ht _ h with h1 | h1 | h1 <;> cases h1
  · intro f h
    rcases ht _ h with h1 | h1 | h1 <;> cases h1
  · intro p h
    rcases ht _ h with h1 | h1 | h1 <;> cases h1

/-- An instance: the device as its initialisers leave it, over three calls of
`loop()`, a disconnection and a write. -/
theorem connection_gate_witness :
    ((initDevice MaxSendSize).s_is_connected = false
      ∧ Op.onConnect ∉ [Op.loop, Op.loop, Op.onDisconnect, Op.onWrite, Op.loop])
    ∧ (loop MaxSendSize 8 (demoWorld 5 0 6) (initDevice MaxSendSize)
          = some (initDevice MaxSendSize, demoWorld 5 0 6, [Effect.delay 50])
        ∧ ∃ t, run MaxSendSize 8 (demoWorld 5 0 6) (initDevice MaxSendSize)
              [Op.loop, Op.loop, Op.onDisconnect, Op.onWrite, Op.loop]
            = some (initDevice MaxSendSize, demoWorld 5 0 6, t)
          ∧ (∀ size, Effect.i2s_read size ∉ t)
          ∧ (∀ in_frame, Effect.esp_aac_enc_process in_frame ∉ t)
          ∧ (∀ p, Effect.send p ∉ t)) :=
  ⟨⟨rfl, by decide⟩,
    connection_gate MaxSendSize 8 (demoWorld 5 0 6) (initDevice MaxSendSize)
      [Op.loop, Op.loop, Op.onDisconnect, Op.onWrite, Op.loop] rfl (by decide)⟩

/-- C15. Encode failure: when, in a call of `loop()`, the encoder call for a
chunk (the one after `j0` successful ones) returns a status other than
`ESP_AUDIO_ERR_OK`, `loop()` returns right after that encoder call and the
diagnostic, so no packet is sent for the chunk; the frame sequence number has
advanced by `j0`, once for each earlier chunk and not for this one, and when
the failing chunk is the first the globals of the packetizer are unchanged. -/
theorem encode_failure_abandons_frame (maxSendSize fuel j0 : Nat) (w : World) (d : Device)
    (hc : d.s_is_connected = true) (hd : DeviceOk maxSendSize d) (hw : WorldOk fuel w)
    (hB : 0 < (w.i2s_read w.reads).bytes_recorded)
    (hj0 : j0 < numPackets (w.i2s_read w.reads).bytes_recorded d.s_frame_in_bytes)
    (hprev : ∀ i, i < j0 →
      (w.esp_aac_enc_process (w.encodes + i)).status = ESP_AUDIO_ERR_OK)
    (hbad : (w.esp_aac_enc_process (w.encodes + j0)).status ≠ ESP_AUDIO_ERR_OK) :
    ∃ d1 w1 pre in_frame,
      loop maxSendSize fuel w d
        = some (d1, w1,
            pre ++ [Effect.esp_aac_enc_process in_frame,
              Effect.println Message.encoderProcessFailed])
      ∧ encoderCalls pre = j0
      ∧ w1.encodes = w.encodes + j0 + 1
      ∧ d1.s_interframe_seqno = (d.s_interframe_seqno + j0) % 256
      ∧ (j0 = 0 → d1.toGlobals = d.toGlobals ∧ sentPackets pre = []) := by
  obtain ⟨j, failed, g, inp, cf, hrun, -, hall, hok, hfail, -, hgs, -, hg0⟩ :=
    loop_spec maxSendSize fuel w d hc hd hw hB
  have hjj : j = j0 ∧ failed = true := by
    cases failed
    · have h1 := hok rfl
      exact absurd (hall j0 (by omega)) hbad
    · obtain ⟨h1, h2⟩ := hfail rfl
      refine ⟨?_, rfl⟩
      rcases Nat.lt_trichotomy j j0 with h | h | h
      · exact absurd (hprev j h) h2
      · exact h
      · exact absurd (hall j0 h) hbad
  obtain ⟨hj, hf⟩ := hjj
  subst hj
  subst hf
  refine ⟨{ d with
        toGlobals := g
        s_recording_buffer := (w.i2s_read w.reads).buffer
        s_input_frame := inp
        s_compressed_frame := cf },
    { w with reads := w.reads + 1, encodes := w.encodes + j + 1 },
    Effect.i2s_read d.s_frame_in_bytes
      :: chunksTrace maxSendSize w.esp_aac_enc_process (w.i2s_read w.reads).buffer 0
          (w.i2s_read w.reads).bytes_recorded d.s_frame_in_bytes w.encodes
          d.s_interframe_seqno j,
    { buffer := chunkInput (w.i2s_read w.reads).buffer 0
        (w.i2s_read w.reads).bytes_recorded d.s_frame_in_bytes j
      len := d.s_frame_in_bytes }, ?_, ?_, rfl, hgs, ?_⟩
  · rw [hrun]
    rfl
  · simp only [encoderCalls]
    exact encoderCalls_chunksTrace _ _ _ _ _ _ _ _ _
  · intro h0
    subst h0
    exact ⟨hg0 rfl, rfl⟩

/-- An instance: a capture of 5 bytes, an encoder that fails at once. -/
theorem encode_failure_abandons_frame_witness :
    ((demoDevice 7).s_is_connected = true
      ∧ DeviceOk MaxSendSize (demoDevice 7) ∧ WorldOk 8 (demoWorld 5 (-1) 6)
      ∧ 0 < ((demoWorld 5 (-1) 6).i2s_read (demoWorld 5 (-1) 6).reads).bytes_recorded
      ∧ 0 < numPackets ((demoWorld 5 (-1) 6).i2s_read (demoWorld 5 (-1) 6).reads).bytes_recorded
          (demoDevice 7).s_frame_in_bytes
      ∧ (∀ i, i < 0 →
          ((demoWorld 5 (-1) 6).esp_aac_enc_process ((demoWorld 5 (-1) 6).encodes + i)).status
            = ESP_AUDIO_ERR_OK)
      ∧ ((demoWorld 5 (-1) 6).esp_aac_enc_process ((demoWorld 5 (-1) 6).encodes + 0)).status
          ≠ ESP_AUDIO_ERR_OK)
    ∧ ∃ d1 w1 pre in_frame,
        loop MaxSendSize 8 (demoWorld 5 (-1) 6) (demoDevice 7)
          = some (d1, w1,
              pre ++ [Effect.esp_aac_enc_process in_frame,
                Effect.println Message.encoderProcessFailed])
        ∧ encoderCalls pre = 0
        ∧ w1.encodes = (demoWorld 5 (-1) 6).encodes + 0 + 1
        ∧ d1.s_interframe_seqno = ((demoDevice 7).s_interframe_seqno + 0) % 256
        ∧ (0 = 0 → d1.toGlobals = (demoDevice 7).toGlobals ∧ sentPackets pre = []) :=
  ⟨⟨rfl, demoDevice_ok 7 (by decide),
      demoWorld_ok 5 (-1) 6 8 (by decide) (by decide) (by decide),
      (by decide : 0 < 5), (by decide : 0 < numPackets 5 8), fun i hi => absurd hi (by omega),
      (by decide : (-1 : Int) ≠ 0)⟩,
    encode_failure_abandons_frame MaxSendSize 8 0 (demoWorld 5 (-1) 6) (demoDevice 7) rfl
      (demoDevice_ok 7 (by decide)) (demoWorld_ok 5 (-1) 6 8 (by decide) (by decide) (by decide))
      (by decide : 0 < 5) (by decide : 0 < numPackets 5 8) (fun i hi => absurd hi (by omega))
      (by decide : (-1 : Int) ≠ 0)⟩

theorem chunkInput_short (recording : List Nat) (B F : Nat) (hBF : B ≤ F) :
    chunkInput recording 0 B F 0 = recording.take B ++ List.replicate (F - B) 0 := by
  unfold chunkInput
  have e : min F (B - 0 * F) = B := by rw [Nat.zero_mul]; omega
  rw [e]
  simp

/-- C16. Silence padding: when the capture read gives `B` bytes with
`0 < B < s_frame_in_bytes`, the encoder is called, once, on an input frame of
exactly `s_frame_in_bytes` bytes whose first `B` bytes are the captured bytes
and whose remaining `s_frame_in_bytes - B` bytes are zero. -/
theorem silence_padding (maxSendSize fuel : Nat) (w : World) (d : Device)
    (hc : d.s_is_connected = true) (hd : DeviceOk maxSendSize d) (hw : WorldOk fuel w)
    (hB : 0 < (w.i2s_read w.reads).bytes_recorded)
    (hBF : (w.i2s_read w.reads).bytes_recorded < d.s_frame_in_bytes) :
    ∃ d1 w1 in_frame rest,
      loop maxSendSize fuel w d
        = some (d1, w1,
            Effect.i2s_read d.s_frame_in_bytes :: Effect.esp_aac_enc_process in_frame :: rest)
      ∧ encoderCalls rest = 0
      ∧ in_frame.len = d.s_frame_in_bytes
      ∧ in_frame.buffer.length = d.s_frame_in_bytes
      ∧ in_frame.buffer.take (w.i2s_read w.reads).bytes_recorded
          = (w.i2s_read w.reads).buffer.take (w.i2s_read w.reads).bytes_recorded
      ∧ in_frame.buffer.drop (w.i2s_read w.reads).bytes_recorded
          = List.replicate (d.s_frame_in_bytes - (w.i2s_read w.reads).bytes_recorded) 0 := by
  obtain ⟨j, failed, g, inp, cf, hrun, -, -, hok, hfail, -, -, -, -⟩ :=
    loop_spec maxSendSize fuel w d hc hd hw hB
  have hcl := (hw.1 w.reads).1
  have hnp := numPackets_le hB (Nat.le_of_lt hBF)
  rw [hnp] at hok hfail
  have hci := chunkInput_short (w.i2s_read w.reads).buffer
    (w.i2s_read w.reads).bytes_recorded d.s_frame_in_bytes (Nat.le_of_lt hBF)
  have htl : ((w.i2s_read w.reads).buffer.take (w.i2s_read w.reads).bytes_recorded).length
      = (w.i2s_read w.reads).bytes_recorded := by
    rw [List.length_take]; omega
  have hfacts :
      (chunkInput (w.i2s_read w.reads).buffer 0 (w.i2s_read w.reads).bytes_recorded
          d.s_frame_in_bytes 0).length = d.s_frame_in_bytes
      ∧ (chunkInput (w.i2s_read w.reads).buffer 0 (w.i2s_read w.reads).bytes_recorded
          d.s_frame_in_bytes 0).take (w.i2s_read w.reads).bytes_recorded
        = (w.i2s_read w.reads).buffer.take (w.i2s_read w.reads).bytes_recorded
      ∧ (chunkInput (w.i2s_read w.reads).buffer 0 (w.i2s_read w.reads).bytes_recorded
          d.s_frame_in_bytes 0).drop (w.i2s_read w.reads).bytes_recorded
        = List.replicate (d.s_frame_in_bytes - (w.i2s_read w.reads).bytes_recorded) 0 := by
    refine ⟨chunkInput_length _ _ _ _ _ (by omega), ?_, ?_⟩
    · rw [hci, List.take_append_of_le_length (by omega), List.take_take, Nat.min_self]
    · rw [hci, List.drop_append_of_le_length (by omega),
        List.drop_of_length_le (by omega), List.nil_append]
  cases failed
  · -- the encoder call succeeds
    have hj := hok rfl
    subst hj
    refine ⟨{ d with
          toGlobals := g
          s_recording_buffer := (w.i2s_read w.reads).buffer
          s_input_frame := inp
          s_compressed_frame := cf },
      { w with reads := w.reads + 1, encodes := w.encodes + 1 },
      { buffer := chunkInput (w.i2s_read w.reads).buffer 0
          (w.i2s_read w.reads).bytes_recorded d.s_frame_in_bytes 0
        len := d.s_frame_in_bytes },
      frameTrace maxSendSize ((d.s_interframe_seqno + 0) % 256)
        (w.esp_aac_enc_process (w.encodes + 0)).out_frame,
      ?_, encoderCalls_frameTrace _ _ _, rfl, hfacts.1, hfacts.2.1, hfacts.2.2⟩
    rw [hrun]
    simp only [Bool.false_eq_true, if_false, List.append_nil]
    rw [chunksTrace_snoc, chunksTrace_zero, List.nil_append]
    rfl
  · -- the encoder call fails
    have hj : j = 0 := by
      have := (hfail rfl).1
      omega
    subst hj
    refine ⟨{ d with
          toGlobals := g
          s_recording_buffer := (w.i2s_read w.reads).buffer
          s_input_frame := inp
          s_compressed_frame := cf },
      { w with reads := w.reads + 1, encodes := w.encodes + 0 + 1 },
      { buffer := chunkInput (w.i2s_read w.reads).buffer 0
          (w.i2s_read w.reads).bytes_recorded d.s_frame_in_bytes 0
        len := d.s_frame_in_bytes },
      [Effect.println Message.encoderProcessFailed],
      ?_, rfl, rfl, hfacts.1, hfacts.2.1, hfacts.2.2⟩
    rw [hrun]
    rfl

/-- An instance: a capture of 5 bytes for an input frame of 8 bytes. -/
theorem silence_padding_witness :
    ((demoDevice 7).s_is_connected = true
      ∧ DeviceOk MaxSendSize (demoDevice 7) ∧ WorldOk 8 (demoWorld 5 0 6)
      ∧ 0 < ((demoWorld 5 0 6).i2s_read (demoWorld 5 0 6).reads).bytes_recorded
      ∧ ((demoWorld 5 0 6).i2s_read (demoWorld 5 0 6).reads).bytes_recorded
          < (demoDevice 7).s_frame_in_bytes)
    ∧ ∃ d1 w1 in_frame rest,
        loop MaxSendSize 8 (demoWorld 5 0 6) (demoDevice 7)
          = some (d1, w1,
              Effect.i2s_read (demoDevice 7).s_frame_in_bytes
                :: Effect.esp_aac_enc_process in_frame :: rest)
        ∧ encoderCalls rest = 0
        ∧ in_frame.len = (demoDevice 7).s_frame_in_bytes
        ∧ in_frame.buffer.length = (demoDevice 7).s_frame_in_bytes
        ∧ in_frame.buffer.take ((demoWorld 5 0 6).i2s_read (demoWorld 5 0 6).reads).bytes_recorded
            = ((demoWorld 5 0 6).i2s_read (demoWorld 5 0 6).reads).buffer.take
                ((demoWorld 5 0 6).i2s_read (demoWorld 5 0 6).reads).bytes_recorded
        ∧ in_frame.buffer.drop ((demoWorld 5 0 6).i2s_read (demoWorld 5 0 6).reads).bytes_recorded
            = List.replicate ((demoDevice 7).s_frame_in_bytes
                - ((demoWorld 5 0 6).i2s_read (demoWorld 5 0 6).reads).bytes_recorded) 0 :=
  ⟨⟨rfl, demoDevice_ok 7 (by decide),
      demoWorld_ok 5 0 6 8 (by decide) (by decide) (by decide),
      (by decide : 0 < 5), (by decide : 5 < 8)⟩,
    silence_padding MaxSendSize 8 (demoWorld 5 0 6) (demoDevice 7) rfl
      (demoDevice_ok 7 (by decide)) (demoWorld_ok 5 0 6 8 (by decide) (by decide) (by decide))
      (by decide : 0 < 5) (by decide : 5 < 8)⟩

/-! ## The receiver's contract -/

theorem find?_map_range {α : Type} (q : α → Bool) (f : Nat → α) :
    ∀ (n i : Nat), i < n → (∀ j, j < n → (q (f j) = true ↔ j = i)) →
      ((List.range n).map f).find? q = some (f i) := by
  intro n
  induction n with
  | zero => intro i hi; omega
  | succ n ih =>
    intro i hi hq
    rw [List.range_succ, List.map_append, List.find?_append]
    rcases Nat.lt_or_ge i n with hlt | hge
    · rw [ih i hlt (fun j hj => hq j (by omega))]
      rfl
    · have hin : i = n := by omega
      subst hin
      have hnone : ((List.range i).map f).find? q = none := by
        rw [List.find?_eq_none]
        intro x hx
        rw [List.mem_map] at hx
        obtain ⟨j, hj, rfl⟩ := hx
        have hji := List.mem_range.mp hj
        intro hqt
        have := (hq j (by omega)).mp hqt
        omega
      rw [hnone]
      have hqi : q (f i) = true := (hq i (by omega)).mpr rfl
      simp [hqi]

theorem framePacket_fields (c n s : Nat) (mem : List Nat) (L j : Nat) :
    frameId (framePacket c n s mem L j) = s % 16
      ∧ packetCount (framePacket c n s mem L j) = n % 16
      ∧ packetIndex (framePacket c n s mem L j) = j % 16 := by
  unfold frameId packetCount packetIndex framePacket lowNibble highNibble
  simp only [List.getD_cons_zero, List.getD_cons_succ]
  omega

theorem payloadOf_framePackets (c n s : Nat) (mem : List Nat) (L i : Nat)
    (hn : n ≤ 16) (hi : i < n) :
    payloadOf ((List.range n).map (framePacket c n s mem L)) (s % 16) i
      = some (payload (framePacket c n s mem L i)) := by
  unfold payloadOf
  rw [find?_map_range _ _ n i hi]
  · rfl
  · intro j hj
    obtain ⟨h1, -, h3⟩ := framePacket_fields c n s mem L j
    rw [h1, h3]
    simp only [true_and, decide_eq_true_eq]
    constructor
    · intro h; omega
    · intro h; omega

theorem gather_framePackets (c n s : Nat) (mem : List Nat) (L : Nat) (hn : n ≤ 16) :
    ∀ (is : List Nat), (∀ i ∈ is, i < n) →
      gather ((List.range n).map (framePacket c n s mem L)) (s % 16) is
        = some ((is.map (fun i => payload (framePacket c n s mem L i))).flatten) := by
  intro is
  induction is with
  | nil => intro _; rfl
  | cons i is ih =>
    intro h
    rw [gather, payloadOf_framePackets c n s mem L i hn (h i (List.mem_cons_self _ _)),
      ih (fun k hk => h k (List.mem_cons_of_mem _ hk))]
    rfl

/-- C17. Receiver reassembly contract: for a frame of `1 ≤ L ≤ 15 * chunk`
bytes, so of 1 to 15 packets, a receiver that reads byte 0's low nibble as
frame id, byte 1's high nibble as packet count and low nibble as index, and
concatenates the payloads for the indices `0 .. count - 1`, recovers exactly
the encoded frame from the packets sent; the indices read in the packets are
`0, ..., n - 1`, each once, the count read in every packet is `n`, and the
frame id is the same in all of them. -/
theorem receiver_reassembles_frame (maxSendSize fuel : Nat) (g : Globals)
    (out_frame : esp_audio_enc_out_frame_t)
    (hM : HeaderSize < maxSendSize)
    (hbuf : g.s_output_buffer.length = maxSendSize)
    (hlen : out_frame.encoded_bytes ≤ out_frame.buffer.length)
    (hfuel : out_frame.encoded_bytes ≤ fuel)
    (hL : 0 < out_frame.encoded_bytes)
    (hL15 : out_frame.encoded_bytes ≤ 15 * (maxSendSize - HeaderSize)) :
    ∃ g1 trace, fragmentBlock maxSendSize fuel g out_frame = some (g1, trace)
      ∧ 1 ≤ (sentPackets trace).length ∧ (sentPackets trace).length ≤ 15
      ∧ reassemble (sentPackets trace) = some (encodedFrame out_frame)
      ∧ (sentPackets trace).map packetIndex = List.range (sentPackets trace).length
      ∧ ∀ p ∈ sentPackets trace,
          packetCount p = (sentPackets trace).length
          ∧ frameId p = g.s_interframe_seqno % 16 := by
  obtain ⟨g1, trace, hrun, -, hps, -, -, -⟩ :=
    fragmentBlock_spec maxSendSize fuel g out_frame hM hbuf hlen hfuel
  have hc : 0 < maxSendSize - HeaderSize := by omega
  have hn1 : 0 < numPackets out_frame.encoded_bytes (maxSendSize - HeaderSize) :=
    numPackets_pos hc hL
  have hn15 : numPackets out_frame.encoded_bytes (maxSendSize - HeaderSize) ≤ 15 := by
    by_contra h
    have h1 := (lt_numPackets_iff hc out_frame.encoded_bytes 15).mp (by omega)
    omega
  have hlenps : (sentPackets trace).length
      = numPackets out_frame.encoded_bytes (maxSendSize - HeaderSize) := by
    rw [hps, List.length_map, List.length_range]
  refine ⟨g1, trace, hrun, by omega, by omega, ?_, ?_, ?_⟩
  · -- the reassembly
    have hhead : ∃ tl, sentPackets trace
        = framePacket (maxSendSize - HeaderSize)
            (numPackets out_frame.encoded_bytes (maxSendSize - HeaderSize))
            g.s_interframe_seqno out_frame.buffer out_frame.encoded_bytes 0 :: tl := by
      rw [hps]
      obtain ⟨m, hm⟩ : ∃ m, numPackets out_frame.encoded_bytes (maxSendSize - HeaderSize)
          = m + 1 := ⟨_, (Nat.succ_pred_eq_of_pos hn1).symm⟩
      rw [hm, List.range_succ_eq_map]
      exact ⟨_, rfl⟩
    obtain ⟨tl, htl⟩ := hhead
    have hre : reassemble (sentPackets trace)
        = gather (sentPackets trace)
            (frameId (framePacket (maxSendSize - HeaderSize)
              (numPackets out_frame.encoded_bytes (maxSendSize - HeaderSize))
              g.s_interframe_seqno out_frame.buffer out_frame.encoded_bytes 0))
            (List.range (packetCount (framePacket (maxSendSize - HeaderSize)
              (numPackets out_frame.encoded_bytes (maxSendSize - HeaderSize))
              g.s_interframe_seqno out_frame.buffer out_frame.encoded_bytes 0))) := by
      rw [htl]
      rfl
    obtain ⟨h1, h2, -⟩ := framePacket_fields (maxSendSize - HeaderSize)
      (numPackets out_frame.encoded_bytes (maxSendSize - HeaderSize))
      g.s_interframe_seqno out_frame.buffer out_frame.encoded_bytes 0
    have h3 : numPackets out_frame.encoded_bytes (maxSendSize - HeaderSize) % 16
        = numPackets out_frame.encoded_bytes (maxSendSize - HeaderSize) :=
      Nat.mod_eq_of_lt (by omega)
    rw [hre, h1, h2, h3, hps,
      gather_framePackets _ _ _ _ _ (by omega) _ (fun i hi => List.mem_range.mp hi)]
    have h := flatten_chunks (maxSendSize - HeaderSize) out_frame.buffer hc
      out_frame.encoded_bytes 0
    simp only [Nat.zero_add, List.drop_zero] at h
    simp only [payload_framePacket]
    rw [h]
    rfl
  · -- the indices
    rw [hlenps, hps, List.map_map]
    have hid : ∀ j ∈ List.range
        (numPackets out_frame.encoded_bytes (maxSendSize - HeaderSize)),
        (packetIndex ∘ framePacket (maxSendSize - HeaderSize)
          (numPackets out_frame.encoded_bytes (maxSendSize - HeaderSize))
          g.s_interframe_seqno out_frame.buffer out_frame.encoded_bytes) j = id j := by
      intro j hj
      have hj1 := List.mem_range.mp hj
      simp only [Function.comp, id]
      rw [(framePacket_fields _ _ _ _ _ j).2.2]
      exact Nat.mod_eq_of_lt (by omega)
    rw [List.map_congr_left hid, List.map_id]
  · intro p hp
    rw [hlenps]
    rw [hps, List.mem_map] at hp
    obtain ⟨j, -, rfl⟩ := hp
    obtain ⟨h1, h2, -⟩ := framePacket_fields (maxSendSize - HeaderSize)
      (numPackets out_frame.encoded_bytes (maxSendSize - HeaderSize))
      g.s_interframe_seqno out_frame.buffer out_frame.encoded_bytes j
    exact ⟨by rw [h2]; exact Nat.mod_eq_of_lt (by omega), h1⟩

/-- An instance at the configured sizes, for a 200-byte frame. -/
theorem receiver_reassembles_frame_witness :
    (HeaderSize < MaxSendSize
      ∧ (initGlobals MaxSendSize).s_output_buffer.length = MaxSendSize
      ∧ (rampFrame 200).encoded_bytes ≤ (rampFrame 200).buffer.length
      ∧ (rampFrame 200).encoded_bytes ≤ 200
      ∧ 0 < (rampFrame 200).encoded_bytes
      ∧ (rampFrame 200).encoded_bytes ≤ 15 * (MaxSendSize - HeaderSize))
    ∧ ∃ g1 trace,
        fragmentBlock MaxSendSize 200 (initGlobals MaxSendSize) (rampFrame 200) = some (g1, trace)
        ∧ 1 ≤ (sentPackets trace).length ∧ (sentPackets trace).length ≤ 15
        ∧ reassemble (sentPackets trace) = some (encodedFrame (rampFrame 200))
        ∧ (sentPackets trace).map packetIndex = List.range (sentPackets trace).length
        ∧ ∀ p ∈ sentPackets trace,
            packetCount p = (sentPackets trace).length
            ∧ frameId p = (initGlobals MaxSendSize).s_interframe_seqno % 16 :=
  ⟨⟨by decide, by simp [initGlobals, zeroBuffer], by simp [rampFrame], by simp [rampFrame],
      by simp [rampFrame], by decide⟩,
    receiver_reassembles_frame MaxSendSize 200 (initGlobals MaxSendSize) (rampFrame 200)
      (by decide) (by simp [initGlobals, zeroBuffer]) (by simp [rampFrame])
      (by simp [rampFrame]) (by simp [rampFrame]) (by decide)⟩

/-! ## The connection state -/

theorem encodeBody_connected (maxSendSize sendFuel recording_end : Nat) (st st1 : EncodeState)
    (b : Bool) (h : encodeBody maxSendSize sendFuel recording_end st = some (b, st1)) :
    st1.dev.s_is_connected = st.dev.s_is_connected := by
  unfold encodeBody at h
  simp only [] at h
  split at h
  · cases h
  · split at h
    · cases h
    · split at h
      · cases h
        rfl
      · split at h
        · cases h
        · cases h
          rfl

theorem encodeLoop_connected (maxSendSize sendFuel recording_end : Nat) :
    ∀ (fuel : Nat) (st st1 : EncodeState),
      encodeLoop maxSendSize sendFuel recording_end fuel st = some st1 →
      st1.dev.s_is_connected = st.dev.s_is_connected := by
  intro fuel
  induction fuel with
  | zero =>
    intro st st1 h
    rw [encodeLoop] at h
    split at h
    · cases h
    · cases h; rfl
  | succ fuel ih =>
    intro st st1 h
    rw [encodeLoop] at h
    split at h
    · split at h
      · cases h
      · rename_i st2 hb
        cases h
        exact encodeBody_connected _ _ _ _ _ _ hb
      · rename_i st2 hb
        rw [ih _ _ h]
        exact encodeBody_connected _ _ _ _ _ _ hb
    · cases h; rfl

/-- A call of `loop()` that returns leaves the connection flag as it is. -/
theorem loop_connected_unchanged (maxSendSize fuel : Nat) (w : World) (d : Device)
    (r : Device × World × List Effect) (h : loop maxSendSize fuel w d = some r) :
    r.1.s_is_connected = d.s_is_connected := by
  unfold loop at h
  split at h
  · cases h; rfl
  · simp only [] at h
    split at h
    · cases h; rfl
    · split at h
      · cases h
      · rename_i st hst
        cases h
        exact encodeLoop_connected _ _ _ _ _ _ hst

theorem setup_connected_unchanged (sw : SetupWorld) (d : Device) (r : Device × List Effect)
    (h : setup sw d = some r) : r.1.s_is_connected = d.s_is_connected := by
  unfold setup setup_microphone at h
  simp only [] at h
  split at h
  · cases h
  · cases h
    unfold setup_aac_encoder
    split <;> rfl

/-- C18. Connection state machine: the connection flag is initially false;
from any state `onConnect` makes it true and `onDisconnect` makes it false
and also restarts advertising; `onWrite`, a call of `loop()` and `setup()`
leave it as it is. -/
theorem connection_state_machine (maxSendSize fuel : Nat) (w : World) (sw : SetupWorld)
    (d : Device) (r : Device × World × List Effect) (r0 : Device × List Effect)
    (hloop : loop maxSendSize fuel w d = some r) (hsetup : setup sw d = some r0) :
    (initDevice maxSendSize).s_is_connected = false
      ∧ (onConnect d).1.s_is_connected = true
      ∧ (onDisconnect d).1.s_is_connected = false
      ∧ Effect.startAdvertising ∈ (onDisconnect d).2
      ∧ (onWrite d).1.s_is_connected = d.s_is_connected
      ∧ r.1.s_is_connected = d.s_is_connected
      ∧ r0.1.s_is_connected = d.s_is_connected :=
  ⟨rfl, rfl, rfl, by simp [onDisconnect], rfl,
    loop_connected_unchanged maxSendSize fuel w d r hloop,
    setup_connected_unchanged sw d r0 hsetup⟩

/-- An instance: a connected device, a call of `loop()` that sends a frame. -/
theorem connection_state_machine_witness :
    ∃ r r0, loop MaxSendSize 8 (demoWorld 5 0 6) (demoDevice 7) = some r
      ∧ setup demoSetup (demoDevice 7) = some r0
      ∧ ((initDevice MaxSendSize).s_is_connected = false
        ∧ (onConnect (demoDevice 7)).1.s_is_connected = true
        ∧ (onDisconnect (demoDevice 7)).1.s_is_connected = false
        ∧ Effect.startAdvertising ∈ (onDisconnect (demoDevice 7)).2
        ∧ (onWrite (demoDevice 7)).1.s_is_connected = (demoDevice 7).s_is_connected
        ∧ r.1.s_is_connected = (demoDevice 7).s_is_connected
        ∧ r0.1.s_is_connected = (demoDevice 7).s_is_connected) := by
  obtain ⟨d1, w1, rest, h, -⟩ := loop_connected_head MaxSendSize 8 (demoWorld 5 0 6)
    (demoDevice 7) rfl (demoDevice_ok 7 (by decide))
    (demoWorld_ok 5 0 6 8 (by decide) (by decide) (by decide))
  exact ⟨_, _, h, rfl,
    connection_state_machine MaxSendSize 8 (demoWorld 5 0 6) demoSetup (demoDevice 7) _ _ h rfl⟩

theorem run_append (maxSendSize fuel : Nat) (ops1 ops2 : List Op) :
    ∀ (w w1 w2 : World) (d d1 d2 : Device) (t1 t2 : List Effect),
      run maxSendSize fuel w d ops1 = some (d1, w1, t1) →
      run maxSendSize fuel w1 d1 ops2 = some (d2, w2, t2) →
      run maxSendSize fuel w d (ops1 ++ ops2) = some (d2, w2, t1 ++ t2) := by
  induction ops1 with
  | nil =>
    intro w w1 w2 d d1 d2 t1 t2 h1 h2
    simp only [run, Option.some.injEq, Prod.mk.injEq] at h1
    obtain ⟨rfl, rfl, rfl⟩ := h1
    simpa using h2
  | cons op ops ih =>
    intro w w1 w2 d d1 d2 t1 t2 h1 h2
    rw [run] at h1
    rw [List.cons_append, run]
    split at h1
    · cases h1
    · rename_i d3 w3 t3 hstep
      split at h1
      · cases h1
      · rename_i d4 w4 t4 hrun
        simp only [Option.some.injEq, Prod.mk.injEq] at h1
        obtain ⟨rfl, rfl, rfl⟩ := h1
        rw [ih _ _ _ _ _ _ _ _ hrun h2, List.append_assoc]

/-- A disconnection, any operations but `onConnect`, then a connection: the
device is as before but connected, the world as before, nothing is captured,
encoded or sent. -/
theorem run_cycle (maxSendSize fuel : Nat) (w : World) (d : Device) (idle : List Op)
    (hidle : Op.onConnect ∉ idle) :
    ∃ t, run maxSendSize fuel w d (Op.onDisconnect :: (idle ++ [Op.onConnect]))
        = some ({ d with s_is_connected := true }, w, t)
      ∧ (∀ p, Effect.send p ∉ t)
      ∧ ∀ f, Effect.esp_aac_enc_process f ∉ t := by
  obtain ⟨t, hrun, ht⟩ := run_disconnected maxSendSize fuel w
    { d with s_is_connected := false } rfl idle hidle
  have h1 : run maxSendSize fuel w { d with s_is_connected := false } [Op.onConnect]
      = some ({ d with s_is_connected := true }, w, [Effect.println Message.connected] ++ []) :=
    rfl
  have h2 := run_append maxSendSize fuel idle [Op.onConnect] _ _ _ _ _ _ _ _ hrun h1
  refine ⟨(onDisconnect d).2 ++ (t ++ ([Effect.println Message.connected] ++ [])), ?_, ?_, ?_⟩
  · rw [run]
    show (match some ((onDisconnect d).1, w, (onDisconnect d).2) with
      | none => none
      | some (d1, w1, t1) =>
        match run maxSendSize fuel w1 d1 (idle ++ [Op.onConnect]) with
        | none => none
        | some (d2, w2, t2) => some (d2, w2, t1 ++ t2)) = _
    simp only []
    have e : (onDisconnect d).1 = { d with s_is_connected := false } := rfl
    rw [e, h2]
  · intro p hp
    simp only [onDisconnect, List.mem_append, List.mem_cons, List.mem_singleton,
      List.not_mem_nil, or_false] at hp
    rcases hp with (h | h) | h | h
    · cases h
    · cases h
    · rcases ht _ h with h3 | h3 | h3 <;> cases h3
    · cases h
  · intro f hf
    simp only [onDisconnect, List.mem_append, List.mem_cons, List.mem_singleton,
      List.not_mem_nil, or_false] at hf
    rcases hf with (h | h) | h | h
    · cases h
    · cases h
    · rcases ht _ h with h3 | h3 | h3 <;> cases h3
    · cases h

theorem gapWorld_ok : WorldOk 8 gapWorld := by
  refine ⟨fun _ => ⟨by simp [gapWorld], by simp [gapWorld]⟩, fun k _ => ?_⟩
  by_cases hk : k = 1 <;> simp [gapWorld, hk, rampFrame]

/-- A run of the device when no encoder call fails: it returns, the device
stays well formed, the world only counts its calls, and the frames are
numbered from the frame counter on. -/
theorem run_ok (maxSendSize fuel : Nat) (ops : List Op) :
    ∀ (w : World) (d : Device), DeviceOk maxSendSize d → WorldOk fuel w →
      (∀ k, (w.esp_aac_enc_process k).status = ESP_AUDIO_ERR_OK) →
      ∃ d1 w1 t, run maxSendSize fuel w d ops = some (d1, w1, t)
        ∧ DeviceOk maxSendSize d1
        ∧ w1.i2s_read = w.i2s_read
        ∧ w1.esp_aac_enc_process = w.esp_aac_enc_process
        ∧ SeqOk d.s_interframe_seqno t
        ∧ d1.s_interframe_seqno = (d.s_interframe_seqno + encoderCalls t) % 256 := by
  induction ops with
  | nil =>
    intro w d hd _ _
    refine ⟨d, w, [], rfl, hd, rfl, rfl, SeqOk_of_no_send _ _ (by simp), ?_⟩
    simp only [encoderCalls]
    rw [Nat.add_zero, Nat.mod_eq_of_lt hd.2.2.2.2]
  | cons op ops ih =>
    intro w d hd hw hok
    obtain ⟨d1, w1, t1, hstep, hd1, hwi, hwe, hseq1, hs1⟩ :=
      step_seq maxSendSize fuel w d op hd hw hok
    have hw1 : WorldOk fuel w1 := by
      unfold WorldOk
      rw [hwi, hwe]
      exact hw
    have hok1 : ∀ k, (w1.esp_aac_enc_process k).status = ESP_AUDIO_ERR_OK := by
      rw [hwe]; exact hok
    obtain ⟨d2, w2, t2, hrun, hd2, hwi2, hwe2, hseq2, hs2⟩ := ih w1 d1 hd1 hw1 hok1
    refine ⟨d2, w2, t1 ++ t2, ?_, hd2, hwi2.trans hwi, hwe2.trans hwe, ?_, ?_⟩
    · rw [run, hstep]
      simp only []
      rw [hrun]
    · exact SeqOk_append hseq1 (SeqOk_congr (by rw [hs1]; omega) hseq2)
    · rw [hs2, hs1, encoderCalls_append]
      omega

set_option maxRecDepth 100000 in
/-- The first frame after a reconnection does not always carry the number that
follows the last frame sent before: with the frame counter at 5, two calls of
`loop()` whose second encoder result is empty send one frame, numbered 5; after
a disconnection, an idle call of `loop()` and a connection, the next call of
`loop()` sends a frame numbered 7, not 6. -/
theorem reconnect_after_empty_result_skips_a_number :
    ∃ d0 w0 t0 d1 tc d2 w2 t2,
      run MaxSendSize 8 gapWorld (demoDevice 5) [Op.loop, Op.loop] = some (d0, w0, t0)
      ∧ run MaxSendSize 8 w0 d0 [Op.onDisconnect, Op.loop, Op.onConnect] = some (d1, w0, tc)
      ∧ run MaxSendSize 8 w0 d1 [Op.loop] = some (d2, w2, t2)
      ∧ (sentPackets t0).map frameId = [5]
      ∧ sentPackets tc = []
      ∧ (sentPackets t2).map frameId = [7]
      ∧ d0.s_interframe_seqno = 7
      ∧ d1.s_interframe_seqno = 7 :=
  ⟨_, _, _, _, _, _, _, _, rfl, rfl, rfl, rfl, rfl, rfl, rfl, rfl⟩

/-- C19, as the code has it. No counter reset on reconnect: `onConnect` and
`onDisconnect` leave both sequence counters of every device unchanged; so
does a whole cycle of a disconnection, any operations but a connection, and a
connection, during which nothing is encoded or sent. Hence in a run with such
a cycle the frames sent after it are numbered from the value the frame counter
had at the disconnection, which is the start value plus the number of encoder
calls made before: a frame sent after the cycle carries the number of the
last encoder result handled before the disconnection plus the number of
encoder calls made since the cycle, so it follows the last frame sent before
the disconnection only when that last result was not empty. -/
theorem counters_survive_reconnect (maxSendSize fuel : Nat) (w : World) (d : Device)
    (before idle after : List Op)
    (hd : DeviceOk maxSendSize d) (hw : WorldOk fuel w)
    (hok : ∀ k, (w.esp_aac_enc_process k).status = ESP_AUDIO_ERR_OK)
    (hidle : Op.onConnect ∉ idle) :
    (∀ x : Device,
        (onConnect x).1.s_interframe_seqno = x.s_interframe_seqno
        ∧ (onConnect x).1.s_intraframe_seqno = x.s_intraframe_seqno
        ∧ (onDisconnect x).1.s_interframe_seqno = x.s_interframe_seqno
        ∧ (onDisconnect x).1.s_intraframe_seqno = x.s_intraframe_seqno)
      ∧ ∃ d0 w0 t0 d1 tc d2 w2 t2,
          run maxSendSize fuel w d before = some (d0, w0, t0)
          ∧ run maxSendSize fuel w0 d0 (Op.onDisconnect :: (idle ++ [Op.onConnect]))
              = some (d1, w0, tc)
          ∧ run maxSendSize fuel w0 d1 after = some (d2, w2, t2)
          ∧ run maxSendSize fuel w d
                (before ++ (Op.onDisconnect :: (idle ++ [Op.onConnect]) ++ after))
              = some (d2, w2, t0 ++ (tc ++ t2))
          ∧ d1.s_interframe_seqno = d0.s_interframe_seqno
          ∧ d1.s_intraframe_seqno = d0.s_intraframe_seqno
          ∧ d1.s_is_connected = true
          ∧ (∀ p, Effect.send p ∉ tc)
          ∧ (∀ f, Effect.esp_aac_enc_process f ∉ tc)
          ∧ d0.s_interframe_seqno = (d.s_interframe_seqno + encoderCalls t0) % 256
          ∧ (∀ pre p post, t2 = pre ++ Effect.send p :: post →
              1 ≤ encoderCalls pre
              ∧ ∃ b, p[0]? = some b
                ∧ lowNibble b = (d0.s_interframe_seqno + (encoderCalls pre - 1)) % 16)
          ∧ (∀ pre p post pre2 p2 post2,
              t0 = pre ++ Effect.send p :: post → encoderCalls pre = encoderCalls t0 →
              t2 = pre2 ++ Effect.send p2 :: post2 →
              ∃ b b2, p[0]? = some b ∧ p2[0]? = some b2
                ∧ lowNibble b2 = (lowNibble b + encoderCalls pre2) % 16)
          ∧ d2.s_interframe_seqno
              = (d.s_interframe_seqno + encoderCalls t0 + encoderCalls t2) % 256 := by
  refine ⟨fun _ => ⟨rfl, rfl, rfl, rfl⟩, ?_⟩
  obtain ⟨d0, w0, t0, hrun0, hd0, hi0, he0, hseq0, hs0⟩ :=
    run_ok maxSendSize fuel before w d hd hw hok
  have hw0 : WorldOk fuel w0 := by
    unfold WorldOk
    rw [hi0, he0]
    exact hw
  have hok0 : ∀ k, (w0.esp_aac_enc_process k).status = ESP_AUDIO_ERR_OK := by
    rw [he0]; exact hok
  obtain ⟨tc, hrunc, hsend, henc⟩ := run_cycle maxSendSize fuel w0 d0 idle hidle
  have hd1 : DeviceOk maxSendSize { d0 with s_is_connected := true } := hd0
  obtain ⟨d2, w2, t2, hrun2, -, -, -, hseq2, hs2⟩ :=
    run_ok maxSendSize fuel after w0 { d0 with s_is_connected := true } hd1 hw0 hok0
  have hrun12 := run_append maxSendSize fuel (Op.onDisconnect :: (idle ++ [Op.onConnect])) after
    _ _ _ _ _ _ _ _ hrunc hrun2
  have hall := run_append maxSendSize fuel before _ _ _ _ _ _ _ _ _ hrun0 hrun12
  have hs2' : d2.s_interframe_seqno = (d0.s_interframe_seqno + encoderCalls t2) % 256 := hs2
  have hseq2' : SeqOk d0.s_interframe_seqno t2 := hseq2
  refine ⟨d0, w0, t0, _, tc, d2, w2, t2, hrun0, hrunc, hrun2, hall, rfl, rfl, rfl, hsend, henc,
    hs0, ?_, ?_, ?_⟩
  · intro pre p post ht
    obtain ⟨h1, h2⟩ := hseq2' pre p post ht
    refine ⟨h1, _, h2, ?_⟩
    unfold lowNibble
    omega
  · intro pre p post pre2 p2 post2 ht0 hlast ht2
    obtain ⟨h1, h2⟩ := hseq0 pre p post ht0
    obtain ⟨h3, h4⟩ := hseq2' pre2 p2 post2 ht2
    refine ⟨_, _, h2, h4, ?_⟩
    unfold lowNibble
    rw [hs0, hlast]
    omega
  · rw [hs2', hs0]
    omega

/-- An instance: two calls of `loop()` of which the second gets an empty
encoder result, a disconnection, an idle call of `loop()`, a connection, one
more call of `loop()`. -/
theorem counters_survive_reconnect_witness :
    (DeviceOk MaxSendSize (demoDevice 5) ∧ WorldOk 8 gapWorld
      ∧ (∀ k, (gapWorld.esp_aac_enc_process k).status = ESP_AUDIO_ERR_OK)
      ∧ Op.onConnect ∉ [Op.loop])
    ∧ ((∀ x : Device,
        (onConnect x).1.s_interframe_seqno = x.s_interframe_seqno
        ∧ (onConnect x).1.s_intraframe_seqno = x.s_intraframe_seqno
        ∧ (onDisconnect x).1.s_interframe_seqno = x.s_interframe_seqno
        ∧ (onDisconnect x).1.s_intraframe_seqno = x.s_intraframe_seqno)
      ∧ ∃ d0 w0 t0 d1 tc d2 w2 t2,
          run MaxSendSize 8 gapWorld (demoDevice 5) [Op.loop, Op.loop] = some (d0, w0, t0)
          ∧ run MaxSendSize 8 w0 d0 (Op.onDisconnect :: ([Op.loop] ++ [Op.onConnect]))
              = some (d1, w0, tc)
          ∧ run MaxSendSize 8 w0 d1 [Op.loop] = some (d2, w2, t2)
          ∧ run MaxSendSize 8 gapWorld (demoDevice 5)
                ([Op.loop, Op.loop]
                  ++ (Op.onDisconnect :: ([Op.loop] ++ [Op.onConnect]) ++ [Op.loop]))
              = some (d2, w2, t0 ++ (tc ++ t2))
          ∧ d1.s_interframe_seqno = d0.s_interframe_seqno
          ∧ d1.s_intraframe_seqno = d0.s_intraframe_seqno
          ∧ d1.s_is_connected = true
          ∧ (∀ p, Effect.send p ∉ tc)
          ∧ (∀ f, Effect.esp_aac_enc_process f ∉ tc)
          ∧ d0.s_interframe_seqno
              = ((demoDevice 5).s_interframe_seqno + encoderCalls t0) % 256
          ∧ (∀ pre p post, t2 = pre ++ Effect.send p :: post →
              1 ≤ encoderCalls pre
              ∧ ∃ b, p[0]? = some b
                ∧ lowNibble b = (d0.s_interframe_seqno + (encoderCalls pre - 1)) % 16)
          ∧ (∀ pre p post pre2 p2 post2,
              t0 = pre ++ Effect.send p :: post → encoderCalls pre = encoderCalls t0 →
              t2 = pre2 ++ Effect.send p2 :: post2 →
              ∃ b b2, p[0]? = some b ∧ p2[0]? = some b2
                ∧ lowNibble b2 = (lowNibble b + encoderCalls pre2) % 16)
          ∧ d2.s_interframe_seqno
              = ((demoDevice 5).s_interframe_seqno + encoderCalls t0 + encoderCalls t2)
                  % 256) :=
  ⟨⟨demoDevice_ok 5 (by decide), gapWorld_ok, fun _ => rfl, by decide⟩,
    counters_survive_reconnect MaxSendSize 8 gapWorld (demoDevice 5)
      [Op.loop, Op.loop] [Op.loop] [Op.loop]
      (demoDevice_ok 5 (by decide)) gapWorld_ok (fun _ => rfl) (by decide)⟩

/-! ## Pacing -/

theorem Paced_fragmentBlock_trace (c n : Nat) (mem : List Nat) (h0 r off k : Nat) :
    Paced (loopTrace c n mem h0 r off k) :=
  Paced_pairs _ _

theorem delay_mem_chunksTrace {maxSendSize : Nat} {enc : Nat → EncoderResult}
    {recording : List Nat} {off r F e0 s0 j ms : Nat}
    (h : Effect.delay ms ∈ chunksTrace maxSendSize enc recording off r F e0 s0 j) :
    ms = 4 := by
  rcases mem_chunksTrace h with h1 | ⟨p, hp⟩ | ⟨i, -, hi⟩
  · cases h1; rfl
  · cases hp
  · cases hi

/-- C20. Pacing: in the effects of a call of `loop()` on a connected device,
every packet send is followed at once by a wait of 4 ms, whatever the packet,
every wait is one of 4 ms, and there are as many waits as packets sent; and
for one frame, the fragmentation block sends `num_packets` packets, each
followed at once by a wait of 4 ms, and waits `num_packets` times. -/
theorem pacing (maxSendSize fuel : Nat) (w : World) (d : Device)
    (out_frame : esp_audio_enc_out_frame_t)
    (hc : d.s_is_connected = true) (hd : DeviceOk maxSendSize d) (hw : WorldOk fuel w)
    (hlen : out_frame.encoded_bytes ≤ out_frame.buffer.length)
    (hfuel : out_frame.encoded_bytes ≤ fuel) :
    (∃ d1 w1 t, loop maxSendSize fuel w d = some (d1, w1, t)
        ∧ (∀ pre p post, t = pre ++ Effect.send p :: post →
            ∃ post1, post = Effect.delay 4 :: post1)
        ∧ (∀ ms, Effect.delay ms ∈ t → ms = 4)
        ∧ delayCount t = (sentPackets t).length)
      ∧ ∃ g1 t, fragmentBlock maxSendSize fuel d.toGlobals out_frame = some (g1, t)
        ∧ (∀ pre p post, t = pre ++ Effect.send p :: post →
            ∃ post1, post = Effect.delay 4 :: post1)
        ∧ (∀ ms, Effect.delay ms ∈ t → ms = 4)
        ∧ (sentPackets t).length
            = numPackets out_frame.encoded_bytes (maxSendSize - HeaderSize)
        ∧ delayCount t = numPackets out_frame.encoded_bytes (maxSendSize - HeaderSize) := by
  constructor
  · rcases Nat.eq_zero_or_pos (w.i2s_read w.reads).bytes_recorded with hB | hB
    · refine ⟨_, _, _, loop_capture_failed maxSendSize fuel w d hc hB, ?_, ?_, rfl⟩
      · exact Paced_of_no_send _ (by simp)
      · intro ms h
        simp at h
    · obtain ⟨j, failed, g, inp, cf, hrun, -⟩ := loop_spec maxSendSize fuel w d hc hd hw hB
      refine ⟨_, _, _, hrun, ?_, ?_, ?_⟩
      · refine Paced_cons_of_not_send (by intro p hp; cases hp) (Paced_append
          (Paced_chunksTrace _ _ _ _ _ _ _ _ _) (Paced_of_no_send _ ?_))
        intro p hp
        cases failed <;> simp at hp
      · intro ms h
        rcases List.mem_cons.mp h with h1 | h1
        · cases h1
        · rcases List.mem_append.mp h1 with h2 | h2
          · exact delay_mem_chunksTrace h2
          · cases failed <;> simp at h2
      · have hcnt := counts_chunksTrace maxSendSize w.esp_aac_enc_process
          (w.i2s_read w.reads).buffer 0 (w.i2s_read w.reads).bytes_recorded
          d.s_frame_in_bytes w.encodes d.s_interframe_seqno j
        unfold sendCount at hcnt
        simp only [delayCount, sentPackets, delayCount_append, sentPackets_append,
          List.length_append, hcnt]
        cases failed <;> simp [delayCount, sentPackets]
  · obtain ⟨g1, t, hrun, ht, -, -, -, -⟩ :=
      fragmentBlock_spec maxSendSize fuel d.toGlobals out_frame hd.1 hd.2.1 hlen hfuel
    refine ⟨g1, t, hrun, ?_, ?_, ?_, ?_⟩
    · rw [ht]; exact Paced_fragmentBlock_trace _ _ _ _ _ _ _
    · intro ms h
      rw [ht] at h
      rcases mem_loopTrace h with h1 | ⟨i, hi⟩
      · cases h1; rfl
      · cases hi
    · have := sendCount_frameTrace maxSendSize d.s_interframe_seqno out_frame
      unfold sendCount frameTrace at this
      rw [ht]; exact this
    · have := delayCount_frameTrace maxSendSize d.s_interframe_seqno out_frame
      unfold frameTrace at this
      rw [ht]; exact this

/-- An instance: a capture of 5 bytes, encoded to 6 bytes and sent; a frame of
200 bytes for the fragmentation block. -/
theorem pacing_witness :
    ((demoDevice 7).s_is_connected = true
      ∧ DeviceOk MaxSendSize (demoDevice 7) ∧ WorldOk 200 (demoWorld 5 0 6)
      ∧ (rampFrame 200).encoded_bytes ≤ (rampFrame 200).buffer.length
      ∧ (rampFrame 200).encoded_bytes ≤ 200)
    ∧ ((∃ d1 w1 t, loop MaxSendSize 200 (demoWorld 5 0 6) (demoDevice 7) = some (d1, w1, t)
          ∧ (∀ pre p post, t = pre ++ Effect.send p :: post →
              ∃ post1, post = Effect.delay 4 :: post1)
          ∧ (∀ ms, Effect.delay ms ∈ t → ms = 4)
          ∧ delayCount t = (sentPackets t).length)
        ∧ ∃ g1 t,
          fragmentBlock MaxSendSize 200 (demoDevice 7).toGlobals (rampFrame 200) = some (g1, t)
          ∧ (∀ pre p post, t = pre ++ Effect.send p :: post →
              ∃ post1, post = Effect.delay 4 :: post1)
          ∧ (∀ ms, Effect.delay ms ∈ t → ms = 4)
          ∧ (sentPackets t).length
              = numPackets (rampFrame 200).encoded_bytes (MaxSendSize - HeaderSize)
          ∧ delayCount t
              = numPackets (rampFrame 200).encoded_bytes (MaxSendSize - HeaderSize)) :=
  ⟨⟨rfl, demoDevice_ok 7 (by decide),
      demoWorld_ok 5 0 6 200 (by decide) (by decide) (by decide),
      by simp [rampFrame], by simp [rampFrame]⟩,
    pacing MaxSendSize 200 (demoWorld 5 0 6) (demoDevice 7) (rampFrame 200) rfl
      (demoDevice_ok 7 (by decide)) (demoWorld_ok 5 0 6 200 (by decide) (by decide) (by decide))
      (by simp [rampFrame]) (by simp [rampFrame])⟩

/-! ## Header byte 1, exactly -/

theorem shift_or_byte (n i : Nat) :
    ((n <<< 4) ||| (i &&& 0xF)) % 256 = 16 * (n % 16) + i % 16 := by
  rw [land_0xf, Nat.shiftLeft_eq]
  have h1 : n * 2 ^ 4 = 2 ^ 4 * n := by omega
  have h2 : i % 16 < 2 ^ 4 := by omega
  rw [h1, ← Nat.mul_add_lt_is_or h2]
  omega

theorem numPackets_eq_16_iff (L : Nat) :
    numPackets L (MaxSendSize - HeaderSize) = 16 ↔ 2701 ≤ L ∧ L ≤ 2880 := by
  have h15 := lt_numPackets_iff (by decide : 0 < MaxSendSize - HeaderSize) L 15
  have h16 := lt_numPackets_iff (by decide : 0 < MaxSendSize - HeaderSize) L 16
  have e : MaxSendSize - HeaderSize = 180 := by decide
  rw [e] at h15 h16 ⊢
  omega

/-- C24. Exact header byte 1: for every frame with `n` packets and every
packet index `i`, header byte 1 of packet `i` is `((n << 4) | (i & 0xF))`
truncated to 8 bits, which is `16 * (n mod 16) + (i mod 16)` and is the byte
the code computes from its 8-bit counter; hence the count nibble equals `n`
exactly when `n ≤ 15`, and for a frame of 16 packets (2701..2880 bytes at the
configured sizes) the count nibble is 0. -/
theorem header_byte1_exact (maxSendSize fuel : Nat) (g : Globals)
    (out_frame : esp_audio_enc_out_frame_t)
    (hM : HeaderSize < maxSendSize)
    (hbuf : g.s_output_buffer.length = maxSendSize)
    (hlen : out_frame.encoded_bytes ≤ out_frame.buffer.length)
    (hfuel : out_frame.encoded_bytes ≤ fuel) :
    ∃ g' trace, fragmentBlock maxSendSize fuel g out_frame = some (g', trace)
      ∧ (∀ i, i < (sentPackets trace).length →
          ∃ p b1, (sentPackets trace)[i]? = some p ∧ p[1]? = some b1
            ∧ b1 = (((sentPackets trace).length <<< 4) ||| (i &&& 0xF)) % 256
            ∧ b1 = 16 * ((sentPackets trace).length % 16) + i % 16
            ∧ b1 = headerByte1 (sentPackets trace).length (i % 256)
            ∧ (highNibble b1 = (sentPackets trace).length ↔ (sentPackets trace).length ≤ 15)
            ∧ ((sentPackets trace).length = 16 → highNibble b1 = 0))
      ∧ (maxSendSize = MaxSendSize →
          ((sentPackets trace).length = 16
            ↔ 2701 ≤ out_frame.encoded_bytes ∧ out_frame.encoded_bytes ≤ 2880)) := by
  obtain ⟨g', trace, hrun, -, hps, -, -, -⟩ :=
    fragmentBlock_spec maxSendSize fuel g out_frame hM hbuf hlen hfuel
  have hn : (sentPackets trace).length
      = numPackets out_frame.encoded_bytes (maxSendSize - HeaderSize) := by
    rw [hps, List.length_map, List.length_range]
  refine ⟨g', trace, hrun, ?_, ?_⟩
  · intro i hi
    rw [hn] at hi
    refine ⟨_, _, by rw [hps]; exact getElem?_map_range _ hi,
      framePacket_byte1 _ _ _ _ _ _, ?_, ?_, ?_, ?_, ?_⟩
    · rw [shift_or_byte, hn]
    · rw [hn]
    · rw [headerByte1_eq, hn]; omega
    · rw [hn]; unfold highNibble; omega
    · rw [hn]; intro h16; unfold highNibble; omega
  · intro hm
    rw [hn, hm]
    exact numPackets_eq_16_iff _

/-- An instance at the configured sizes, for a 2880-byte frame (16 packets). -/
theorem header_byte1_exact_witness :
    (HeaderSize < MaxSendSize
      ∧ (initGlobals MaxSendSize).s_output_buffer.length = MaxSendSize
      ∧ (rampFrame 2880).encoded_bytes ≤ (rampFrame 2880).buffer.length
      ∧ (rampFrame 2880).encoded_bytes ≤ 2880)
    ∧ ∃ g' trace,
        fragmentBlock MaxSendSize 2880 (initGlobals MaxSendSize) (rampFrame 2880)
          = some (g', trace)
        ∧ (∀ i, i < (sentPackets trace).length →
            ∃ p b1, (sentPackets trace)[i]? = some p ∧ p[1]? = some b1
              ∧ b1 = (((sentPackets trace).length <<< 4) ||| (i &&& 0xF)) % 256
              ∧ b1 = 16 * ((sentPackets trace).length % 16) + i % 16
              ∧ b1 = headerByte1 (sentPackets trace).length (i % 256)
              ∧ (highNibble b1 = (sentPackets trace).length
                  ↔ (sentPackets trace).length ≤ 15)
              ∧ ((sentPackets trace).length = 16 → highNibble b1 = 0))
        ∧ (MaxSendSize = MaxSendSize →
            ((sentPackets trace).length = 16
              ↔ 2701 ≤ (rampFrame 2880).encoded_bytes
                ∧ (rampFrame 2880).encoded_bytes ≤ 2880)) :=
  ⟨⟨by decide, by simp [initGlobals, zeroBuffer], by simp [rampFrame], by simp [rampFrame]⟩,
    header_byte1_exact MaxSendSize 2880 (initGlobals MaxSendSize) (rampFrame 2880)
      (by decide) (by simp [initGlobals, zeroBuffer]) (by simp [rampFrame])
      (by simp [rampFrame])⟩

/-! ## The count nibble does not saturate -/

/-- The count nibble is not clamped at 15: at the configured sizes a frame of
3600 bytes is sent in 20 packets, more than the nibble can hold, and every one
of its packets carries the high nibble 4 in header byte 1, not 15. -/
theorem high_nibble_not_saturating :
    ∃ g' trace,
      fragmentBlock MaxSendSize 3600 (initGlobals MaxSendSize) (rampFrame 3600)
        = some (g', trace)
      ∧ (sentPackets trace).length = 20
      ∧ ∀ p ∈ sentPackets trace, ∃ b1, p[1]? = some b1 ∧ highNibble b1 = 4
          ∧ highNibble b1 ≠ 15 := by
  obtain ⟨g', trace, hrun, -, hps, -, -, -⟩ :=
    fragmentBlock_spec MaxSendSize 3600 (initGlobals MaxSendSize) (rampFrame 3600)
      (by decide) (by simp [initGlobals, zeroBuffer]) (by simp [rampFrame])
      (by simp [rampFrame])
  have hn : numPackets (rampFrame 3600).encoded_bytes (MaxSendSize - HeaderSize) = 20 := by
    decide
  rw [hn] at hps
  refine ⟨g', trace, hrun, by rw [hps, List.length_map, List.length_range], ?_⟩
  intro p hp
  rw [hps, List.mem_map] at hp
  obtain ⟨j, -, rfl⟩ := hp
  refine ⟨_, framePacket_byte1 _ _ _ _ _ _, ?_, ?_⟩ <;> unfold highNibble <;> omega

/-- C23, as the code has it. Wrapping count nibble: the high nibble of header
byte 1 is a value in 0..15 that wraps around, i.e. for every frame it is the
packet count modulo 16; for a frame whose packet count `n` exceeds 15 it is 15
only when `n mod 16 = 15`, and it is `n - 16` for `n` from 16 to 31. -/
theorem high_nibble_is_count_mod_16 (maxSendSize fuel : Nat) (g : Globals)
    (out_frame : esp_audio_enc_out_frame_t)
    (hM : HeaderSize < maxSendSize)
    (hbuf : g.s_output_buffer.length = maxSendSize)
    (hlen : out_frame.encoded_bytes ≤ out_frame.buffer.length)
    (hfuel : out_frame.encoded_bytes ≤ fuel) :
    ∃ g' trace, fragmentBlock maxSendSize fuel g out_frame = some (g', trace)
      ∧ (sentPackets trace).length
          = numPackets out_frame.encoded_bytes (maxSendSize - HeaderSize)
      ∧ ∀ p ∈ sentPackets trace,
          ∃ b1, p[1]? = some b1
            ∧ highNibble b1 ≤ 15
            ∧ highNibble b1 = (sentPackets trace).length % 16
            ∧ (highNibble b1 = 15 ↔ (sentPackets trace).length % 16 = 15)
            ∧ (15 < (sentPackets trace).length → (sentPackets trace).length ≤ 31 →
                highNibble b1 = (sentPackets trace).length - 16) := by
  obtain ⟨g', trace, hrun, -, hps, -, -, -⟩ :=
    fragmentBlock_spec maxSendSize fuel g out_frame hM hbuf hlen hfuel
  have hn : (sentPackets trace).length
      = numPackets out_frame.encoded_bytes (maxSendSize - HeaderSize) := by
    rw [hps, List.length_map, List.length_range]
  refine ⟨g', trace, hrun, hn, ?_⟩
  intro p hp
  rw [hps, List.mem_map] at hp
  obtain ⟨j, -, rfl⟩ := hp
  rw [hn]
  refine ⟨_, framePacket_byte1 _ _ _ _ _ _, ?_, ?_, ?_, ?_⟩ <;> unfold highNibble <;> omega

/-- An instance at the configured sizes, for a 3600-byte frame (20 packets). -/
theorem high_nibble_is_count_mod_16_witness :
    (HeaderSize < MaxSendSize
      ∧ (initGlobals MaxSendSize).s_output_buffer.length = MaxSendSize
      ∧ (rampFrame 3600).encoded_bytes ≤ (rampFrame 3600).buffer.length
      ∧ (rampFrame 3600).encoded_bytes ≤ 3600)
    ∧ ∃ g' trace,
        fragmentBlock MaxSendSize 3600 (initGlobals MaxSendSize) (rampFrame 3600)
          = some (g', trace)
        ∧ (sentPackets trace).length
            = numPackets (rampFrame 3600).encoded_bytes (MaxSendSize - HeaderSize)
        ∧ ∀ p ∈ sentPackets trace,
            ∃ b1, p[1]? = some b1
              ∧ highNibble b1 ≤ 15
              ∧ highNibble b1 = (sentPackets trace).length % 16
              ∧ (highNibble b1 = 15 ↔ (sentPackets trace).length % 16 = 15)
              ∧ (15 < (sentPackets trace).length → (sentPackets trace).length ≤ 31 →
                  highNibble b1 = (sentPackets trace).length - 16) :=
  ⟨⟨by decide, by simp [initGlobals, zeroBuffer], by simp [rampFrame], by simp [rampFrame]⟩,
    high_nibble_is_count_mod_16 MaxSendSize 3600 (initGlobals MaxSendSize) (rampFrame 3600)
      (by decide) (by simp [initGlobals, zeroBuffer]) (by simp [rampFrame])
      (by simp [rampFrame])⟩

/-! ## The packetizer keeps no history -/

theorem framePacket_eq_slice (c n s : Nat) (out_frame : esp_audio_enc_out_frame_t) (i : Nat) :
    framePacket c n s out_frame.buffer out_frame.encoded_bytes i
      = (s % 16) :: (16 * (n % 16) + i % 16)
          :: slice (encodedFrame out_frame) (i * c)
              (min ((i + 1) * c) out_frame.encoded_bytes) := by
  unfold framePacket encodedFrame
  rw [slice_encodedFrame]

/-- C26. History independence of the packetizer: for every frame and frame
sequence number, the fragmentation block returns with the same effects (hence
the same packets, in length and bytes) from any two prior contents of
`s_output_buffer` and any two prior values of `s_intraframe_seqno`; packet `i`
is the two header bytes computed for this frame followed by slice `i` of this
frame, so no byte of an earlier frame or packet appears in it. -/
theorem packetizer_history_independent (maxSendSize fuel : Nat) (g1 g2 : Globals)
    (out_frame : esp_audio_enc_out_frame_t)
    (hM : HeaderSize < maxSendSize)
    (hbuf1 : g1.s_output_buffer.length = maxSendSize)
    (hbuf2 : g2.s_output_buffer.length = maxSendSize)
    (hseq : g1.s_interframe_seqno = g2.s_interframe_seqno)
    (hlen : out_frame.encoded_bytes ≤ out_frame.buffer.length)
    (hfuel : out_frame.encoded_bytes ≤ fuel) :
    ∃ g1' g2' trace,
      fragmentBlock maxSendSize fuel g1 out_frame = some (g1', trace)
      ∧ fragmentBlock maxSendSize fuel g2 out_frame = some (g2', trace)
      ∧ (sentPackets trace).length
          = numPackets out_frame.encoded_bytes (maxSendSize - HeaderSize)
      ∧ ∀ i, i < (sentPackets trace).length →
          (sentPackets trace)[i]?
            = some ((g1.s_interframe_seqno % 16)
                :: (16 * ((sentPackets trace).length % 16) + i % 16)
                :: slice (encodedFrame out_frame) (i * (maxSendSize - HeaderSize))
                    (min ((i + 1) * (maxSendSize - HeaderSize)) out_frame.encoded_bytes)) := by
  obtain ⟨g1', t1, hrun1, ht1, hps, -, -, -⟩ :=
    fragmentBlock_spec maxSendSize fuel g1 out_frame hM hbuf1 hlen hfuel
  obtain ⟨g2', t2, hrun2, ht2, -, -, -, -⟩ :=
    fragmentBlock_spec maxSendSize fuel g2 out_frame hM hbuf2 hlen hfuel
  have ht : t2 = t1 := by rw [ht1, ht2, hseq]
  rw [ht] at hrun2
  have hn : (sentPackets t1).length
      = numPackets out_frame.encoded_bytes (maxSendSize - HeaderSize) := by
    rw [hps, List.length_map, List.length_range]
  refine ⟨g1', g2', t1, hrun1, hrun2, hn, ?_⟩
  intro i hi
  rw [hn] at hi ⊢
  rw [hps, getElem?_map_range _ hi, framePacket_eq_slice]

/-- An instance at the configured sizes: a 200-byte frame sent once from a
zeroed output buffer and once from a buffer full of 0xAA with the packet
counter at 9. -/
theorem packetizer_history_independent_witness :
    (HeaderSize < MaxSendSize
      ∧ (initGlobals MaxSendSize).s_output_buffer.length = MaxSendSize
      ∧ ({ s_output_buffer := List.replicate MaxSendSize 170, s_interframe_seqno := 0,
           s_intraframe_seqno := 9 } : Globals).s_output_buffer.length = MaxSendSize
      ∧ (initGlobals MaxSendSize).s_interframe_seqno
          = ({ s_output_buffer := List.replicate MaxSendSize 170, s_interframe_seqno := 0,
               s_intraframe_seqno := 9 } : Globals).s_interframe_seqno
      ∧ (rampFrame 200).encoded_bytes ≤ (rampFrame 200).buffer.length
      ∧ (rampFrame 200).encoded_bytes ≤ 200)
    ∧ ∃ g1' g2' trace,
        fragmentBlock MaxSendSize 200 (initGlobals MaxSendSize) (rampFrame 200)
          = some (g1', trace)
        ∧ fragmentBlock MaxSendSize 200
            { s_output_buffer := List.replicate MaxSendSize 170, s_interframe_seqno := 0,
              s_intraframe_seqno := 9 } (rampFrame 200) = some (g2', trace)
        ∧ (sentPackets trace).length
            = numPackets (rampFrame 200).encoded_bytes (MaxSendSize - HeaderSize)
        ∧ ∀ i, i < (sentPackets trace).length →
            (sentPackets trace)[i]?
              = some (((initGlobals MaxSendSize).s_interframe_seqno % 16)
                  :: (16 * ((sentPackets trace).length % 16) + i % 16)
                  :: slice (encodedFrame (rampFrame 200)) (i * (MaxSendSize - HeaderSize))
                      (min ((i + 1) * (MaxSendSize - HeaderSize))
                        (rampFrame 200).encoded_bytes)) :=
  ⟨⟨by decide, by simp [initGlobals, zeroBuffer], by simp, rfl, by simp [rampFrame],
      by simp [rampFrame]⟩,
    packetizer_history_independent MaxSendSize 200 (initGlobals MaxSendSize)
      { s_output_buffer := List.replicate MaxSendSize 170, s_interframe_seqno := 0,
        s_intraframe_seqno := 9 } (rampFrame 200)
      (by decide) (by simp [initGlobals, zeroBuffer]) (by simp) rfl (by simp [rampFrame])
      (by simp [rampFrame])⟩

/-! ## The packet counter starts at 0 for every frame -/

/-- C28. Per-frame index reset: for any two frames fragmented one after the
other, from any prior value of `s_intraframe_seqno`, the first packet of each
frame has index nibble 0 whatever the number of packets of the frame before,
and after a frame with `n` packets has been sent `s_intraframe_seqno` equals
`n mod 256`. -/
theorem index_reset_per_frame (maxSendSize fuel : Nat) (g : Globals)
    (f1 f2 : esp_audio_enc_out_frame_t)
    (hM : HeaderSize < maxSendSize)
    (hbuf : g.s_output_buffer.length = maxSendSize)
    (hlen1 : f1.encoded_bytes ≤ f1.buffer.length) (hfuel1 : f1.encoded_bytes ≤ fuel)
    (hlen2 : f2.encoded_bytes ≤ f2.buffer.length) (hfuel2 : f2.encoded_bytes ≤ fuel)
    (hpos : 0 < f2.encoded_bytes) :
    ∃ g1 t1 g2 t2 p b1,
      fragmentBlock maxSendSize fuel g f1 = some (g1, t1)
      ∧ fragmentBlock maxSendSize fuel g1 f2 = some (g2, t2)
      ∧ (sentPackets t1).length = numPackets f1.encoded_bytes (maxSendSize - HeaderSize)
      ∧ (sentPackets t2).length = numPackets f2.encoded_bytes (maxSendSize - HeaderSize)
      ∧ g1.s_intraframe_seqno = (sentPackets t1).length % 256
      ∧ g2.s_intraframe_seqno = (sentPackets t2).length % 256
      ∧ (∀ q, (sentPackets t1)[0]? = some q → packetIndex q = 0)
      ∧ (sentPackets t2)[0]? = some p ∧ p[1]? = some b1 ∧ lowNibble b1 = 0 := by
  obtain ⟨g1, t1, hrun1, -, hps1, hl1, -, hi1⟩ :=
    fragmentBlock_spec maxSendSize fuel g f1 hM hbuf hlen1 hfuel1
  obtain ⟨g2, t2, hrun2, -, hps2, -, -, hi2⟩ :=
    fragmentBlock_spec maxSendSize fuel g1 f2 hM hl1 hlen2 hfuel2
  have hn1 : (sentPackets t1).length = numPackets f1.encoded_bytes (maxSendSize - HeaderSize) := by
    rw [hps1, List.length_map, List.length_range]
  have hn2 : (sentPackets t2).length = numPackets f2.encoded_bytes (maxSendSize - HeaderSize) := by
    rw [hps2, List.length_map, List.length_range]
  have hc : 0 < maxSendSize - HeaderSize := by unfold HeaderSize at hM ⊢; omega
  have h0 : 0 < numPackets f2.encoded_bytes (maxSendSize - HeaderSize) := numPackets_pos hc hpos
  refine ⟨g1, t1, g2, t2, _, _, hrun1, hrun2, hn1, hn2, by rw [hi1, hn1], by rw [hi2, hn2], ?_,
    by rw [hps2]; exact getElem?_map_range _ h0, framePacket_byte1 _ _ _ _ _ _, ?_⟩
  · intro q hq
    rw [hps1, List.getElem?_map] at hq
    cases hr : (List.range (numPackets f1.encoded_bytes (maxSendSize - HeaderSize)))[0]? with
    | none => rw [hr] at hq; simp at hq
    | some j =>
      rw [hr] at hq
      have hj : j = 0 := by
        rw [List.getElem?_eq_some_iff] at hr
        obtain ⟨_, hr⟩ := hr
        simpa using hr.symm
      subst hj
      simp only [Option.map_some', Option.some.injEq] at hq
      rw [← hq]
      exact (framePacket_fields _ _ _ _ _ _).2.2
  · unfold lowNibble; omega

/-- An instance at the configured sizes: a 2881-byte frame (17 packets)
followed by a 200-byte frame (2 packets), the counter being 200 before. -/
theorem index_reset_per_frame_witness :
    (HeaderSize < MaxSendSize
      ∧ ({ s_output_buffer := zeroBuffer MaxSendSize, s_interframe_seqno := 0,
           s_intraframe_seqno := 200 } : Globals).s_output_buffer.length = MaxSendSize
      ∧ (rampFrame 2881).encoded_bytes ≤ (rampFrame 2881).buffer.length
      ∧ (rampFrame 2881).encoded_bytes ≤ 2881
      ∧ (rampFrame 200).encoded_bytes ≤ (rampFrame 200).buffer.length
      ∧ (rampFrame 200).encoded_bytes ≤ 2881
      ∧ 0 < (rampFrame 200).encoded_bytes)
    ∧ ∃ g1 t1 g2 t2 p b1,
        fragmentBlock MaxSendSize 2881
            { s_output_buffer := zeroBuffer MaxSendSize, s_interframe_seqno := 0,
              s_intraframe_seqno := 200 } (rampFrame 2881) = some (g1, t1)
        ∧ fragmentBlock MaxSendSize 2881 g1 (rampFrame 200) = some (g2, t2)
        ∧ (sentPackets t1).length
            = numPackets (rampFrame 2881).encoded_bytes (MaxSendSize - HeaderSize)
        ∧ (sentPackets t2).length
            = numPackets (rampFrame 200).encoded_bytes (MaxSendSize - HeaderSize)
        ∧ g1.s_intraframe_seqno = (sentPackets t1).length % 256
        ∧ g2.s_intraframe_seqno = (sentPackets t2).length % 256
        ∧ (∀ q, (sentPackets t1)[0]? = some q → packetIndex q = 0)
        ∧ (sentPackets t2)[0]? = some p ∧ p[1]? = some b1 ∧ lowNibble b1 = 0 :=
  ⟨⟨by decide, by simp [zeroBuffer], by simp [rampFrame], by simp [rampFrame],
      by simp [rampFrame], by simp [rampFrame], by simp [rampFrame]⟩,
    index_reset_per_frame MaxSendSize 2881
      { s_output_buffer := zeroBuffer MaxSendSize, s_interframe_seqno := 0,
        s_intraframe_seqno := 200 } (rampFrame 2881) (rampFrame 200)
      (by decide) (by simp [zeroBuffer]) (by simp [rampFrame]) (by simp [rampFrame])
      (by simp [rampFrame]) (by simp [rampFrame]) (by simp [rampFrame])⟩

/-! ## Termination of the packet-send loop -/

theorem numPackets_step {c r : Nat} (hc : 0 < c) (hr : 0 < r) :
    numPackets r c = numPackets (r - min c r) c + 1 := by
  rcases Nat.lt_or_ge c r with hlt | hge
  · rw [Nat.min_eq_left (Nat.le_of_lt hlt)]
    exact numPackets_gt hc hlt
  · rw [Nat.min_eq_right hge, Nat.sub_self, numPackets_zero]
    exact numPackets_le hr hge

theorem sendLoop_step (c n : Nat) (mem : List Nat) (fuel : Nat) (st : SendState)
    (out2 : List Nat) (hr : 0 < st.bytes_remaining)
    (hm : memcpy (st.s_output_buffer.set 1 (headerByte1 n st.s_intraframe_seqno)) HeaderSize
        mem st.buffer (min c st.bytes_remaining) = some out2) :
    sendLoop c n mem (fuel + 1) st
      = sendLoop c n mem fuel
          { s_output_buffer := out2
            s_intraframe_seqno := (st.s_intraframe_seqno + 1) % 256
            bytes_remaining := st.bytes_remaining - min c st.bytes_remaining
            buffer := st.buffer + min c st.bytes_remaining
            trace := st.trace
              ++ [Effect.send (out2.take (min c st.bytes_remaining + HeaderSize)),
                  Effect.delay 4] } := by
  rw [sendLoop, if_pos hr]
  simp only [hm]

theorem sendLoop_none_iff (c n : Nat) (mem : List Nat) (hc : 0 < c) :
    ∀ (fuel r off k h0 h1 : Nat) (rest : List Nat) (t : List Effect),
      off + r ≤ mem.length → c ≤ rest.length →
      (sendLoop c n mem fuel
          { s_output_buffer := h0 :: h1 :: rest, s_intraframe_seqno := k,
            bytes_remaining := r, buffer := off, trace := t } = none
        ↔ fuel < numPackets r c) := by
  intro fuel
  induction fuel with
  | zero =>
    intro r off k h0 h1 rest t _ _
    rcases Nat.eq_zero_or_pos r with hr0 | hpos
    · subst hr0
      simp [sendLoop, numPackets_zero]
    · have := numPackets_pos hc hpos
      simp [sendLoop, hpos, this]
  | succ fuel ih =>
    intro r off k h0 h1 rest t hoff hrest
    rcases Nat.eq_zero_or_pos r with hr0 | hpos
    · subst hr0
      simp [sendLoop, numPackets_zero]
    · have hm1 : min c r ≤ rest.length := by omega
      have hm2 : off + min c r ≤ mem.length := by omega
      have hl : ((mem.drop off).take (min c r) ++ rest.drop (min c r)).length = rest.length := by
        simp only [List.length_append, List.length_take, List.length_drop]; omega
      rw [sendLoop_step c n mem fuel _ _ hpos
        (by simp only [List.set_cons_succ, List.set_cons_zero]
            exact memcpy_header h0 _ rest mem off _ hm1 hm2)]
      rw [ih (r - min c r) (off + min c r) _ h0 _ _ _ (by omega) (by rw [hl]; exact hrest),
        numPackets_step hc hpos]
      omega

theorem sendLoop_mono (c n : Nat) (mem : List Nat) :
    ∀ (fuel : Nat) (st x : SendState),
      sendLoop c n mem fuel st = some x → sendLoop c n mem (fuel + 1) st = some x := by
  intro fuel
  induction fuel with
  | zero =>
    intro st x h
    by_cases hp : st.bytes_remaining > 0
    · simp [sendLoop, hp] at h
    · simpa [sendLoop, hp] using h
  | succ fuel ih =>
    intro st x h
    by_cases hp : st.bytes_remaining > 0
    · cases hm : memcpy (st.s_output_buffer.set 1 (headerByte1 n st.s_intraframe_seqno))
          HeaderSize mem st.buffer (min c st.bytes_remaining) with
      | none =>
        rw [sendLoop, if_pos hp] at h
        simp [hm] at h
      | some out2 =>
        rw [sendLoop_step c n mem _ st out2 hp hm] at h ⊢
        exact ih _ _ h
    · simpa [sendLoop, hp] using h

theorem sendLoop_mono_add (c n : Nat) (mem : List Nat) (fuel : Nat) (st x : SendState)
    (h : sendLoop c n mem fuel st = some x) :
    ∀ m, sendLoop c n mem (fuel + m) st = some x := by
  intro m
  induction m with
  | zero => exact h
  | succ m ih => exact sendLoop_mono c n mem _ st x ih

/-- C27. The packet-send loop terminates for every frame length: from every
state of the loop inside the encoded frame, an iteration entered with
`bytes_remaining > 0` copies `chunk_size` bytes with
`1 ≤ chunk_size ≤ bytes_remaining` and leaves `bytes_remaining - chunk_size`,
strictly less, with no underflow; the loop does not finish in fewer than
`ceil(bytes_remaining / max_chunk_size)` iterations and it finishes in exactly
that many, with `bytes_remaining = 0` and the read pointer advanced by exactly
the bytes that remained (for a whole frame of `L` bytes: `ceil(L / 180)`
iterations at the configured sizes, the pointer `L` bytes past the start). -/
theorem send_loop_terminates (c n : Nat) (mem : List Nat) (st : SendState)
    (hc : 0 < c) (hbuf : c + HeaderSize ≤ st.s_output_buffer.length)
    (hoff : st.buffer + st.bytes_remaining ≤ mem.length)
    (hk : st.s_intraframe_seqno < 256) :
    (0 < st.bytes_remaining →
      1 ≤ min c st.bytes_remaining
      ∧ min c st.bytes_remaining ≤ st.bytes_remaining
      ∧ st.bytes_remaining - min c st.bytes_remaining < st.bytes_remaining
      ∧ ∃ out2,
          memcpy (st.s_output_buffer.set 1 (headerByte1 n st.s_intraframe_seqno)) HeaderSize
              mem st.buffer (min c st.bytes_remaining) = some out2
          ∧ ∀ fuel, sendLoop c n mem (fuel + 1) st
              = sendLoop c n mem fuel
                  { s_output_buffer := out2
                    s_intraframe_seqno := (st.s_intraframe_seqno + 1) % 256
                    bytes_remaining := st.bytes_remaining - min c st.bytes_remaining
                    buffer := st.buffer + min c st.bytes_remaining
                    trace := st.trace
                      ++ [Effect.send (out2.take (min c st.bytes_remaining + HeaderSize)),
                          Effect.delay 4] })
    ∧ (∀ fuel, fuel < numPackets st.bytes_remaining c → sendLoop c n mem fuel st = none)
    ∧ (∀ fuel, numPackets st.bytes_remaining c ≤ fuel →
        ∃ st', sendLoop c n mem fuel st = some st'
          ∧ st'.bytes_remaining = 0
          ∧ st'.buffer = st.buffer + st.bytes_remaining
          ∧ sendCount st'.trace = sendCount st.trace + numPackets st.bytes_remaining c)
    ∧ numPackets st.bytes_remaining c = ⌈(st.bytes_remaining : ℚ) / (c : ℚ)⌉₊ := by
  obtain ⟨buf, k, r, off, t⟩ := st
  simp only [] at hbuf hoff hk ⊢
  unfold HeaderSize at hbuf
  obtain ⟨h0, h1, rest, rfl⟩ : ∃ h0 h1 rest, buf = h0 :: h1 :: rest := by
    match buf, hbuf with
    | [], h => simp at h
    | [_], h => simp at h
    | h0 :: h1 :: rest, _ => exact ⟨h0, h1, rest, rfl⟩
  have hrest : c ≤ rest.length := by simpa using hbuf
  refine ⟨?_, ?_, ?_, numPackets_eq_ceil hc r⟩
  · intro hpos
    have hm : memcpy ((h0 :: h1 :: rest).set 1 (headerByte1 n k)) HeaderSize mem off (min c r)
        = some (h0 :: headerByte1 n k :: ((mem.drop off).take (min c r)
            ++ rest.drop (min c r))) := by
      simp only [List.set_cons_succ, List.set_cons_zero]
      exact memcpy_header h0 _ rest mem off _ (by omega) (by omega)
    refine ⟨by omega, by omega, by omega, _, hm, ?_⟩
    intro fuel
    exact sendLoop_step c n mem fuel _ _ hpos hm
  · intro fuel hf
    exact (sendLoop_none_iff c n mem hc fuel r off k h0 h1 rest t hoff hrest).2 hf
  · intro fuel hf
    have hne : sendLoop c n mem fuel
        { s_output_buffer := h0 :: h1 :: rest, s_intraframe_seqno := k,
          bytes_remaining := r, buffer := off, trace := t } ≠ none := by
      rw [Ne, sendLoop_none_iff c n mem hc fuel r off k h0 h1 rest t hoff hrest]
      omega
    obtain ⟨x, hx⟩ := Option.ne_none_iff_exists'.1 hne
    obtain ⟨h1', rest', -, hrun⟩ :=
      sendLoop_spec c n mem hc (fuel + r) r off k h0 h1 rest t (by omega) hoff hrest hk
    have hx2 := sendLoop_mono_add c n mem fuel _ x hx r
    rw [hrun] at hx2
    refine ⟨x, hx, ?_⟩
    rw [← Option.some.inj hx2]
    refine ⟨rfl, rfl, ?_⟩
    simp only [sendCount_append]
    unfold loopTrace
    rw [sendCount_pairs, List.length_range]

/-- An instance at the configured sizes: the loop as the fragmentation block
enters it for a 200-byte frame. -/
theorem send_loop_terminates_witness :
    (0 < MaxSendSize - HeaderSize
      ∧ MaxSendSize - HeaderSize + HeaderSize
          ≤ ({ s_output_buffer := zeroBuffer MaxSendSize, s_intraframe_seqno := 0,
               bytes_remaining := 200, buffer := 0, trace := [] } : SendState
            ).s_output_buffer.length
      ∧ (0 : Nat) + 200 ≤ (rampFrame 200).buffer.length
      ∧ (0 : Nat) < 256)
    ∧ ((0 < 200 →
        1 ≤ min (MaxSendSize - HeaderSize) 200
        ∧ min (MaxSendSize - HeaderSize) 200 ≤ 200
        ∧ 200 - min (MaxSendSize - HeaderSize) 200 < 200
        ∧ ∃ out2,
            memcpy ((zeroBuffer MaxSendSize).set 1 (headerByte1 2 0)) HeaderSize
                (rampFrame 200).buffer 0 (min (MaxSendSize - HeaderSize) 200) = some out2
            ∧ ∀ fuel, sendLoop (MaxSendSize - HeaderSize) 2 (rampFrame 200).buffer (fuel + 1)
                  { s_output_buffer := zeroBuffer MaxSendSize, s_intraframe_seqno := 0,
                    bytes_remaining := 200, buffer := 0, trace := [] }
                = sendLoop (MaxSendSize - HeaderSize) 2 (rampFrame 200).buffer fuel
                    { s_output_buffer := out2
                      s_intraframe_seqno := (0 + 1) % 256
                      bytes_remaining := 200 - min (MaxSendSize - HeaderSize) 200
                      buffer := 0 + min (MaxSendSize - HeaderSize) 200
                      trace := []
                        ++ [Effect.send
                              (out2.take (min (MaxSendSize - HeaderSize) 200 + HeaderSize)),
                            Effect.delay 4] })
      ∧ (∀ fuel, fuel < numPackets 200 (MaxSendSize - HeaderSize) →
          sendLoop (MaxSendSize - HeaderSize) 2 (rampFrame 200).buffer fuel
            { s_output_buffer := zeroBuffer MaxSendSize, s_intraframe_seqno := 0,
              bytes_remaining := 200, buffer := 0, trace := [] } = none)
      ∧ (∀ fuel, numPackets 200 (MaxSendSize - HeaderSize) ≤ fuel →
          ∃ st', sendLoop (MaxSendSize - HeaderSize) 2 (rampFrame 200).buffer fuel
              { s_output_buffer := zeroBuffer MaxSendSize, s_intraframe_seqno := 0,
                bytes_remaining := 200, buffer := 0, trace := [] } = some st'
            ∧ st'.bytes_remaining = 0
            ∧ st'.buffer = 0 + 200
            ∧ sendCount st'.trace
                = sendCount [] + numPackets 200 (MaxSendSize - HeaderSize))
      ∧ numPackets 200 (MaxSendSize - HeaderSize)
          = ⌈((200 : Nat) : ℚ) / ((MaxSendSize - HeaderSize : Nat) : ℚ)⌉₊) :=
  ⟨⟨by decide, by simp [zeroBuffer]; decide, by simp [rampFrame], by decide⟩,
    send_loop_terminates (MaxSendSize - HeaderSize) 2 (rampFrame 200).buffer
      { s_output_buffer := zeroBuffer MaxSendSize, s_intraframe_seqno := 0,
        bytes_remaining := 200, buffer := 0, trace := [] }
      (by decide) (by simp [zeroBuffer]; decide) (by simp [rampFrame])
      (by decide)⟩

/-! ## The order of the packets within one call of `loop()` -/

theorem sentPackets_frameTrace (maxSendSize s : Nat) (out_frame : esp_audio_enc_out_frame_t) :
    sentPackets (frameTrace maxSendSize s out_frame)
      = (List.range (numPackets out_frame.encoded_bytes (maxSendSize - HeaderSize))).map
          (framePacket (maxSendSize - HeaderSize)
            (numPackets out_frame.encoded_bytes (maxSendSize - HeaderSize)) s
            out_frame.buffer out_frame.encoded_bytes) := by
  unfold frameTrace
  rw [sentPackets_loopTrace]
  exact List.map_congr_left (fun j _ => loopPacket_eq_framePacket _ _ _ _ _ _)

theorem sentPackets_chunksTrace (maxSendSize : Nat) (enc : Nat → EncoderResult)
    (recording : List Nat) (off r F e0 s0 j : Nat) :
    sentPackets (chunksTrace maxSendSize enc recording off r F e0 s0 j)
      = (List.range j).flatMap (fun i =>
          (List.range (numPackets (enc (e0 + i)).out_frame.encoded_bytes
              (maxSendSize - HeaderSize))).map
            (framePacket (maxSendSize - HeaderSize)
              (numPackets (enc (e0 + i)).out_frame.encoded_bytes (maxSendSize - HeaderSize))
              ((s0 + i) % 256) (enc (e0 + i)).out_frame.buffer
              (enc (e0 + i)).out_frame.encoded_bytes)) := by
  induction j with
  | zero => simp [chunksTrace_zero, sentPackets]
  | succ j ih =>
    rw [chunksTrace_snoc, sentPackets_append, ih, List.range_succ, List.flatMap_append]
    congr 1
    unfold chunkTrace
    simp [sentPackets, sentPackets_frameTrace]

theorem sentPackets_loop_tail (failed : Bool) (f : esp_audio_enc_in_frame_t) :
    sentPackets (if failed then
        [Effect.esp_aac_enc_process f, Effect.println Message.encoderProcessFailed]
      else []) = [] := by
  cases failed <;> rfl

/-- C21. Send order: within one `loop()` call on a connected device whose
capture returns bytes, the payloads sent are, in order, slice 0, slice 1, ...
of the first chunk's encoded frame, then slice 0, slice 1, ... of the second
chunk's frame, and so on over the chunks whose encoder call succeeded (all the
chunks when no call fails); the index nibbles sent are, in the same order, the
slice indices modulo 16. So the `k`-th packet of a frame carries its `k`-th
slice, and every packet of an earlier frame precedes every packet of a later
one. -/
theorem send_order (maxSendSize fuel : Nat) (w : World) (d : Device)
    (hc : d.s_is_connected = true) (hd : DeviceOk maxSendSize d) (hw : WorldOk fuel w)
    (hB : 0 < (w.i2s_read w.reads).bytes_recorded) :
    ∃ d1 w1 t j, loop maxSendSize fuel w d = some (d1, w1, t)
      ∧ j ≤ numPackets (w.i2s_read w.reads).bytes_recorded d.s_frame_in_bytes
      ∧ ((∀ i, i < numPackets (w.i2s_read w.reads).bytes_recorded d.s_frame_in_bytes →
            (w.esp_aac_enc_process (w.encodes + i)).status = ESP_AUDIO_ERR_OK) →
          j = numPackets (w.i2s_read w.reads).bytes_recorded d.s_frame_in_bytes)
      ∧ (sentPackets t).map payload
          = (List.range j).flatMap (fun i =>
              (List.range (numPackets
                  (w.esp_aac_enc_process (w.encodes + i)).out_frame.encoded_bytes
                  (maxSendSize - HeaderSize))).map
                (fun k => slice (encodedFrame (w.esp_aac_enc_process (w.encodes + i)).out_frame)
                  (k * (maxSendSize - HeaderSize))
                  (min ((k + 1) * (maxSendSize - HeaderSize))
                    (w.esp_aac_enc_process (w.encodes + i)).out_frame.encoded_bytes)))
      ∧ (sentPackets t).map packetIndex
          = (List.range j).flatMap (fun i =>
              (List.range (numPackets
                  (w.esp_aac_enc_process (w.encodes + i)).out_frame.encoded_bytes
                  (maxSendSize - HeaderSize))).map (fun k => k % 16)) := by
  obtain ⟨j, failed, g, inp, cf, hrun, hj, -, hok, hfail, -, -, -, -⟩ :=
    loop_spec maxSendSize fuel w d hc hd hw hB
  have hps : sentPackets (Effect.i2s_read d.s_frame_in_bytes
      :: (chunksTrace maxSendSize w.esp_aac_enc_process (w.i2s_read w.reads).buffer 0
            (w.i2s_read w.reads).bytes_recorded d.s_frame_in_bytes w.encodes
            d.s_interframe_seqno j
          ++ (if failed then
                [Effect.esp_aac_enc_process
                    { buffer := chunkInput (w.i2s_read w.reads).buffer 0
                        (w.i2s_read w.reads).bytes_recorded d.s_frame_in_bytes j
                      len := d.s_frame_in_bytes },
                  Effect.println Message.encoderProcessFailed]
              else [])))
      = sentPackets (chunksTrace maxSendSize w.esp_aac_enc_process (w.i2s_read w.reads).buffer 0
            (w.i2s_read w.reads).bytes_recorded d.s_frame_in_bytes w.encodes
            d.s_interframe_seqno j) := by
    show sentPackets (_ ++ _) = _
    rw [sentPackets_append, sentPackets_loop_tail, List.append_nil]
  refine ⟨_, _, _, j, hrun, hj, ?_, ?_, ?_⟩
  · intro hall
    cases hf : failed with
    | false => exact hok hf
    | true =>
      obtain ⟨hlt, hne⟩ := hfail hf
      exact absurd (hall j hlt) hne
  · rw [hps, sentPackets_chunksTrace, List.map_flatMap]
    congr 1
    funext i
    rw [List.map_map]
    apply List.map_congr_left
    intro k _
    simp only [Function.comp, payload_framePacket, encodedFrame, slice_encodedFrame]
  · rw [hps, sentPackets_chunksTrace, List.map_flatMap]
    congr 1
    funext i
    rw [List.map_map]
    apply List.map_congr_left
    intro k _
    exact (framePacket_fields _ _ _ _ _ _).2.2

theorem demoDeviceWith_ok (seq F : Nat) (h : seq < 256) (hF : 0 < F) :
    DeviceOk MaxSendSize (demoDeviceWith seq F) :=
  ⟨by decide, by simp [demoDeviceWith, demoDevice, zeroBuffer], by simp [demoDeviceWith],
    hF, h⟩

/-- An instance: a capture of 8 bytes encoded in chunks of 3 bytes (three
chunks), each encoded frame of 200 bytes (two packets at the configured
sizes). -/
theorem send_order_witness :
    ((demoDeviceWith 7 3).s_is_connected = true
      ∧ DeviceOk MaxSendSize (demoDeviceWith 7 3) ∧ WorldOk 200 (demoWorld 8 0 200)
      ∧ 0 < ((demoWorld 8 0 200).i2s_read (demoWorld 8 0 200).reads).bytes_recorded)
    ∧ ∃ d1 w1 t j,
        loop MaxSendSize 200 (demoWorld 8 0 200) (demoDeviceWith 7 3) = some (d1, w1, t)
        ∧ j ≤ numPackets ((demoWorld 8 0 200).i2s_read (demoWorld 8 0 200).reads).bytes_recorded
            (demoDeviceWith 7 3).s_frame_in_bytes
        ∧ ((∀ i, i < numPackets
                ((demoWorld 8 0 200).i2s_read (demoWorld 8 0 200).reads).bytes_recorded
                (demoDeviceWith 7 3).s_frame_in_bytes →
              ((demoWorld 8 0 200).esp_aac_enc_process ((demoWorld 8 0 200).encodes + i)).status
                = ESP_AUDIO_ERR_OK) →
            j = numPackets
                ((demoWorld 8 0 200).i2s_read (demoWorld 8 0 200).reads).bytes_recorded
                (demoDeviceWith 7 3).s_frame_in_bytes)
        ∧ (sentPackets t).map payload
            = (List.range j).flatMap (fun i =>
                (List.range (numPackets
                    ((demoWorld 8 0 200).esp_aac_enc_process
                      ((demoWorld 8 0 200).encodes + i)).out_frame.encoded_bytes
                    (MaxSendSize - HeaderSize))).map
                  (fun k => slice
                    (encodedFrame ((demoWorld 8 0 200).esp_aac_enc_process
                      ((demoWorld 8 0 200).encodes + i)).out_frame)
                    (k * (MaxSendSize - HeaderSize))
                    (min ((k + 1) * (MaxSendSize - HeaderSize))
                      ((demoWorld 8 0 200).esp_aac_enc_process
                        ((demoWorld 8 0 200).encodes + i)).out_frame.encoded_bytes)))
        ∧ (sentPackets t).map packetIndex
            = (List.range j).flatMap (fun i =>
                (List.range (numPackets
                    ((demoWorld 8 0 200).esp_aac_enc_process
                      ((demoWorld 8 0 200).encodes + i)).out_frame.encoded_bytes
                    (MaxSendSize - HeaderSize))).map (fun k => k % 16)) :=
  ⟨⟨rfl, demoDeviceWith_ok 7 3 (by decide) (by decide),
      demoWorld_ok 8 0 200 200 (by decide) (by decide) (by decide), (by decide : 0 < 8)⟩,
    send_order MaxSendSize 200 (demoWorld 8 0 200) (demoDeviceWith 7 3) rfl
      (demoDeviceWith_ok 7 3 (by decide) (by decide))
      (demoWorld_ok 8 0 200 200 (by decide) (by decide) (by decide)) (by decide : 0 < 8)⟩

/-! ## Every captured byte is encoded exactly once -/

theorem encoderInputs_append (t u : List Effect) :
    encoderInputs (t ++ u) = encoderInputs t ++ encoderInputs u := by
  induction t with
  | nil => rfl
  | cons e t ih =>
    cases e <;> simp [encoderInputs, ih]

theorem encoderInputs_eq_nil (t : List Effect)
    (h : ∀ e ∈ t, ∀ f, e ≠ Effect.esp_aac_enc_process f) : encoderInputs t = [] := by
  induction t with
  | nil => rfl
  | cons e t ih =>
    have ht := ih (fun e1 he1 => h e1 (List.mem_cons_of_mem _ he1))
    cases e with
    | esp_aac_enc_process f => exact absurd rfl (h _ (List.mem_cons_self _ _) f)
    | send v => simpa [encoderInputs] using ht
    | delay ms => simpa [encoderInputs] using ht
    | i2s_read n => simpa [encoderInputs] using ht
    | println m => simpa [encoderInputs] using ht
    | startAdvertising => simpa [encoderInputs] using ht

theorem encoderInputs_frameTrace (maxSendSize s : Nat) (out_frame : esp_audio_enc_out_frame_t) :
    encoderInputs (frameTrace maxSendSize s out_frame) = [] := by
  apply encoderInputs_eq_nil
  intro e he f hf
  rcases mem_frameTrace he with h1 | ⟨p, hp, -⟩
  · rw [h1] at hf; cases hf
  · rw [hp] at hf; cases hf

theorem encoderInputs_chunksTrace (maxSendSize : Nat) (enc : Nat → EncoderResult)
    (recording : List Nat) (off r F e0 s0 j : Nat) :
    encoderInputs (chunksTrace maxSendSize enc recording off r F e0 s0 j)
      = (List.range j).map (fun i =>
          ({ buffer := chunkInput recording off r F i, len := F } : esp_audio_enc_in_frame_t)) := by
  induction j with
  | zero => simp [chunksTrace_zero, encoderInputs]
  | succ j ih =>
    rw [chunksTrace_snoc, encoderInputs_append, ih, List.range_succ, List.map_append]
    congr 1
    unfold chunkTrace
    simp [encoderInputs, encoderInputs_frameTrace]

theorem flatten_chunkInputs (recording : List Nat) (F : Nat) (hF : 0 < F) :
    ∀ (r off : Nat),
      ((List.range (numPackets r F)).map (chunkInput recording off r F)).flatten
        = (recording.drop off).take r ++ List.replicate (numPackets r F * F - r) 0 := by
  intro r
  induction r using Nat.strong_induction_on with
  | _ r ih =>
    intro off
    rcases Nat.eq_zero_or_pos r with hr0 | hpos
    · subst hr0
      simp [numPackets_zero]
    · rcases Nat.lt_or_ge F r with hlt | hge
      · rw [numPackets_gt hF hlt, List.range_succ_eq_map, List.map_cons, List.map_map,
          List.flatten_cons]
        have hfun : (chunkInput recording off r F ∘ Nat.succ)
            = chunkInput recording (off + F) (r - F) F := by
          funext i
          exact (chunkInput_succ recording off r F i).symm
        rw [hfun, ih (r - F) (by omega) (off + F)]
        have h0 : chunkInput recording off r F 0 = (recording.drop off).take F := by
          unfold chunkInput
          have hmin : min F (r - 0 * F) = F := by
            rw [Nat.zero_mul]; omega
          rw [hmin, Nat.zero_mul, Nat.add_zero, Nat.sub_self]
          simp
        have e : r = F + (r - F) := by omega
        have hz : (numPackets (r - F) F + 1) * F - r
            = numPackets (r - F) F * F - (r - F) := by
          rw [Nat.succ_mul]; omega
        rw [h0, hz, ← List.append_assoc]
        congr 1
        conv_rhs => rw [e, List.take_add, List.drop_drop]
      · rw [numPackets_le hpos hge, show List.range 1 = [0] from rfl]
        have hmin : min F r = r := by omega
        simp [chunkInput, hmin]

theorem pad_lt_chunk {F : Nat} (hF : 0 < F) {B : Nat} (hB : 0 < B) :
    B ≤ numPackets B F * F ∧ numPackets B F * F - B < F := by
  have hpos := numPackets_pos hF hB
  obtain ⟨m, hm⟩ : ∃ m, numPackets B F = m + 1 := ⟨numPackets B F - 1, by omega⟩
  have h1 := (lt_numPackets_iff hF B m).1 (by omega)
  have h2 : ¬ (numPackets B F * F < B) := fun h =>
    absurd ((lt_numPackets_iff hF B (numPackets B F)).2 h) (Nat.lt_irrefl _)
  rw [hm, Nat.succ_mul] at h2 ⊢
  omega

/-- C25. Every captured byte is encoded exactly once: on a connected device
with input frames of `F ≥ 1` bytes, for every capture result of `B > 0` bytes,
when no encoder call fails, `loop()` invokes the encoder exactly `ceil(B / F)`
times, each time with an input of exactly `F` bytes, and the concatenation of
those inputs is the `B` captured bytes followed by `ceil(B / F) * F - B < F`
zero bytes. -/
theorem captured_bytes_encoded_once (maxSendSize fuel : Nat) (w : World) (d : Device)
    (hc : d.s_is_connected = true) (hd : DeviceOk maxSendSize d) (hw : WorldOk fuel w)
    (hB : 0 < (w.i2s_read w.reads).bytes_recorded)
    (hok : ∀ i, i < numPackets (w.i2s_read w.reads).bytes_recorded d.s_frame_in_bytes →
      (w.esp_aac_enc_process (w.encodes + i)).status = ESP_AUDIO_ERR_OK) :
    ∃ d1 w1 t, loop maxSendSize fuel w d = some (d1, w1, t)
      ∧ (encoderInputs t).length
          = ⌈((w.i2s_read w.reads).bytes_recorded : ℚ) / (d.s_frame_in_bytes : ℚ)⌉₊
      ∧ w1.encodes = w.encodes
          + ⌈((w.i2s_read w.reads).bytes_recorded : ℚ) / (d.s_frame_in_bytes : ℚ)⌉₊
      ∧ (∀ f ∈ encoderInputs t,
          f.len = d.s_frame_in_bytes ∧ f.buffer.length = d.s_frame_in_bytes)
      ∧ ((encoderInputs t).map (fun f => f.buffer)).flatten
          = (w.i2s_read w.reads).buffer.take (w.i2s_read w.reads).bytes_recorded
            ++ List.replicate
                (⌈((w.i2s_read w.reads).bytes_recorded : ℚ) / (d.s_frame_in_bytes : ℚ)⌉₊
                    * d.s_frame_in_bytes - (w.i2s_read w.reads).bytes_recorded) 0
      ∧ (w.i2s_read w.reads).bytes_recorded
          ≤ ⌈((w.i2s_read w.reads).bytes_recorded : ℚ) / (d.s_frame_in_bytes : ℚ)⌉₊
              * d.s_frame_in_bytes
      ∧ ⌈((w.i2s_read w.reads).bytes_recorded : ℚ) / (d.s_frame_in_bytes : ℚ)⌉₊
            * d.s_frame_in_bytes - (w.i2s_read w.reads).bytes_recorded
          < d.s_frame_in_bytes := by
  obtain ⟨j, failed, g, inp, cf, hrun, -, -, hjok, hfail, -, -, -, -⟩ :=
    loop_spec maxSendSize fuel w d hc hd hw hB
  have hF : 0 < d.s_frame_in_bytes := hd.2.2.2.1
  have hcl : (w.i2s_read w.reads).bytes_recorded ≤ (w.i2s_read w.reads).buffer.length :=
    (hw.1 w.reads).1
  have hff : failed = false := by
    cases hf : failed with
    | false => rfl
    | true =>
      obtain ⟨hlt, hne⟩ := hfail hf
      exact absurd (hok j hlt) hne
  subst hff
  have hj := hjok rfl
  subst hj
  simp only [Bool.false_eq_true, if_false, List.append_nil, Nat.add_zero] at hrun
  have hin : encoderInputs (Effect.i2s_read d.s_frame_in_bytes
      :: chunksTrace maxSendSize w.esp_aac_enc_process (w.i2s_read w.reads).buffer 0
          (w.i2s_read w.reads).bytes_recorded d.s_frame_in_bytes w.encodes d.s_interframe_seqno
          (numPackets (w.i2s_read w.reads).bytes_recorded d.s_frame_in_bytes))
      = (List.range (numPackets (w.i2s_read w.reads).bytes_recorded d.s_frame_in_bytes)).map
          (fun i => ({ buffer := chunkInput (w.i2s_read w.reads).buffer 0
                        (w.i2s_read w.reads).bytes_recorded d.s_frame_in_bytes i
                       len := d.s_frame_in_bytes } : esp_audio_enc_in_frame_t)) :=
    encoderInputs_chunksTrace _ _ _ _ _ _ _ _ _
  obtain ⟨hle, hpad⟩ := pad_lt_chunk hF hB
  rw [← numPackets_eq_ceil hF]
  refine ⟨_, _, _, hrun, ?_, rfl, ?_, ?_, hle, hpad⟩
  · rw [hin, List.length_map, List.length_range]
  · intro f hf
    rw [hin, List.mem_map] at hf
    obtain ⟨i, -, rfl⟩ := hf
    exact ⟨rfl, chunkInput_length _ 0 _ _ i (by omega)⟩
  · rw [hin, List.map_map]
    have h := flatten_chunkInputs (w.i2s_read w.reads).buffer d.s_frame_in_bytes hF
      (w.i2s_read w.reads).bytes_recorded 0
    rw [List.drop_zero] at h
    exact h

/-- An instance: a capture of 8 bytes encoded in chunks of 3 bytes, every
encoder call succeeding with a 6-byte frame. -/
theorem captured_bytes_encoded_once_witness :
    ((demoDeviceWith 7 3).s_is_connected = true
      ∧ DeviceOk MaxSendSize (demoDeviceWith 7 3) ∧ WorldOk 8 (demoWorld 8 0 6)
      ∧ 0 < ((demoWorld 8 0 6).i2s_read (demoWorld 8 0 6).reads).bytes_recorded
      ∧ ∀ i, i < numPackets ((demoWorld 8 0 6).i2s_read (demoWorld 8 0 6).reads).bytes_recorded
            (demoDeviceWith 7 3).s_frame_in_bytes →
          ((demoWorld 8 0 6).esp_aac_enc_process ((demoWorld 8 0 6).encodes + i)).status
            = ESP_AUDIO_ERR_OK)
    ∧ ∃ d1 w1 t, loop MaxSendSize 8 (demoWorld 8 0 6) (demoDeviceWith 7 3) = some (d1, w1, t)
      ∧ (encoderInputs t).length
          = ⌈(((demoWorld 8 0 6).i2s_read (demoWorld 8 0 6).reads).bytes_recorded : ℚ)
              / ((demoDeviceWith 7 3).s_frame_in_bytes : ℚ)⌉₊
      ∧ w1.encodes = (demoWorld 8 0 6).encodes
          + ⌈(((demoWorld 8 0 6).i2s_read (demoWorld 8 0 6).reads).bytes_recorded : ℚ)
              / ((demoDeviceWith 7 3).s_frame_in_bytes : ℚ)⌉₊
      ∧ (∀ f ∈ encoderInputs t,
          f.len = (demoDeviceWith 7 3).s_frame_in_bytes
            ∧ f.buffer.length = (demoDeviceWith 7 3).s_frame_in_bytes)
      ∧ ((encoderInputs t).map (fun f => f.buffer)).flatten
          = ((demoWorld 8 0 6).i2s_read (demoWorld 8 0 6).reads).buffer.take
              ((demoWorld 8 0 6).i2s_read (demoWorld 8 0 6).reads).bytes_recorded
            ++ List.replicate
                (⌈(((demoWorld 8 0 6).i2s_read (demoWorld 8 0 6).reads).bytes_recorded : ℚ)
                      / ((demoDeviceWith 7 3).s_frame_in_bytes : ℚ)⌉₊
                    * (demoDeviceWith 7 3).s_frame_in_bytes
                  - ((demoWorld 8 0 6).i2s_read (demoWorld 8 0 6).reads).bytes_recorded) 0
      ∧ ((demoWorld 8 0 6).i2s_read (demoWorld 8 0 6).reads).bytes_recorded
          ≤ ⌈(((demoWorld 8 0 6).i2s_read (demoWorld 8 0 6).reads).bytes_recorded : ℚ)
                / ((demoDeviceWith 7 3).s_frame_in_bytes : ℚ)⌉₊
              * (demoDeviceWith 7 3).s_frame_in_bytes
      ∧ ⌈(((demoWorld 8 0 6).i2s_read (demoWorld 8 0 6).reads).bytes_recorded : ℚ)
              / ((demoDeviceWith 7 3).s_frame_in_bytes : ℚ)⌉₊
            * (demoDeviceWith 7 3).s_frame_in_bytes
          - ((demoWorld 8 0 6).i2s_read (demoWorld 8 0 6).reads).bytes_recorded
          < (demoDeviceWith 7 3).s_frame_in_bytes :=
  ⟨⟨rfl, demoDeviceWith_ok 7 3 (by decide) (by decide),
      demoWorld_ok 8 0 6 8 (by decide) (by decide) (by decide), (by decide : 0 < 8),
      fun _ _ => rfl⟩,
    captured_bytes_encoded_once MaxSendSize 8 (demoWorld 8 0 6) (demoDeviceWith 7 3) rfl
      (demoDeviceWith_ok 7 3 (by decide) (by decide))
      (demoWorld_ok 8 0 6 8 (by decide) (by decide) (by decide)) (by decide : 0 < 8)
      (fun _ _ => rfl)⟩

/-! ## An encoder that does not open -/

theorem setup_failed_open (sw : SetupWorld) (d : Device)
    (hopen : sw.esp_aac_enc_open ≠ 0) (hmic : sw.i2s_begin = true) :
    setup sw d
      = some ({ d with s_encoder_handle := sw.enc_hd },
          [Effect.startAdvertising, Effect.println (Message.mtuSize sw.mtu),
            Effect.println Message.unableToCreateEncoder,
            Effect.println Message.setupCompleted]) := by
  unfold setup setup_microphone setup_aac_encoder
  simp [hopen, hmic]

theorem loop_after_failed_open (maxSendSize fuel : Nat) (sw : SetupWorld) (w : World)
    (hopen : sw.esp_aac_enc_open ≠ 0) (hmic : sw.i2s_begin = true)
    (hB : (w.i2s_read w.reads).bytes_recorded = 0) :
    ∃ d t, setup sw (initDevice maxSendSize) = some (d, t)
      ∧ ∃ d1 w1, loop maxSendSize fuel w (onConnect d).1
          = some (d1, w1, [Effect.i2s_read 0, Effect.println Message.recordingFailed]) := by
  exact ⟨_, _, setup_failed_open sw _ hopen hmic, _, _,
    loop_capture_failed maxSendSize fuel w _ rfl hB⟩

/-- C22, the code at the failing input: with an encoder that does not open and
a microphone that starts, `setup()` returns after printing "Error: Unable to
create encoder" and "Setup completed", leaving `s_frame_in_bytes` at 0; once a
peer has connected, `loop()` issues a capture read (of size 0) and, the read
giving no byte, prints "Recording failed!". -/
theorem encoder_open_failure_not_fatal :
    ∃ d t, setup failedOpenSetup (initDevice MaxSendSize) = some (d, t)
      ∧ t = [Effect.startAdvertising, Effect.println (Message.mtuSize 185),
              Effect.println Message.unableToCreateEncoder,
              Effect.println Message.setupCompleted]
      ∧ d.s_frame_in_bytes = 0
      ∧ (onConnect d).1.s_is_connected = true
      ∧ ∃ d1 w1, loop MaxSendSize 8 (demoWorld 0 0 6) (onConnect d).1
          = some (d1, w1, [Effect.i2s_read 0, Effect.println Message.recordingFailed]) :=
  ⟨_, _, rfl, rfl, rfl, rfl, _, _, rfl⟩

end Owl
